import Mathlib

/-!
Verification of the chat backend's presence and message-delivery state
machine (NestJS gateway `ChatGateway`, service `ChatService`, controller
`ChatController`).

The embedding is a faithful translation of the TypeScript source into pure
Lean functions over an explicit system state:

* Redis is modelled as association lists: the presence index
  (`user:<userId>` keys) and the pending receipt-status index
  (`messageStatus:<userId>:<roomId>:<messageId>` keys).  A pending key is
  structured (`PKey`); its message segment is either a concrete message id
  (`MsgRef.mId`) or the literal `*` character that the gateway's
  wildcard-delete calls use (`MsgRef.star`).
* MongoDB documents (`ChatRoom`, `Message` with embedded `receivers`)
  are lists of structures; `updateOne` with a positional `$` operator is
  translated as update-of-the-first-match.
* Each socket (`Conn`) carries the dynamic attributes the gateway stashes
  on the client object (`userId`, `roomId`) plus its socket.io room
  membership (`joined`).
* Each gateway handler is a pure state transformer; the system's reachable
  states are generated by an `Op`/`Step` transition relation from an empty
  start state over a fixed (well-formed) room list, mirroring that rooms
  are created over HTTP, outside the gateway.
-/

namespace NestChat

/-- Message delivery status, from `enums/message-status.enum`. -/
inductive MessageStatus where
  | SENT
  | DELIVERED
  | SEEN
  deriving DecidableEq, Repr

/-- Numeric rank of a status in the delivery order SENT < DELIVERED < SEEN. -/
def MessageStatus.rank : MessageStatus → Nat
  | .SENT => 0
  | .DELIVERED => 1
  | .SEEN => 2

/-- One entry of a message's `receivers` vector (per-recipient receipt). -/
structure Receiver where
  userId : String
  status : MessageStatus
  deriving DecidableEq, Repr

/-- A stored chat message.  `mid` stands for the Mongo `_id`; ids are
assigned from the state's counter in creation order, so `mid` also plays
the role of the `createdAt` sort key. -/
structure Message where
  mid : Nat
  room_id : String
  sender_id : String
  body : String
  receivers : List Receiver
  deriving DecidableEq, Repr

/-- One entry of a room's participant list (only the field the gateway
reads). -/
structure Participant where
  userId : String
  deriving DecidableEq, Repr

/-- A chat room as the gateway sees it. -/
structure Room where
  rid : String
  participants : List Participant
  deriving DecidableEq, Repr

/-- The message segment of a `messageStatus:` Redis key: a concrete
message id, or the literal `*` character used by the gateway's
wildcard-delete calls (`del` of `messageStatus:u:r:*`). -/
inductive MsgRef where
  | mId (n : Nat)
  | star
  deriving DecidableEq, Repr

/-- A structured `messageStatus:<userId>:<roomId>:<msgRef>` Redis key. -/
structure PKey where
  userId : String
  roomId : String
  msgRef : MsgRef
  deriving DecidableEq, Repr

/-- A live socket together with the attributes the gateway stashes on it:
the authenticated user (`client.userId`), the current-room attribute
(`client.roomId`, absent until the first join), and the set of socket.io
rooms the socket has joined (`client.join` / `client.leave`). -/
structure Conn where
  cid : String
  userId : String
  roomId : Option String
  joined : List String
  deriving DecidableEq, Repr

/-- The whole system state: the two Redis indexes, the socket registry,
and the durable Mongo collections. -/
structure ChatState where
  presence : List (String × String)
  pending : List (PKey × MessageStatus)
  sockets : List Conn
  rooms : List Room
  messages : List Message
  nextId : Nat
  deriving DecidableEq, Repr

/-! Association-list primitives standing for the Redis string commands
`SET`, `GET`, `DEL` (exact-key semantics). -/

/-- Redis `SET`: overwrite the value at `k` if present, append otherwise. -/
def alSet {κ ν : Type} [DecidableEq κ] (l : List (κ × ν)) (k : κ) (v : ν) :
    List (κ × ν) :=
  if l.any (fun kv => kv.1 = k) then
    l.map (fun kv => if kv.1 = k then (k, v) else kv)
  else
    l ++ [(k, v)]

/-- Redis `GET`. -/
def alGet {κ ν : Type} [DecidableEq κ] (l : List (κ × ν)) (k : κ) : Option ν :=
  (l.find? (fun kv => kv.1 = k)).map (fun kv => kv.2)

/-- Redis `DEL` of one exact key. -/
def alDel {κ ν : Type} [DecidableEq κ] (l : List (κ × ν)) (k : κ) :
    List (κ × ν) :=
  l.filter (fun kv => ¬ kv.1 = k)

/-! The `ChatService` operations the gateway calls (chat.service). -/

/-- Service `getRoom` via `findById` (the service turns a missing room into
a thrown `NotFoundException`; the gateway's catch block turns that into a
failure response, so the gateway-visible behaviour is this `Option`). -/
def getRoom (s : ChatState) (roomId : String) : Option Room :=
  s.rooms.find? (fun r => r.rid = roomId)

/-- Service `isUserInRoom`: `findOne` on room id plus an embedded
participant with the given user id. -/
def isUserInRoom (s : ChatState) (roomId userId : String) : Bool :=
  s.rooms.any (fun r => r.rid = roomId ∧ r.participants.any (fun p => p.userId = userId))

/-- Service `saveMessage`: one receipt per receiver id, each initialized
to SENT; the new document's id comes from the state's counter. -/
def saveMessage (s : ChatState) (roomId senderId body : String)
    (receiverIds : List String) : Message × ChatState :=
  let receivers := receiverIds.map (fun u => Receiver.mk u .SENT)
  let m : Message := ⟨s.nextId, roomId, senderId, body, receivers⟩
  (m, { s with messages := s.messages ++ [m], nextId := s.nextId + 1 })

/-- Positional `receivers.$.status` update: only the first receipt whose
`userId` matches is set. -/
def updateReceiverStatus : List Receiver → String → MessageStatus → List Receiver
  | [], _, _ => []
  | r :: rest, u, st =>
    if r.userId = u then { r with status := st } :: rest
    else r :: updateReceiverStatus rest u st

/-- Service `updateMessageStatus`: `updateOne` matching on both `_id` and
an embedded receiver with the given user id, setting that receiver's
status; a no-op when no document matches. -/
def updateMessageStatus : List Message → Nat → String → MessageStatus → List Message
  | [], _, _, _ => []
  | m :: rest, mid, u, st =>
    if m.mid = mid ∧ m.receivers.any (fun r => r.userId = u) then
      { m with receivers := updateReceiverStatus m.receivers u st } :: rest
    else m :: updateMessageStatus rest mid u st

/-- The gateway extracts the message id of a status key with
`key.split(material).pop()`; on a wildcard key that yields the literal `*`
character, which matches no document `_id`, making the `updateOne` a
no-op. -/
def updateMessageStatusRef (msgs : List Message) (ref : MsgRef) (u : String)
    (st : MessageStatus) : List Message :=
  match ref with
  | .mId n => updateMessageStatus msgs n u st
  | .star => msgs

/-- The order key used by `getMessagesForRoom`: ascending `createdAt`,
which in this embedding is the ascending message id. -/
def midLE (a b : Message) : Prop := a.mid ≤ b.mid

instance : DecidableRel midLE := fun a b => Nat.decLe a.mid b.mid

instance : IsTotal Message midLE := ⟨fun a b => Nat.le_total a.mid b.mid⟩

instance : IsTrans Message midLE := ⟨fun _ _ _ => Nat.le_trans⟩

/-- Service `getMessagesForRoom`: all messages of the room sorted by
ascending creation time. -/
def getMessagesForRoom (s : ChatState) (roomId : String) : List Message :=
  List.insertionSort midLE (s.messages.filter (fun m => m.room_id = roomId))

/-! The gateway handlers (chat.gateway). -/

/-- Response of the unread-messages handler. -/
structure UnreadSummary where
  success : Bool
  totalUnreadCount : Nat
  roomUnreadCounts : List (String × Nat)
  deriving DecidableEq, Repr

/-- The handler's guard `status === SENT || status === DELIVERED` applied
to a fetched (possibly absent) value. -/
def isPendingVal (v : Option MessageStatus) : Bool :=
  match v with
  | some .SENT => true
  | some .DELIVERED => true
  | _ => false

/-- One iteration of the unread-messages loop over a status key: count it
and promote it to DELIVERED (Redis and store) when its current value is
SENT or DELIVERED; the per-room count is bumped only when the room segment
of the key is non-empty (the handler's truthiness check on the parsed
room id). -/
def unreadStep (userId : String) (acc : ChatState × UnreadSummary) (k : PKey) :
    ChatState × UnreadSummary :=
  let s := acc.1
  let sum := acc.2
  if isPendingVal (alGet s.pending k) then
    let sum1 : UnreadSummary :=
      { success := true
        totalUnreadCount := sum.totalUnreadCount + 1
        roomUnreadCounts :=
          if k.roomId = "" then sum.roomUnreadCounts
          else alSet sum.roomUnreadCounts k.roomId
            ((alGet sum.roomUnreadCounts k.roomId).getD 0 + 1) }
    let s1 : ChatState :=
      { s with
        pending := alSet s.pending k .DELIVERED
        messages := updateMessageStatusRef s.messages k.msgRef userId .DELIVERED }
    (s1, sum1)
  else (s, sum)

/-- The key snapshot `KEYS messageStatus:<userId>:*` fetched at the start
of the unread-messages handler: all status keys whose user segment is this
user. -/
def userStatusKeys (pending : List (PKey × MessageStatus)) (userId : String) :
    List PKey :=
  (pending.filter (fun kv => kv.1.userId = userId)).map (fun kv => kv.1)

/-- Gateway `handleUnreadMessages` for an authenticated user. -/
def handleUnreadMessages (s : ChatState) (userId : String) :
    ChatState × UnreadSummary :=
  (userStatusKeys s.pending userId).foldl (unreadStep userId) (s, ⟨true, 0, []⟩)

/-- Response of the load-messages handler. -/
structure LoadResponse where
  success : Bool
  message : String
  messages : List Message
  deriving DecidableEq, Repr

/-- The load-messages filter: the fetched message has a receipt for this
user whose status is not SEEN. -/
def isUnreadFor (userId : String) (m : Message) : Bool :=
  match m.receivers.find? (fun r => r.userId = userId) with
  | some receiver => ¬ receiver.status = MessageStatus.SEEN
  | none => false

/-- One iteration of the load-messages loop: mark the receipt SEEN in the
store and delete the corresponding pending status key. -/
def loadSeenStep (userId roomId : String) (st : ChatState) (m : Message) :
    ChatState :=
  { st with
    messages := updateMessageStatus st.messages m.mid userId .SEEN
    pending := alDel st.pending ⟨userId, roomId, .mId m.mid⟩ }

/-- Gateway `handleLoadMessages`, given the client socket.  There is no
room-existence or membership check: only the current-room attribute
gates the handler. -/
def handleLoadMessages (s : ChatState) (c : Conn) : ChatState × LoadResponse :=
  match c.roomId with
  | none => (s, ⟨false, "You are not in a room", []⟩)
  | some roomId =>
    if roomId = "" then (s, ⟨false, "You are not in a room", []⟩)
    else
      let messages := getMessagesForRoom s roomId
      let unreadMessages := messages.filter (isUnreadFor c.userId)
      if unreadMessages.isEmpty then (s, ⟨true, "", messages⟩)
      else
        (unreadMessages.foldl (loadSeenStep c.userId roomId) s,
         ⟨true, "", messages⟩)

/-- Replace the socket with the same id (mutation of a client object's
attributes in place). -/
def updateConn (s : ChatState) (c : Conn) : ChatState :=
  { s with sockets := s.sockets.map (fun c0 => if c0.cid = c.cid then c else c0) }

/-- The cleanup call issued by join-room and leave-room: a Redis `DEL` of
the single literal key whose message segment is the `*` character. -/
def wildcardStatusDelete (pending : List (PKey × MessageStatus))
    (userId roomId : String) : List (PKey × MessageStatus) :=
  alDel pending ⟨userId, roomId, .star⟩

/-- Response of the join-room handler. -/
structure JoinResponse where
  success : Bool
  message : String
  roomId : Option String
  deriving DecidableEq, Repr

/-- Gateway `handleJoinRoom`.  The current-room attribute is assigned
before the existence and membership checks, exactly as in the source; a
thrown `NotFoundException` from `getRoom` is caught by the generic catch
block (it is not a `WsException`), producing the generic failure
message. -/
def handleJoinRoom (s : ChatState) (cid roomId : String) :
    ChatState × JoinResponse :=
  match s.sockets.find? (fun c => c.cid = cid) with
  | none => (s, ⟨false, "An error occurred while joining the room", none⟩)
  | some c =>
    let c0 : Conn := { c with roomId := some roomId }
    let s0 := updateConn s c0
    match getRoom s0 roomId with
    | none => (s0, ⟨false, "An error occurred while joining the room", none⟩)
    | some _ =>
      if ¬ isUserInRoom s0 roomId c0.userId then
        (s0, ⟨false, "You are not authorized to join this room", none⟩)
      else
        let c1 : Conn :=
          { c0 with joined := if roomId ∈ c0.joined then c0.joined else roomId :: c0.joined }
        let s1 := updateConn s0 c1
        let s2 := { s1 with pending := wildcardStatusDelete s1.pending c1.userId roomId }
        let s3 := (handleLoadMessages s2 c1).1
        (s3, ⟨true, "Room joined successfully.", some roomId⟩)

/-- Response of the leave-room handler. -/
structure LeaveResponse where
  success : Bool
  message : String
  deriving DecidableEq, Repr

/-- Gateway `handleLeaveRoom`.  Neither the current-room attribute nor
the user attribute is cleared on leave; only the socket.io membership and
the wildcard key are touched before the unread sweep. -/
def handleLeaveRoom (s : ChatState) (cid : String) : ChatState × LeaveResponse :=
  match s.sockets.find? (fun c => c.cid = cid) with
  | none => (s, ⟨false, "An error occurred while leaving the room"⟩)
  | some c =>
    match c.roomId with
    | none => (s, ⟨false, "An error occurred while leaving the room"⟩)
    | some roomId =>
      match getRoom s roomId with
      | none => (s, ⟨false, "An error occurred while leaving the room"⟩)
      | some _ =>
        if ¬ isUserInRoom s roomId c.userId then
          (s, ⟨false, "You are not authorized to leave this room"⟩)
        else
          let c1 : Conn := { c with joined := c.joined.filter (fun r => ¬ r = roomId) }
          let s1 := updateConn s c1
          let s2 := { s1 with pending := wildcardStatusDelete s1.pending c.userId roomId }
          let s3 := (handleUnreadMessages s2 c.userId).1
          (s3, ⟨true, "Room left successfully."⟩)

/-- Response of the send-message handler. -/
structure SendResponse where
  success : Bool
  message : String
  deriving DecidableEq, Repr

/-- Per-recipient resolution inside the send loop: resolve the presence
entry, then the socket, then room co-presence; SEEN for a recipient whose
socket is in the room, DELIVERED plus an unread sweep for a connected
recipient outside the room, SENT for an offline recipient; nothing at all
when the presence entry points at no live socket. -/
def deliverTo (roomId : String) (mid : Nat) (s : ChatState) (participantId : String) :
    ChatState :=
  match alGet s.presence participantId with
  | some clientId =>
    match s.sockets.find? (fun c => c.cid = clientId) with
    | some socket =>
      if roomId ∈ socket.joined then
        { s with
          pending := alSet s.pending ⟨participantId, roomId, .mId mid⟩ .SEEN
          messages := updateMessageStatus s.messages mid participantId .SEEN }
      else
        let s1 : ChatState :=
          { s with
            pending := alSet s.pending ⟨participantId, roomId, .mId mid⟩ .DELIVERED
            messages := updateMessageStatus s.messages mid participantId .DELIVERED }
        (handleUnreadMessages s1 socket.userId).1
    | none => s
  | none =>
    { s with pending := alSet s.pending ⟨participantId, roomId, .mId mid⟩ .SENT }

/-- Gateway `handleSendMessage`. -/
def handleSendMessage (s : ChatState) (cid body : String) :
    ChatState × SendResponse :=
  match s.sockets.find? (fun c => c.cid = cid) with
  | none => (s, ⟨false, "An error occurred while sending the message"⟩)
  | some c =>
    match c.roomId with
    | none => (s, ⟨false, "You are not in a room"⟩)
    | some roomId =>
      if roomId = "" then (s, ⟨false, "You are not in a room"⟩)
      else
        match getRoom s roomId with
        | none => (s, ⟨false, "An error occurred while sending the message"⟩)
        | some room =>
          if ¬ isUserInRoom s roomId c.userId then
            (s, ⟨false, "You are not a participant of this room"⟩)
          else
            let participants :=
              (room.participants.map (fun p => p.userId)).filter (fun u => ¬ u = c.userId)
            let saved := saveMessage s roomId c.userId body participants
            let s2 := participants.foldl (deliverTo roomId saved.1.mid) saved.2
            (s2, ⟨true, "Success"⟩)

/-- Gateway `handleConnection` on successful authentication: register the
socket, overwrite the presence entry for the user, then run the unread
sweep (whose summary is pushed to the client). -/
def handleConnection (s : ChatState) (userId cid : String) : ChatState :=
  let c : Conn := ⟨cid, userId, none, []⟩
  let s1 : ChatState :=
    { s with sockets := s.sockets ++ [c], presence := alSet s.presence userId cid }
  (handleUnreadMessages s1 userId).1

/-- Gateway `handleDisconnect`: an unconditional Redis `DEL` of the
disconnecting socket's user presence key (the socket itself is removed by
the transport layer). -/
def handleDisconnect (s : ChatState) (cid : String) : ChatState :=
  match s.sockets.find? (fun c => c.cid = cid) with
  | none => s
  | some c =>
    { s with
      presence := alDel s.presence c.userId
      sockets := s.sockets.filter (fun c0 => ¬ c0.cid = cid) }

/-! The transition system generated by the gateway's inbound events. -/

/-- One inbound gateway event. -/
inductive Op where
  | connect (userId cid : String)
  | disconnect (cid : String)
  | joinRoom (cid roomId : String)
  | leaveRoom (cid : String)
  | sendMessage (cid body : String)
  | loadMessages (cid : String)
  | unreadMessages (cid : String)
  deriving DecidableEq, Repr

/-- Apply one event to the state. -/
def applyOp (s : ChatState) : Op → ChatState
  | .connect u cid => handleConnection s u cid
  | .disconnect cid => handleDisconnect s cid
  | .joinRoom cid r => (handleJoinRoom s cid r).1
  | .leaveRoom cid => (handleLeaveRoom s cid).1
  | .sendMessage cid b => (handleSendMessage s cid b).1
  | .loadMessages cid =>
    match s.sockets.find? (fun c => c.cid = cid) with
    | some c => (handleLoadMessages s c).1
    | none => s
  | .unreadMessages cid =>
    match s.sockets.find? (fun c => c.cid = cid) with
    | some c => (handleUnreadMessages s c.userId).1
    | none => s

/-- Event admissibility: a connect carries a fresh socket id and a
non-empty authenticated subject; join-room and send-message inputs have
passed their Zod schemas (room id and message body non-empty). -/
def opOK (s : ChatState) : Op → Bool
  | .connect u cid => (¬ u = "") ∧ s.sockets.all (fun c => ¬ c.cid = cid)
  | .joinRoom _ r => ¬ r = ""
  | .sendMessage _ b => ¬ b = ""
  | _ => true

/-- One admissible transition. -/
def Step (s s' : ChatState) : Prop :=
  ∃ op, opOK s op = true ∧ s' = applyOp s op

/-- Well-formedness of the fixed room collection: distinct room ids and,
per room, distinct participant user ids (the data-model invariant enforced
at room creation and participant addition). -/
def WFRooms (rooms : List Room) : Prop :=
  (rooms.map (fun r => r.rid)).Nodup ∧
  ∀ r ∈ rooms, (r.participants.map (fun p => p.userId)).Nodup

/-- The gateway's start state over a fixed room collection: no sockets, an
empty presence index, an empty pending index, no messages. -/
def initState (rooms : List Room) : ChatState :=
  ⟨[], [], [], rooms, [], 0⟩

/-- A state reachable by gateway events from a start state over some
well-formed room collection. -/
def Reachable (s : ChatState) : Prop :=
  ∃ rooms, WFRooms rooms ∧ Relation.ReflTransGen Step (initState rooms) s

/-! Observation functions on the durable store, with the same
first-matching-document and first-matching-embedded-element semantics as
the Mongo `findOne`/positional-update calls in the source. -/

/-- The receipt status stored for a (message, user) pair: the status of
the first receiver with that user id inside the first message with that
id. -/
def recStatus (msgs : List Message) (n : Nat) (u : String) : Option MessageStatus :=
  (msgs.find? (fun m => m.mid = n)).bind
    (fun m => (m.receivers.find? (fun r => r.userId = u)).map (fun r => r.status))

/-- The room of the message with a given id. -/
def msgRoom (msgs : List Message) (n : Nat) : Option String :=
  (msgs.find? (fun m => m.mid = n)).map (fun m => m.room_id)

/-- The status-independent skeleton of a message: everything the delivery
handlers never mutate. -/
def mSkel (m : Message) : Nat × String × List String :=
  (m.mid, m.room_id, m.receivers.map (fun r => r.userId))

/-- The message ids of a store. -/
def midsOf (msgs : List Message) : List Nat := msgs.map (fun m => m.mid)

/-- Sum of the per-room unread counters. -/
def sumVals (l : List (String × Nat)) : Nat :=
  (l.map (fun kv => kv.2)).sum

/-- The projection property at one (message, user) pair: when the durable
receipt is readable, the pending index entry for it carries exactly the
receipt's status, except that a SEEN receipt may instead have no entry. -/
def ProjAt (s : ChatState) (n : Nat) (u : String) : Prop :=
  ∀ st r, recStatus s.messages n u = some st →
    msgRoom s.messages n = some r →
    alGet s.pending ⟨u, r, MsgRef.mId n⟩ = some st ∨
      (st = MessageStatus.SEEN ∧ alGet s.pending ⟨u, r, MsgRef.mId n⟩ = none)

/-- Structural well-formedness of a state (everything of the state
invariant except the pending-index projection property). -/
structure InvCore (s : ChatState) : Prop where
  midLt : ∀ m ∈ s.messages, m.mid < s.nextId
  midNodup : (midsOf s.messages).Nodup
  recvNodup : ∀ m ∈ s.messages, (m.receivers.map (fun r => r.userId)).Nodup
  pendNodup : (s.pending.map (fun kv => kv.1)).Nodup
  pendWF : ∀ k ∈ s.pending.map (fun kv => kv.1), ∃ n, k.msgRef = MsgRef.mId n ∧
      ∃ m ∈ s.messages, m.mid = n ∧ m.room_id = k.roomId ∧
        k.userId ∈ m.receivers.map (fun r => r.userId)
  pendRoomNE : ∀ k ∈ s.pending.map (fun kv => kv.1), ¬ k.roomId = ""
  presLive : ∀ kv ∈ s.presence, ∃ c ∈ s.sockets, c.cid = kv.2 ∧ c.userId = kv.1
  sockNodup : (s.sockets.map (fun c => c.cid)).Nodup
  roomsWF : WFRooms s.rooms

/-- The full state invariant maintained by every gateway event (proved
below). -/
structure Inv (s : ChatState) extends InvCore s : Prop where
  proj : ∀ n u, ProjAt s n u

/-- The status that the send loop's presence resolution assigns to a
recipient in the pre-send state `s`: SEEN when the resolved socket is in
the room, DELIVERED when it is connected elsewhere, SENT when there is no
presence entry, and nothing when the presence entry points at no live
socket. -/
def presenceResolve (s : ChatState) (roomId : String) (p : String) :
    Option MessageStatus :=
  (alGet s.presence p).elim (some MessageStatus.SENT) (fun clientId =>
    (s.sockets.find? (fun c => c.cid = clientId)).elim none (fun sock =>
      if roomId ∈ sock.joined then some MessageStatus.SEEN
      else some MessageStatus.DELIVERED))

/-- The per-recipient outcome of the send loop for the new message: the
durable receipt and the pending entry both carry exactly the status the
presence resolution assigns. -/
def deliverOutcome (s : ChatState) (roomId : String) (mid0 : Nat) (σ : ChatState)
    (p : String) : Prop :=
  ∀ v, presenceResolve s roomId p = some v →
    recStatus σ.messages mid0 p = some v ∧
      alGet σ.pending (PKey.mk p roomId (MsgRef.mId mid0)) = some v

/-- Induction invariant for the per-recipient delivery loop of the send
handler: `σ` is the state after processing the participants of `allPs`
that are not in the suffix `remPs`, for a message `newMsg` appended with
id `mid0` into room `roomId` on top of the pre-send state `s`. -/
structure SendLoopInv (s : ChatState) (roomId : String) (mid0 : Nat)
    (newMsg : Message) (allPs remPs : List String) (σ : ChatState) : Prop where
  rooms_eq : σ.rooms = s.rooms
  sockets_eq : σ.sockets = s.sockets
  presence_eq : σ.presence = s.presence
  nextId_eq : σ.nextId = s.nextId + 1
  skel_eq : σ.messages.map mSkel = (s.messages ++ [newMsg]).map mSkel
  core : InvCore σ
  remNodup : remPs.Nodup
  remSub : ∀ p ∈ remPs, p ∈ allPs
  projOK : ∀ n u', ¬ (n = mid0 ∧ u' ∈ remPs) → ProjAt σ n u'
  remSENT : ∀ p ∈ remPs, recStatus σ.messages mid0 p = some MessageStatus.SENT ∧
    alGet σ.pending (PKey.mk p roomId (MsgRef.mId mid0)) = none
  doneOut : ∀ p ∈ allPs, p ∉ remPs → deliverOutcome s roomId mid0 σ p

/-! The HTTP room-creation surface (`ChatController.createRoom` and
`ChatService.createRoom`), modelled separately from the gateway since the
claims about it concern a single request.  NestJS exception classes map to
their canonical HTTP statuses. -/

/-- Room kind (`RoomType` in shared/schemas). -/
inductive RoomType where
  | SINGLE
  | GROUP
  deriving DecidableEq, Repr

/-- Participant membership status (`ParticipantStatus`). -/
inductive ParticipantStatus where
  | ACCEPT
  | REJECT
  | BLOCKED
  | REQUEST
  deriving DecidableEq, Repr

/-- The NestJS exception classes thrown on the room-creation path. -/
inductive CtrlError where
  | Conflict
  | BadRequest
  | NotFound
  | Unauthorized
  deriving DecidableEq, Repr

/-- Canonical HTTP status of each exception class.  Schema violations
rejected by the validation pipe (the spec's InvalidArgument category) are
`BadRequestException`s, status 400; `ConflictException` is 409. -/
def CtrlError.httpStatus : CtrlError → Nat
  | .Conflict => 409
  | .BadRequest => 400
  | .NotFound => 404
  | .Unauthorized => 401

/-- Embedded participant document of a room (shared/schemas). -/
structure SParticipant where
  userId : String
  status : ParticipantStatus
  is_deleted : Bool
  deriving DecidableEq, Repr

/-- A room document as the creation path builds it. -/
structure SRoom where
  name : Option String
  rtype : RoomType
  participants : List SParticipant
  admins : List String
  created_by : String
  deriving DecidableEq, Repr

/-- The create-room request body after Zod validation
(`CreateRoomSchema`). -/
structure CreateRoomDto where
  name : Option String
  rtype : RoomType
  participantIds : List String
  deriving DecidableEq, Repr

/-- Service `createRoom` (chat.service): SINGLE-room duplicate and arity
checks, then append the creator as an ACCEPTED participant and sole admin
and persist; an out-of-bounds `participants[0]` read raises a TypeError
that the catch block converts to the generic `BadRequestException`. -/
def serviceCreateRoom (rooms : List SRoom) (name : Option String) (rtype : RoomType)
    (participants0 : List SParticipant) (userId : String) :
    Except CtrlError SRoom × List SRoom :=
  if rtype = RoomType.SINGLE then
    match participants0.head? with
    | none => (.error .BadRequest, rooms)
    | some p0 =>
      if rooms.any (fun r => r.rtype = RoomType.SINGLE ∧
          r.participants.any (fun p => p.userId = userId) ∧
          r.participants.any (fun p => p.userId = p0.userId)) then
        (.error .Conflict, rooms)
      else if ¬ participants0.length = 1 then (.error .Conflict, rooms)
      else
        let room : SRoom :=
          ⟨name, rtype, participants0 ++ [⟨userId, .ACCEPT, false⟩], [userId], userId⟩
        (.ok room, rooms ++ [room])
  else
    let room : SRoom :=
      ⟨name, rtype, participants0 ++ [⟨userId, .ACCEPT, false⟩], [userId], userId⟩
    (.ok room, rooms ++ [room])

/-- Controller `createRoom` (chat.controller): throws a
`ConflictException` when the caller's own id appears in `participantIds`,
before any service call; otherwise maps the ids to REQUEST participants
and delegates to the service. -/
def createRoom (rooms : List SRoom) (dto : CreateRoomDto) (userId : String) :
    Except CtrlError SRoom × List SRoom :=
  if userId ∈ dto.participantIds then (.error .Conflict, rooms)
  else
    serviceCreateRoom rooms dto.name dto.rtype
      (dto.participantIds.map (fun uid => ⟨uid, .REQUEST, false⟩)) userId

/-! Concrete demonstration traces used by the witnesses and
counterexamples: a fixed two-member room plus short event sequences
reaching the states of interest. -/

/-- A room `r` whose members are `a` and `b`. -/
def demoRooms : List Room := [⟨"r", [⟨"a"⟩, ⟨"b"⟩]⟩]

/-- State after `a` connects. -/
def dA1 : ChatState := applyOp (initState demoRooms) (Op.connect "a" "ca")

/-- State after `a` additionally joins `r`. -/
def dA2 : ChatState := applyOp dA1 (Op.joinRoom "ca" "r")

/-- State after `a` additionally sends a message while `b` is offline. -/
def dA3 : ChatState := applyOp dA2 (Op.sendMessage "ca" "hi")

/-- State after `b` then connects (running the unread sweep). -/
def dA4 : ChatState := applyOp dA3 (Op.connect "b" "cb")

/-- State after `a` has joined `r` and `b` connects. -/
def dB1 : ChatState := applyOp dA2 (Op.connect "b" "cb")

/-- State after `b` additionally joins `r` as well. -/
def dB2 : ChatState := applyOp dB1 (Op.joinRoom "cb" "r")

/-- State after `a` sends while `b` is joined to the room. -/
def dB3 : ChatState := applyOp dB2 (Op.sendMessage "ca" "hi")

/-- State after `a` connects with socket `c1`. -/
def dC1 : ChatState := applyOp (initState demoRooms) (Op.connect "a" "c1")

/-- State after `a` reconnects with a fresh socket `c2`. -/
def dC2 : ChatState := applyOp dC1 (Op.connect "a" "c2")

/-- State after the stale first socket `c1` then disconnects. -/
def dC3 : ChatState := applyOp dC2 (Op.disconnect "c1")

/-- State after connected `a` attempts to join a room that does not
exist. -/
def dD2 : ChatState := applyOp dA1 (Op.joinRoom "ca" "nope")

/-- State after the co-present send, when outsider `e` connects. -/
def dE1 : ChatState := applyOp dB3 (Op.connect "e" "ce")

/-- State after `e` additionally attempts to join `r`, which fails for
lack of membership (but still sets the current-room attribute). -/
def dE2 : ChatState := applyOp dE1 (Op.joinRoom "ce" "r")

/-! Association-list lemmas. -/

section AssocList

variable {κ ν : Type} [DecidableEq κ]

theorem alGet_cons (kv : κ × ν) (l : List (κ × ν)) (k : κ) :
    alGet (kv :: l) k = if kv.1 = k then some kv.2 else alGet l k := by
  by_cases h : kv.1 = k <;> simp [alGet, List.find?_cons, h]

theorem alGet_append (l₁ l₂ : List (κ × ν)) (k : κ) :
    alGet (l₁ ++ l₂) k =
      match alGet l₁ k with
      | some v => some v
      | none => alGet l₂ k := by
  induction l₁ with
  | nil => simp [alGet]
  | cons kv rest ih =>
    by_cases h : kv.1 = k <;> simp [alGet_cons, h, ih]

theorem alGet_eq_none_iff (l : List (κ × ν)) (k : κ) :
    alGet l k = none ↔ k ∉ l.map (fun kv => kv.1) := by
  rw [alGet, Option.map_eq_none', List.find?_eq_none]
  constructor
  · intro h hk
    rcases List.mem_map.mp hk with ⟨kv0, hmem, he⟩
    have := h kv0 hmem
    simp [he] at this
  · intro h kv0 hmem
    simp only [decide_eq_true_eq]
    intro he
    exact h (List.mem_map.mpr ⟨kv0, hmem, he⟩)

theorem mem_of_alGet {l : List (κ × ν)} {k : κ} {v : ν} (h : alGet l k = some v) :
    (k, v) ∈ l := by
  rw [alGet] at h
  rcases Option.map_eq_some'.mp h with ⟨kv0, hfind, hv⟩
  have hmem := List.mem_of_find?_eq_some hfind
  have hp := List.find?_some hfind
  simp only [decide_eq_true_eq] at hp
  have : kv0 = (k, v) := Prod.ext hp hv
  exact this ▸ hmem

theorem alGet_of_mem_nodup {l : List (κ × ν)} {k : κ} {v : ν}
    (hnd : (l.map (fun kv => kv.1)).Nodup) (h : (k, v) ∈ l) :
    alGet l k = some v := by
  induction l with
  | nil => simp at h
  | cons kv rest ih =>
    simp only [List.map_cons, List.nodup_cons] at hnd
    rcases List.mem_cons.mp h with h1 | h1
    · rw [← h1, alGet_cons, if_pos rfl]
    · have hk : ¬ kv.1 = k := by
        intro he
        exact hnd.1 (he ▸ (List.mem_map.mpr ⟨(k, v), h1, rfl⟩))
      rw [alGet_cons, if_neg hk]
      exact ih hnd.2 h1

theorem alGet_replace_of_mem (l : List (κ × ν)) (k : κ) (v : ν)
    (h : k ∈ l.map (fun kv => kv.1)) :
    alGet (l.map (fun kv => if kv.1 = k then (k, v) else kv)) k = some v := by
  induction l with
  | nil => simp at h
  | cons kv rest ih =>
    by_cases hh : kv.1 = k
    · simp [alGet_cons, hh]
    · rw [List.map_cons, if_neg hh, alGet_cons, if_neg hh]
      apply ih
      rcases List.mem_map.mp h with ⟨kv0, hmem, he⟩
      rcases List.mem_cons.mp hmem with h1 | h1
      · exact absurd (h1 ▸ he) hh
      · exact List.mem_map.mpr ⟨kv0, h1, he⟩

theorem alGet_replace_ne (l : List (κ × ν)) (k k' : κ) (v : ν) (h : ¬ k' = k) :
    alGet (l.map (fun kv => if kv.1 = k then (k, v) else kv)) k' = alGet l k' := by
  induction l with
  | nil => rfl
  | cons kv rest ih =>
    by_cases hh : kv.1 = k
    · rw [List.map_cons, if_pos hh, alGet_cons, alGet_cons]
      have h1 : ¬ (k, v).1 = k' := fun he => h he.symm
      have h2 : ¬ kv.1 = k' := fun he => h (by rw [← he, hh])
      rw [if_neg h1, if_neg h2]
      exact ih
    · rw [List.map_cons, if_neg hh, alGet_cons, alGet_cons]
      by_cases hk' : kv.1 = k' <;> simp [hk', ih]

theorem alGet_alSet_self (l : List (κ × ν)) (k : κ) (v : ν) :
    alGet (alSet l k v) k = some v := by
  unfold alSet
  by_cases h : l.any (fun kv => kv.1 = k)
  · rw [if_pos h]
    apply alGet_replace_of_mem
    rcases List.any_eq_true.mp h with ⟨kv0, hmem, hk0⟩
    exact List.mem_map.mpr ⟨kv0, hmem, of_decide_eq_true hk0⟩
  · rw [if_neg h, alGet_append]
    have hnone : alGet l k = none := by
      rw [alGet_eq_none_iff]
      intro hk
      rcases List.mem_map.mp hk with ⟨kv0, hmem, he⟩
      exact h (List.any_eq_true.mpr ⟨kv0, hmem, decide_eq_true he⟩)
    rw [hnone]
    simp [alGet_cons]

theorem alGet_alSet_ne (l : List (κ × ν)) (k k' : κ) (v : ν) (h : ¬ k' = k) :
    alGet (alSet l k v) k' = alGet l k' := by
  unfold alSet
  by_cases hany : l.any (fun kv => kv.1 = k)
  · rw [if_pos hany]
    exact alGet_replace_ne l k k' v h
  · rw [if_neg hany, alGet_append]
    have hne : ¬ k = k' := fun he => h he.symm
    cases hget : alGet l k'
    · simp [alGet_cons, hne, alGet]
    · simp

theorem alGet_alDel_self (l : List (κ × ν)) (k : κ) :
    alGet (alDel l k) k = none := by
  rw [alGet_eq_none_iff]
  intro hk
  rcases List.mem_map.mp hk with ⟨kv0, hmem, he⟩
  rw [alDel, List.mem_filter] at hmem
  exact (of_decide_eq_true hmem.2) he

theorem alGet_alDel_ne (l : List (κ × ν)) (k k' : κ) (h : ¬ k' = k) :
    alGet (alDel l k) k' = alGet l k' := by
  induction l with
  | nil => rfl
  | cons kv rest ih =>
    by_cases hh : kv.1 = k
    · have h2 : ¬ kv.1 = k' := fun he => h (by rw [← he, hh])
      have h3 : ¬ k = k' := fun he => h he.symm
      simpa [alDel, List.filter_cons, hh, alGet_cons, h2, h3] using ih
    · by_cases hk' : kv.1 = k'
      · simp [alDel, List.filter_cons, hh, alGet_cons, hk', h]
      · simpa [alDel, List.filter_cons, hh, alGet_cons, hk', h] using ih

theorem alDel_eq_self (l : List (κ × ν)) (k : κ)
    (h : ∀ kv ∈ l, ¬ kv.1 = k) : alDel l k = l := by
  rw [alDel, List.filter_eq_self]
  intro kv hmem
  exact decide_eq_true (h kv hmem)

theorem alSet_map_fst_of_mem (l : List (κ × ν)) (k : κ) (v : ν)
    (h : l.any (fun kv => kv.1 = k)) :
    (alSet l k v).map (fun kv => kv.1) = l.map (fun kv => kv.1) := by
  unfold alSet
  rw [if_pos h, List.map_map]
  apply List.map_congr_left
  intro kv _
  by_cases hh : kv.1 = k <;> simp [hh]

theorem alSet_map_fst_of_not_mem (l : List (κ × ν)) (k : κ) (v : ν)
    (h : ¬ l.any (fun kv => kv.1 = k)) :
    (alSet l k v).map (fun kv => kv.1) = l.map (fun kv => kv.1) ++ [k] := by
  unfold alSet
  rw [if_neg h]
  simp

theorem alSet_nodup_keys (l : List (κ × ν)) (k : κ) (v : ν)
    (hnd : (l.map (fun kv => kv.1)).Nodup) :
    ((alSet l k v).map (fun kv => kv.1)).Nodup := by
  by_cases h : l.any (fun kv => kv.1 = k)
  · rw [alSet_map_fst_of_mem l k v h]
    exact hnd
  · rw [alSet_map_fst_of_not_mem l k v h]
    apply List.Nodup.append hnd (List.nodup_singleton k)
    intro a ha hb
    simp only [List.mem_singleton] at hb
    subst hb
    rcases List.mem_map.mp ha with ⟨kv0, hmem, he⟩
    exact h (List.any_eq_true.mpr ⟨kv0, hmem, decide_eq_true he⟩)

theorem alDel_map_fst_sublist (l : List (κ × ν)) (k : κ) :
    ((alDel l k).map (fun kv => kv.1)).Sublist (l.map (fun kv => kv.1)) :=
  List.Sublist.map _ (List.filter_sublist l)

theorem alDel_nodup_keys (l : List (κ × ν)) (k : κ)
    (hnd : (l.map (fun kv => kv.1)).Nodup) :
    ((alDel l k).map (fun kv => kv.1)).Nodup :=
  (alDel_map_fst_sublist l k).nodup hnd

theorem mem_alSet {l : List (κ × ν)} {k : κ} {v : ν} {kv : κ × ν}
    (h : kv ∈ alSet l k v) : kv = (k, v) ∨ kv ∈ l := by
  unfold alSet at h
  by_cases hany : l.any (fun kv => kv.1 = k)
  · rw [if_pos hany] at h
    rcases List.mem_map.mp h with ⟨kv0, hmem, he⟩
    by_cases hh : kv0.1 = k
    · rw [if_pos hh] at he
      exact Or.inl he.symm
    · rw [if_neg hh] at he
      exact Or.inr (he ▸ hmem)
  · rw [if_neg hany] at h
    rcases List.mem_append.mp h with h1 | h1
    · exact Or.inr h1
    · simp only [List.mem_singleton] at h1
      exact Or.inl h1

theorem mem_alDel {l : List (κ × ν)} {k : κ} {kv : κ × ν}
    (h : kv ∈ alDel l k) : kv ∈ l :=
  List.mem_of_mem_filter h

end AssocList

/-! Durable-store lemmas: the positional update against the observation
functions. -/

theorem urs_map_userId (rs : List Receiver) (u : String) (st : MessageStatus) :
    (updateReceiverStatus rs u st).map (fun r => r.userId) =
      rs.map (fun r => r.userId) := by
  induction rs with
  | nil => rfl
  | cons r rest ih =>
    by_cases h : r.userId = u <;> simp [updateReceiverStatus, h, ih]

theorem ums_map_mSkel (msgs : List Message) (n : Nat) (u : String)
    (st : MessageStatus) :
    (updateMessageStatus msgs n u st).map mSkel = msgs.map mSkel := by
  induction msgs with
  | nil => rfl
  | cons m rest ih =>
    by_cases h : m.mid = n ∧ (m.receivers.any fun r => r.userId = u) = true
    · rw [updateMessageStatus, if_pos h]
      simp [mSkel, urs_map_userId]
    · rw [updateMessageStatus, if_neg h]
      simp [ih]

theorem midsOf_eq_of_skel {msgs msgs' : List Message}
    (h : msgs'.map mSkel = msgs.map mSkel) : midsOf msgs' = midsOf msgs := by
  have h2 := congrArg (List.map (fun p : Nat × String × List String => p.1)) h
  simpa [midsOf, List.map_map, mSkel, Function.comp] using h2

theorem skel_transport {msgs msgs' : List Message}
    (h : msgs'.map mSkel = msgs.map mSkel) :
    ∀ m ∈ msgs, ∃ m' ∈ msgs', m'.mid = m.mid ∧ m'.room_id = m.room_id ∧
      m'.receivers.map (fun r => r.userId) = m.receivers.map (fun r => r.userId) := by
  intro m hm
  have hmem : mSkel m ∈ msgs'.map mSkel := h ▸ List.mem_map_of_mem mSkel hm
  rcases List.mem_map.mp hmem with ⟨m', hm', he⟩
  simp only [mSkel, Prod.mk.injEq] at he
  exact ⟨m', hm', he.1, he.2.1, he.2.2⟩

theorem find?_urs_self (rs : List Receiver) (u : String) (st : MessageStatus) :
    (updateReceiverStatus rs u st).find? (fun r => r.userId = u) =
      (rs.find? (fun r => r.userId = u)).map (fun r => { r with status := st }) := by
  induction rs with
  | nil => rfl
  | cons r rest ih =>
    by_cases h : r.userId = u
    · simp [updateReceiverStatus, h, List.find?_cons]
    · simp [updateReceiverStatus, h, List.find?_cons, ih]

theorem find?_urs_ne (rs : List Receiver) (u u' : String) (st : MessageStatus)
    (h : ¬ u' = u) :
    (updateReceiverStatus rs u st).find? (fun r => r.userId = u') =
      rs.find? (fun r => r.userId = u') := by
  induction rs with
  | nil => rfl
  | cons r rest ih =>
    by_cases hr : r.userId = u
    · have h2 : ¬ r.userId = u' := fun he => h (by rw [← he, hr])
      have h3 : ¬ u = u' := fun he => h he.symm
      simp [updateReceiverStatus, hr, List.find?_cons, h2, h3, ih]
    · by_cases hru : r.userId = u' <;>
        simp [updateReceiverStatus, hr, List.find?_cons, hru, h, ih]

theorem recStatus_cons (m : Message) (rest : List Message) (n : Nat) (u : String) :
    recStatus (m :: rest) n u =
      if m.mid = n then
        (m.receivers.find? (fun r => r.userId = u)).map (fun r => r.status)
      else recStatus rest n u := by
  by_cases h : m.mid = n <;> simp [recStatus, List.find?_cons, h]

theorem msgRoom_cons (m : Message) (rest : List Message) (n : Nat) :
    msgRoom (m :: rest) n = if m.mid = n then some m.room_id else msgRoom rest n := by
  by_cases h : m.mid = n <;> simp [msgRoom, List.find?_cons, h]

theorem recStatus_ums_self (msgs : List Message) (n : Nat) (u : String)
    (st : MessageStatus) :
    recStatus (updateMessageStatus msgs n u st) n u =
      (recStatus msgs n u).map (fun _ => st) := by
  induction msgs with
  | nil => rfl
  | cons m rest ih =>
    by_cases hmid : m.mid = n
    · by_cases hany : (m.receivers.any fun r => r.userId = u) = true
      · rw [updateMessageStatus, if_pos ⟨hmid, hany⟩]
        rw [recStatus_cons, recStatus_cons, if_pos hmid, if_pos hmid]
        rw [find?_urs_self]
        cases hf : m.receivers.find? (fun r => r.userId = u) <;> simp
      · rw [updateMessageStatus, if_neg (fun hc => hany hc.2)]
        rw [recStatus_cons, recStatus_cons, if_pos hmid, if_pos hmid]
        have hf : m.receivers.find? (fun r => r.userId = u) = none := by
          rw [List.find?_eq_none]
          intro r hr
          simp only [decide_eq_true_eq]
          intro he
          exact hany (List.any_eq_true.mpr ⟨r, hr, decide_eq_true he⟩)
        simp [hf]
    · have hcond : ¬ (m.mid = n ∧ (m.receivers.any fun r => r.userId = u) = true) :=
        fun hc => hmid hc.1
      rw [updateMessageStatus, if_neg hcond]
      rw [recStatus_cons, recStatus_cons, if_neg hmid, if_neg hmid]
      exact ih

theorem recStatus_ums_ne (msgs : List Message) (n n' : Nat) (u u' : String)
    (st : MessageStatus) (h : ¬ (n' = n ∧ u' = u)) :
    recStatus (updateMessageStatus msgs n u st) n' u' = recStatus msgs n' u' := by
  induction msgs with
  | nil => rfl
  | cons m rest ih =>
    by_cases hcond : m.mid = n ∧ (m.receivers.any fun r => r.userId = u) = true
    · rw [updateMessageStatus, if_pos hcond]
      by_cases hm' : m.mid = n'
      · have hn : n' = n := by rw [← hm', hcond.1]
        have hu : ¬ u' = u := fun hu => h ⟨hn, hu⟩
        rw [recStatus_cons, recStatus_cons, if_pos hm', if_pos hm']
        rw [find?_urs_ne _ _ _ _ hu]
      · rw [recStatus_cons, recStatus_cons, if_neg hm', if_neg hm']
    · rw [updateMessageStatus, if_neg hcond]
      by_cases hm' : m.mid = n'
      · rw [recStatus_cons, recStatus_cons, if_pos hm', if_pos hm']
      · rw [recStatus_cons, recStatus_cons, if_neg hm', if_neg hm']
        exact ih

theorem msgRoom_ums (msgs : List Message) (n n' : Nat) (u : String)
    (st : MessageStatus) :
    msgRoom (updateMessageStatus msgs n u st) n' = msgRoom msgs n' := by
  induction msgs with
  | nil => rfl
  | cons m rest ih =>
    by_cases hcond : m.mid = n ∧ (m.receivers.any fun r => r.userId = u) = true
    · rw [updateMessageStatus, if_pos hcond]
      by_cases hm' : m.mid = n' <;>
        simp [msgRoom_cons, hm']
    · rw [updateMessageStatus, if_neg hcond]
      by_cases hm' : m.mid = n' <;> simp [msgRoom_cons, hm', ih]

theorem recStatus_append_old (msgs : List Message) (m : Message) (n : Nat)
    (u : String) (h : ¬ m.mid = n) :
    recStatus (msgs ++ [m]) n u = recStatus msgs n u := by
  induction msgs with
  | nil => simp [recStatus, List.find?_cons, h]
  | cons m0 rest ih =>
    by_cases h0 : m0.mid = n <;>
      simp [List.cons_append, recStatus_cons, h0, ih]

theorem recStatus_append_new (msgs : List Message) (m : Message) (u : String)
    (h : ∀ m0 ∈ msgs, ¬ m0.mid = m.mid) :
    recStatus (msgs ++ [m]) m.mid u =
      (m.receivers.find? (fun r => r.userId = u)).map (fun r => r.status) := by
  induction msgs with
  | nil => simp [recStatus_cons]
  | cons m0 rest ih =>
    have h0 : ¬ m0.mid = m.mid := h m0 (List.mem_cons_self _ _)
    rw [List.cons_append, recStatus_cons, if_neg h0]
    exact ih (fun m1 hm1 => h m1 (List.mem_cons_of_mem _ hm1))

theorem msgRoom_append_old (msgs : List Message) (m : Message) (n : Nat)
    (h : ¬ m.mid = n) :
    msgRoom (msgs ++ [m]) n = msgRoom msgs n := by
  induction msgs with
  | nil => simp [msgRoom_cons, h, msgRoom]
  | cons m0 rest ih =>
    by_cases h0 : m0.mid = n <;>
      simp [List.cons_append, msgRoom_cons, h0, ih]

theorem msgRoom_append_new (msgs : List Message) (m : Message)
    (h : ∀ m0 ∈ msgs, ¬ m0.mid = m.mid) :
    msgRoom (msgs ++ [m]) m.mid = some m.room_id := by
  induction msgs with
  | nil => simp [msgRoom_cons]
  | cons m0 rest ih =>
    have h0 : ¬ m0.mid = m.mid := h m0 (List.mem_cons_self _ _)
    rw [List.cons_append, msgRoom_cons, if_neg h0]
    exact ih (fun m1 hm1 => h m1 (List.mem_cons_of_mem _ hm1))

theorem find?_mid_of_nodup {msgs : List Message} {m : Message}
    (hnd : (midsOf msgs).Nodup) (hm : m ∈ msgs) :
    msgs.find? (fun m0 => m0.mid = m.mid) = some m := by
  induction msgs with
  | nil => simp at hm
  | cons m0 rest ih =>
    simp only [midsOf, List.map_cons, List.nodup_cons] at hnd
    rcases List.mem_cons.mp hm with h1 | h1
    · subst h1
      simp [List.find?_cons]
    · have hne : ¬ m0.mid = m.mid := by
        intro he
        exact hnd.1 (he ▸ List.mem_map_of_mem (fun m => m.mid) h1)
      simp only [List.find?_cons, hne, decide_eq_true_eq, if_neg]
      have := ih (by simpa [midsOf] using hnd.2) h1
      simpa [hne] using this

theorem recStatus_of_mem {msgs : List Message} {m : Message} (u : String)
    (hnd : (midsOf msgs).Nodup) (hm : m ∈ msgs) :
    recStatus msgs m.mid u =
      (m.receivers.find? (fun r => r.userId = u)).map (fun r => r.status) := by
  rw [recStatus, find?_mid_of_nodup hnd hm]
  rfl

theorem msgRoom_of_mem {msgs : List Message} {m : Message}
    (hnd : (midsOf msgs).Nodup) (hm : m ∈ msgs) :
    msgRoom msgs m.mid = some m.room_id := by
  rw [msgRoom, find?_mid_of_nodup hnd hm]
  rfl

theorem find?_userId_isSome {rs : List Receiver} {u : String}
    (h : u ∈ rs.map (fun r => r.userId)) :
    (rs.find? (fun r => r.userId = u)).isSome := by
  rw [List.find?_isSome]
  rcases List.mem_map.mp h with ⟨r, hr, he⟩
  exact ⟨r, hr, decide_eq_true he⟩

/-! Lemmas about the unread-messages sweep, stated for the fold over an
arbitrary key snapshot and then specialized to the handler. -/

theorem isPendingVal_some {v : Option MessageStatus} (h : isPendingVal v = true) :
    v = some MessageStatus.SENT ∨ v = some MessageStatus.DELIVERED := by
  match v with
  | none => simp [isPendingVal] at h
  | some .SENT => exact Or.inl rfl
  | some .DELIVERED => exact Or.inr rfl
  | some .SEEN => simp [isPendingVal] at h

theorem isPendingVal_isSome {v : Option MessageStatus} (h : isPendingVal v = true) :
    v.isSome := by
  rcases isPendingVal_some h with h1 | h1 <;> simp [h1]

theorem umsRef_map_mSkel (msgs : List Message) (ref : MsgRef) (u : String)
    (st : MessageStatus) :
    (updateMessageStatusRef msgs ref u st).map mSkel = msgs.map mSkel := by
  cases ref with
  | mId n => exact ums_map_mSkel msgs n u st
  | star => rfl

theorem recStatus_umsRef_ne (msgs : List Message) (ref : MsgRef) (n' : Nat)
    (u u' : String) (st : MessageStatus)
    (h : ∀ n, ref = MsgRef.mId n → ¬ (n' = n ∧ u' = u)) :
    recStatus (updateMessageStatusRef msgs ref u st) n' u' = recStatus msgs n' u' := by
  cases ref with
  | mId n => exact recStatus_ums_ne msgs n n' u u' st (h n rfl)
  | star => rfl

theorem unreadStep_eq (u : String) (s : ChatState) (sum : UnreadSummary) (k : PKey) :
    unreadStep u (s, sum) k =
      if isPendingVal (alGet s.pending k) then
        ({ s with
            pending := alSet s.pending k .DELIVERED
            messages := updateMessageStatusRef s.messages k.msgRef u .DELIVERED },
         { success := true
           totalUnreadCount := sum.totalUnreadCount + 1
           roomUnreadCounts :=
             if k.roomId = "" then sum.roomUnreadCounts
             else alSet sum.roomUnreadCounts k.roomId
               ((alGet sum.roomUnreadCounts k.roomId).getD 0 + 1) })
      else (s, sum) := rfl

theorem unreadFold_rooms (u : String) (ks : List PKey) (s : ChatState)
    (sum : UnreadSummary) :
    (ks.foldl (unreadStep u) (s, sum)).1.rooms = s.rooms := by
  induction ks generalizing s sum with
  | nil => rfl
  | cons k rest ih =>
    rw [List.foldl_cons, unreadStep_eq]
    by_cases h : isPendingVal (alGet s.pending k) = true
    · rw [if_pos h]
      exact ih _ _
    · rw [if_neg h]
      exact ih _ _

theorem unreadFold_sockets (u : String) (ks : List PKey) (s : ChatState)
    (sum : UnreadSummary) :
    (ks.foldl (unreadStep u) (s, sum)).1.sockets = s.sockets := by
  induction ks generalizing s sum with
  | nil => rfl
  | cons k rest ih =>
    rw [List.foldl_cons, unreadStep_eq]
    by_cases h : isPendingVal (alGet s.pending k) = true
    · rw [if_pos h]
      exact ih _ _
    · rw [if_neg h]
      exact ih _ _

theorem unreadFold_presence (u : String) (ks : List PKey) (s : ChatState)
    (sum : UnreadSummary) :
    (ks.foldl (unreadStep u) (s, sum)).1.presence = s.presence := by
  induction ks generalizing s sum with
  | nil => rfl
  | cons k rest ih =>
    rw [List.foldl_cons, unreadStep_eq]
    by_cases h : isPendingVal (alGet s.pending k) = true
    · rw [if_pos h]
      exact ih _ _
    · rw [if_neg h]
      exact ih _ _

theorem unreadFold_nextId (u : String) (ks : List PKey) (s : ChatState)
    (sum : UnreadSummary) :
    (ks.foldl (unreadStep u) (s, sum)).1.nextId = s.nextId := by
  induction ks generalizing s sum with
  | nil => rfl
  | cons k rest ih =>
    rw [List.foldl_cons, unreadStep_eq]
    by_cases h : isPendingVal (alGet s.pending k) = true
    · rw [if_pos h]
      exact ih _ _
    · rw [if_neg h]
      exact ih _ _

theorem unreadFold_skel (u : String) (ks : List PKey) (s : ChatState)
    (sum : UnreadSummary) :
    (ks.foldl (unreadStep u) (s, sum)).1.messages.map mSkel =
      s.messages.map mSkel := by
  induction ks generalizing s sum with
  | nil => rfl
  | cons k rest ih =>
    rw [List.foldl_cons, unreadStep_eq]
    by_cases h : isPendingVal (alGet s.pending k) = true
    · rw [if_pos h]
      rw [ih _ _]
      exact umsRef_map_mSkel s.messages k.msgRef u .DELIVERED
    · rw [if_neg h]
      exact ih _ _

theorem any_fst_of_mem {κ ν : Type} [DecidableEq κ] {l : List (κ × ν)} {k : κ}
    (h : k ∈ l.map (fun kv => kv.1)) : l.any (fun kv => kv.1 = k) = true := by
  rcases List.mem_map.mp h with ⟨kv, hmem, he⟩
  exact List.any_eq_true.mpr ⟨kv, hmem, decide_eq_true he⟩

theorem unreadFold_keys (u : String) (ks : List PKey) (s : ChatState)
    (sum : UnreadSummary) :
    (ks.foldl (unreadStep u) (s, sum)).1.pending.map (fun kv => kv.1) =
      s.pending.map (fun kv => kv.1) := by
  induction ks generalizing s sum with
  | nil => rfl
  | cons k rest ih =>
    rw [List.foldl_cons, unreadStep_eq]
    by_cases h : isPendingVal (alGet s.pending k) = true
    · rw [if_pos h]
      rw [ih _ _]
      apply alSet_map_fst_of_mem
      apply any_fst_of_mem
      by_contra hno
      have hnone : alGet s.pending k = none := (alGet_eq_none_iff _ _).mpr hno
      rw [hnone] at h
      simp [isPendingVal] at h
    · rw [if_neg h]
      exact ih _ _

theorem unreadFold_alGet (u : String) (ks : List PKey) (s : ChatState)
    (sum : UnreadSummary) (hnd : ks.Nodup) (k' : PKey) :
    alGet (ks.foldl (unreadStep u) (s, sum)).1.pending k' =
      if k' ∈ ks ∧ isPendingVal (alGet s.pending k') = true
      then some MessageStatus.DELIVERED else alGet s.pending k' := by
  induction ks generalizing s sum with
  | nil => simp
  | cons k rest ih =>
    have hnd1 := List.nodup_cons.mp hnd
    rw [List.foldl_cons, unreadStep_eq]
    by_cases h : isPendingVal (alGet s.pending k) = true
    · rw [if_pos h]
      rw [ih _ _ hnd1.2]
      by_cases hk : k' = k
      · subst hk
        rw [if_neg (fun hc => hnd1.1 hc.1)]
        rw [alGet_alSet_self]
        rw [if_pos ⟨List.mem_cons_self _ _, h⟩]
      · rw [alGet_alSet_ne _ _ _ _ hk]
        by_cases hr : k' ∈ rest ∧ isPendingVal (alGet s.pending k') = true
        · rw [if_pos hr, if_pos ⟨List.mem_cons_of_mem _ hr.1, hr.2⟩]
        · rw [if_neg hr]
          rw [if_neg (fun hc => hr ⟨(List.mem_cons.mp hc.1).resolve_left hk, hc.2⟩)]
    · rw [if_neg h]
      rw [ih _ _ hnd1.2]
      by_cases hk : k' = k
      · subst hk
        rw [if_neg (fun hc => hnd1.1 hc.1), if_neg (fun hc => h hc.2)]
      · by_cases hr : k' ∈ rest ∧ isPendingVal (alGet s.pending k') = true
        · rw [if_pos hr, if_pos ⟨List.mem_cons_of_mem _ hr.1, hr.2⟩]
        · rw [if_neg hr]
          rw [if_neg (fun hc => hr ⟨(List.mem_cons.mp hc.1).resolve_left hk, hc.2⟩)]

theorem unreadFold_recStatus (u : String) (ks : List PKey) (s : ChatState)
    (sum : UnreadSummary) (hnd : ks.Nodup)
    (hinj : ∀ k1 ∈ ks, ∀ k2 ∈ ks, k1.msgRef = k2.msgRef → k1 = k2)
    (n : Nat) (u' : String) :
    recStatus (ks.foldl (unreadStep u) (s, sum)).1.messages n u' =
      if u' = u ∧ ∃ k ∈ ks, k.msgRef = MsgRef.mId n ∧
          isPendingVal (alGet s.pending k) = true
      then (recStatus s.messages n u').map (fun _ => MessageStatus.DELIVERED)
      else recStatus s.messages n u' := by
  induction ks generalizing s sum with
  | nil => simp
  | cons k rest ih =>
    have hnd1 := List.nodup_cons.mp hnd
    have hinj1 : ∀ k1 ∈ rest, ∀ k2 ∈ rest, k1.msgRef = k2.msgRef → k1 = k2 :=
      fun k1 h1 k2 h2 => hinj k1 (List.mem_cons_of_mem _ h1) k2 (List.mem_cons_of_mem _ h2)
    rw [List.foldl_cons, unreadStep_eq]
    by_cases h : isPendingVal (alGet s.pending k) = true
    · rw [if_pos h]
      rw [ih _ _ hnd1.2 hinj1]
      dsimp only
      have hpend : ∀ k2 ∈ rest, alGet (alSet s.pending k MessageStatus.DELIVERED) k2 =
          alGet s.pending k2 := by
        intro k2 h2
        exact alGet_alSet_ne _ _ _ _ (fun he => hnd1.1 (he ▸ h2))
      cases href : k.msgRef with
      | star =>
        have hnok : ¬ (k.msgRef = MsgRef.mId n ∧ isPendingVal (alGet s.pending k) = true) := by
          rw [href]
          rintro ⟨hc, -⟩
          exact MsgRef.noConfusion hc
        by_cases hc : u' = u ∧ ∃ k2 ∈ rest, k2.msgRef = MsgRef.mId n ∧
            isPendingVal (alGet s.pending k2) = true
        · rcases hc.2 with ⟨k2, hk2, hk2n, hk2p⟩
          rw [if_pos ⟨hc.1, k2, hk2, hk2n, (hpend k2 hk2) ▸ hk2p⟩]
          rw [if_pos ⟨hc.1, k2, List.mem_cons_of_mem _ hk2, hk2n, hk2p⟩]
          rfl
        · rw [if_neg (fun hcc => hc ⟨hcc.1, by
            rcases hcc.2 with ⟨k2, hk2, hk2n, hk2p⟩
            exact ⟨k2, hk2, hk2n, (hpend k2 hk2).symm ▸ hk2p⟩⟩)]
          rw [if_neg (fun hcc => by
            rcases hcc.2 with ⟨k2, hk2, hk2n, hk2p⟩
            rcases List.mem_cons.mp hk2 with h1 | h1
            · exact hnok ⟨h1 ▸ hk2n, h1 ▸ hk2p⟩
            · exact hc ⟨hcc.1, k2, h1, hk2n, hk2p⟩)]
          rfl
      | mId n0 =>
        have hrest_n0 : ¬ ∃ k2 ∈ rest, k2.msgRef = MsgRef.mId n0 ∧
            isPendingVal (alGet (alSet s.pending k MessageStatus.DELIVERED) k2) = true := by
          rintro ⟨k2, hk2, hk2n, -⟩
          have : k2 = k := hinj k2 (List.mem_cons_of_mem _ hk2) k
            (List.mem_cons_self _ _) (by rw [hk2n, href])
          exact hnd1.1 (this ▸ hk2)
        simp only [updateMessageStatusRef]
        by_cases hn : n = n0
        · subst hn
          by_cases hu : u' = u
          · subst hu
            rw [if_neg (fun hcc => hrest_n0 hcc.2)]
            rw [recStatus_ums_self]
            rw [if_pos ⟨rfl, k, List.mem_cons_self _ _, href, h⟩]
          · rw [if_neg (fun hcc => hu hcc.1), if_neg (fun hcc => hu hcc.1)]
            rw [recStatus_ums_ne _ _ _ _ _ _ (fun hcc => hu hcc.2)]
        · rw [recStatus_ums_ne _ _ _ _ _ _ (fun hcc => hn hcc.1)]
          by_cases hc : u' = u ∧ ∃ k2 ∈ rest, k2.msgRef = MsgRef.mId n ∧
              isPendingVal (alGet s.pending k2) = true
          · rcases hc.2 with ⟨k2, hk2, hk2n, hk2p⟩
            rw [if_pos ⟨hc.1, k2, hk2, hk2n, (hpend k2 hk2) ▸ hk2p⟩]
            rw [if_pos ⟨hc.1, k2, List.mem_cons_of_mem _ hk2, hk2n, hk2p⟩]
          · rw [if_neg (fun hcc => hc ⟨hcc.1, by
              rcases hcc.2 with ⟨k2, hk2, hk2n, hk2p⟩
              exact ⟨k2, hk2, hk2n, (hpend k2 hk2).symm ▸ hk2p⟩⟩)]
            rw [if_neg (fun hcc => by
              rcases hcc.2 with ⟨k2, hk2, hk2n, hk2p⟩
              rcases List.mem_cons.mp hk2 with h1 | h1
              · rw [h1, href] at hk2n
                have := MsgRef.mId.inj hk2n
                exact hn this.symm
              · exact hc ⟨hcc.1, k2, h1, hk2n, hk2p⟩)]
    · rw [if_neg h]
      rw [ih _ _ hnd1.2 hinj1]
      by_cases hc : u' = u ∧ ∃ k2 ∈ rest, k2.msgRef = MsgRef.mId n ∧
          isPendingVal (alGet s.pending k2) = true
      · rcases hc.2 with ⟨k2, hk2, hk2n, hk2p⟩
        rw [if_pos hc, if_pos ⟨hc.1, k2, List.mem_cons_of_mem _ hk2, hk2n, hk2p⟩]
      · rw [if_neg hc]
        rw [if_neg (fun hcc => by
          rcases hcc.2 with ⟨k2, hk2, hk2n, hk2p⟩
          rcases List.mem_cons.mp hk2 with h1 | h1
          · exact h (h1 ▸ hk2p)
          · exact hc ⟨hcc.1, k2, h1, hk2n, hk2p⟩)]

theorem unreadFold_total (u : String) (ks : List PKey) (s : ChatState)
    (sum : UnreadSummary) (hnd : ks.Nodup) :
    (ks.foldl (unreadStep u) (s, sum)).2.totalUnreadCount =
      sum.totalUnreadCount +
        (ks.filter (fun k => isPendingVal (alGet s.pending k))).length := by
  induction ks generalizing s sum with
  | nil => simp
  | cons k rest ih =>
    have hnd1 := List.nodup_cons.mp hnd
    rw [List.foldl_cons, unreadStep_eq]
    by_cases h : isPendingVal (alGet s.pending k) = true
    · rw [if_pos h]
      rw [ih _ _ hnd1.2]
      dsimp only
      have hfeq : rest.filter
            (fun k2 => isPendingVal (alGet (alSet s.pending k MessageStatus.DELIVERED) k2)) =
          rest.filter (fun k2 => isPendingVal (alGet s.pending k2)) := by
        apply List.filter_congr
        intro k2 h2
        have hne : ¬ k2 = k := fun he => hnd1.1 (he ▸ h2)
        rw [alGet_alSet_ne _ _ _ _ hne]
      have hfc : (k :: rest).filter (fun k2 => isPendingVal (alGet s.pending k2)) =
          k :: rest.filter (fun k2 => isPendingVal (alGet s.pending k2)) :=
        List.filter_cons_of_pos (by exact h)
      rw [hfeq, hfc]
      simp only [List.length_cons]
      omega
    · rw [if_neg h]
      rw [ih _ _ hnd1.2]
      have hfc : (k :: rest).filter (fun k2 => isPendingVal (alGet s.pending k2)) =
          rest.filter (fun k2 => isPendingVal (alGet s.pending k2)) :=
        List.filter_cons_of_neg (by simp [h])
      rw [hfc]

theorem map_replace_id {κ ν : Type} [DecidableEq κ] (l : List (κ × ν)) (k : κ) (v : ν)
    (h : ∀ kv ∈ l, ¬ kv.1 = k) :
    l.map (fun kv => if kv.1 = k then (k, v) else kv) = l := by
  induction l with
  | nil => rfl
  | cons kv rest ih =>
    have h0 : ¬ kv.1 = k := h kv (List.mem_cons_self _ _)
    rw [List.map_cons, if_neg h0, ih (fun kv2 h2 => h kv2 (List.mem_cons_of_mem _ h2))]

theorem sumVals_append (l₁ l₂ : List (String × Nat)) :
    sumVals (l₁ ++ l₂) = sumVals l₁ + sumVals l₂ := by
  simp [sumVals]

theorem sumVals_bump (counts : List (String × Nat)) (r : String)
    (hnd : (counts.map (fun kv => kv.1)).Nodup) :
    sumVals (alSet counts r ((alGet counts r).getD 0 + 1)) = sumVals counts + 1 := by
  by_cases h : counts.any (fun kv => kv.1 = r)
  · rw [alSet, if_pos h]
    rcases List.any_eq_true.mp h with ⟨kv0, hmem0, hk0⟩
    have hk0' : kv0.1 = r := of_decide_eq_true hk0
    clear hk0 h
    induction counts with
    | nil => simp at hmem0
    | cons kv rest ih =>
      simp only [List.map_cons, List.nodup_cons] at hnd
      rcases List.mem_cons.mp hmem0 with h1 | h1
      · subst h1
        rw [List.map_cons, if_pos hk0']
        have hrest : ∀ kv2 ∈ rest, ¬ kv2.1 = r := by
          intro kv2 h2 he
          apply hnd.1
          exact List.mem_map.mpr ⟨kv2, h2, by rw [he, hk0']⟩
        rw [map_replace_id rest r _ hrest]
        rw [alGet_cons, if_pos hk0']
        simp [sumVals]
        omega
      · have hne : ¬ kv.1 = r := by
          intro he
          exact hnd.1 (by rw [← he] at hk0'; rw [← hk0']; exact List.mem_map_of_mem _ h1)
        rw [List.map_cons, if_neg hne, alGet_cons, if_neg hne]
        have := ih hnd.2 h1
        simp only [sumVals, List.map_cons, List.sum_cons] at this ⊢
        omega
  · rw [alSet, if_neg h]
    have hnone : alGet counts r = none := by
      rw [alGet_eq_none_iff]
      intro hk
      rcases List.mem_map.mp hk with ⟨kv0, hmem, he⟩
      exact h (List.any_eq_true.mpr ⟨kv0, hmem, decide_eq_true he⟩)
    rw [hnone, sumVals_append]
    simp [sumVals]

theorem unreadFold_sumOK (u : String) (ks : List PKey) (s : ChatState)
    (sum : UnreadSummary)
    (hks : ∀ k ∈ ks, ¬ k.roomId = "")
    (h1 : sum.totalUnreadCount = sumVals sum.roomUnreadCounts)
    (h2 : (sum.roomUnreadCounts.map (fun kv => kv.1)).Nodup) :
    (ks.foldl (unreadStep u) (s, sum)).2.totalUnreadCount =
      sumVals (ks.foldl (unreadStep u) (s, sum)).2.roomUnreadCounts := by
  induction ks generalizing s sum with
  | nil => exact h1
  | cons k rest ih =>
    rw [List.foldl_cons, unreadStep_eq]
    have hkr : ¬ k.roomId = "" := hks k (List.mem_cons_self _ _)
    have hks' : ∀ k2 ∈ rest, ¬ k2.roomId = "" :=
      fun k2 hm => hks k2 (List.mem_cons_of_mem _ hm)
    by_cases h : isPendingVal (alGet s.pending k) = true
    · rw [if_pos h]
      apply ih _ _ hks'
      · dsimp only
        rw [if_neg hkr]
        rw [sumVals_bump _ _ h2, h1]
      · dsimp only
        rw [if_neg hkr]
        exact alSet_nodup_keys _ _ _ h2
    · rw [if_neg h]
      exact ih _ _ hks' h1 h2

theorem userStatusKeys_nodup (pending : List (PKey × MessageStatus)) (u : String)
    (h : (pending.map (fun kv => kv.1)).Nodup) :
    (userStatusKeys pending u).Nodup := by
  have : (userStatusKeys pending u).Sublist (pending.map (fun kv => kv.1)) :=
    List.Sublist.map _ (List.filter_sublist pending)
  exact this.nodup h

theorem mem_userStatusKeys_userId {pending : List (PKey × MessageStatus)}
    {u : String} {k : PKey} (h : k ∈ userStatusKeys pending u) : k.userId = u := by
  rcases List.mem_map.mp h with ⟨kv, hmem, he⟩
  rw [List.mem_filter] at hmem
  rw [← he]
  exact of_decide_eq_true hmem.2

theorem mem_userStatusKeys_keys {pending : List (PKey × MessageStatus)}
    {u : String} {k : PKey} (h : k ∈ userStatusKeys pending u) :
    k ∈ pending.map (fun kv => kv.1) := by
  rcases List.mem_map.mp h with ⟨kv, hmem, he⟩
  rw [List.mem_filter] at hmem
  exact List.mem_map.mpr ⟨kv, hmem.1, he⟩

theorem mem_userStatusKeys_of {pending : List (PKey × MessageStatus)}
    {u : String} {k : PKey} (hu : k.userId = u)
    (hk : k ∈ pending.map (fun kv => kv.1)) : k ∈ userStatusKeys pending u := by
  rcases List.mem_map.mp hk with ⟨kv, hmem, he⟩
  apply List.mem_map.mpr
  refine ⟨kv, List.mem_filter.mpr ⟨hmem, ?_⟩, he⟩
  rw [he]
  exact decide_eq_true hu

theorem unreadFold_roomCount (u : String) (ks : List PKey) (s : ChatState)
    (sum : UnreadSummary) (hnd : ks.Nodup) (r : String) (hr : ¬ r = "") :
    (alGet (ks.foldl (unreadStep u) (s, sum)).2.roomUnreadCounts r).getD 0 =
      (alGet sum.roomUnreadCounts r).getD 0 +
        (ks.filter (fun k =>
          isPendingVal (alGet s.pending k) ∧ k.roomId = r)).length := by
  induction ks generalizing s sum with
  | nil => simp
  | cons k rest ih =>
    have hnd1 := List.nodup_cons.mp hnd
    rw [List.foldl_cons, unreadStep_eq]
    have hfeq : ∀ p : List (PKey × MessageStatus),
        (∀ k2 ∈ rest, alGet p k2 = alGet s.pending k2) →
        rest.filter (fun k2 => isPendingVal (alGet p k2) ∧ k2.roomId = r) =
          rest.filter (fun k2 => isPendingVal (alGet s.pending k2) ∧ k2.roomId = r) := by
      intro p hp
      apply List.filter_congr
      intro k2 h2
      rw [hp k2 h2]
    by_cases h : isPendingVal (alGet s.pending k) = true
    · rw [if_pos h]
      rw [ih _ _ hnd1.2]
      dsimp only
      have hside : ∀ k2 ∈ rest, alGet (alSet s.pending k MessageStatus.DELIVERED) k2 =
          alGet s.pending k2 := by
        intro k2 h2
        have hne : ¬ k2 = k := fun he => hnd1.1 (he ▸ h2)
        exact alGet_alSet_ne _ _ _ _ hne
      rw [hfeq _ hside]
      by_cases hkr : k.roomId = r
      · have hne : ¬ k.roomId = "" := fun he => hr (hkr ▸ he)
        rw [if_neg hne, hkr, alGet_alSet_self]
        have hfc : (k :: rest).filter
              (fun k2 => isPendingVal (alGet s.pending k2) ∧ k2.roomId = r) =
            k :: rest.filter
              (fun k2 => isPendingVal (alGet s.pending k2) ∧ k2.roomId = r) :=
          List.filter_cons_of_pos (by simp [h, hkr])
        rw [hfc]
        simp only [List.length_cons, Option.getD_some]
        omega
      · have halg : (alGet (if k.roomId = "" then sum.roomUnreadCounts
            else alSet sum.roomUnreadCounts k.roomId
              ((alGet sum.roomUnreadCounts k.roomId).getD 0 + 1)) r) =
            alGet sum.roomUnreadCounts r := by
          by_cases hke : k.roomId = ""
          · rw [if_pos hke]
          · rw [if_neg hke]
            exact alGet_alSet_ne _ _ _ _ (fun he => hkr he.symm)
        rw [halg]
        have hfc : (k :: rest).filter
              (fun k2 => isPendingVal (alGet s.pending k2) ∧ k2.roomId = r) =
            rest.filter
              (fun k2 => isPendingVal (alGet s.pending k2) ∧ k2.roomId = r) :=
          List.filter_cons_of_neg (by simp [hkr])
        rw [hfc]
    · rw [if_neg h]
      rw [ih _ _ hnd1.2]
      have hfc : (k :: rest).filter
            (fun k2 => isPendingVal (alGet s.pending k2) ∧ k2.roomId = r) =
          rest.filter
            (fun k2 => isPendingVal (alGet s.pending k2) ∧ k2.roomId = r) :=
        List.filter_cons_of_neg (by simp [h])
      rw [hfc]

/-! Handler-level facts about the unread-messages sweep. -/

theorem msgRoom_umsRef (msgs : List Message) (ref : MsgRef) (u : String)
    (st : MessageStatus) (n' : Nat) :
    msgRoom (updateMessageStatusRef msgs ref u st) n' = msgRoom msgs n' := by
  cases ref with
  | mId n => exact msgRoom_ums msgs n n' u st
  | star => rfl

theorem unreadFold_msgRoom (u : String) (ks : List PKey) (s : ChatState)
    (sum : UnreadSummary) (n : Nat) :
    msgRoom (ks.foldl (unreadStep u) (s, sum)).1.messages n = msgRoom s.messages n := by
  induction ks generalizing s sum with
  | nil => rfl
  | cons k rest ih =>
    rw [List.foldl_cons, unreadStep_eq]
    by_cases h : isPendingVal (alGet s.pending k) = true
    · rw [if_pos h]
      rw [ih _ _]
      exact msgRoom_umsRef s.messages k.msgRef u .DELIVERED n
    · rw [if_neg h]
      exact ih _ _

theorem mem_keys_of_alGet_isSome {κ ν : Type} [DecidableEq κ]
    {l : List (κ × ν)} {k : κ} (h : (alGet l k).isSome) :
    k ∈ l.map (fun kv => kv.1) := by
  by_contra hno
  have hnone := (alGet_eq_none_iff l k).mpr hno
  rw [hnone] at h
  simp at h

theorem mem_mid_inj {msgs : List Message} (hnd : (midsOf msgs).Nodup) :
    ∀ m1 ∈ msgs, ∀ m2 ∈ msgs, m1.mid = m2.mid → m1 = m2 := by
  intro m1 h1 m2 h2 he
  simp only [midsOf] at hnd
  exact List.inj_on_of_nodup_map hnd h1 h2 he

theorem userKeys_msgRef_inj (s : ChatState) (u : String)
    (hmid : (midsOf s.messages).Nodup)
    (hwf : ∀ k ∈ s.pending.map (fun kv => kv.1), ∃ n, k.msgRef = MsgRef.mId n ∧
      ∃ m ∈ s.messages, m.mid = n ∧ m.room_id = k.roomId ∧
        k.userId ∈ m.receivers.map (fun r => r.userId)) :
    ∀ k1 ∈ userStatusKeys s.pending u, ∀ k2 ∈ userStatusKeys s.pending u,
      k1.msgRef = k2.msgRef → k1 = k2 := by
  intro k1 h1 k2 h2 he
  rcases hwf k1 (mem_userStatusKeys_keys h1) with ⟨n1, href1, m1, hm1, hmid1, hroom1, -⟩
  rcases hwf k2 (mem_userStatusKeys_keys h2) with ⟨n2, href2, m2, hm2, hmid2, hroom2, -⟩
  have hn : n1 = n2 := by
    rw [href1, href2] at he
    exact MsgRef.mId.inj he
  have hmeq : m1 = m2 := mem_mid_inj hmid m1 hm1 m2 hm2 (by rw [hmid1, hmid2, hn])
  have hu1 := mem_userStatusKeys_userId h1
  have hu2 := mem_userStatusKeys_userId h2
  cases k1 with
  | mk u1 r1 ref1 =>
    cases k2 with
    | mk u2 r2 ref2 =>
      simp only at hu1 hu2 hroom1 hroom2 he ⊢
      rw [hu1, hu2, he, ← hroom1, ← hroom2, hmeq]

theorem handleUnread_rooms (s : ChatState) (u : String) :
    (handleUnreadMessages s u).1.rooms = s.rooms :=
  unreadFold_rooms u (userStatusKeys s.pending u) s ⟨true, 0, []⟩

theorem handleUnread_sockets (s : ChatState) (u : String) :
    (handleUnreadMessages s u).1.sockets = s.sockets :=
  unreadFold_sockets u (userStatusKeys s.pending u) s ⟨true, 0, []⟩

theorem handleUnread_presence (s : ChatState) (u : String) :
    (handleUnreadMessages s u).1.presence = s.presence :=
  unreadFold_presence u (userStatusKeys s.pending u) s ⟨true, 0, []⟩

theorem handleUnread_nextId (s : ChatState) (u : String) :
    (handleUnreadMessages s u).1.nextId = s.nextId :=
  unreadFold_nextId u (userStatusKeys s.pending u) s ⟨true, 0, []⟩

theorem handleUnread_skel (s : ChatState) (u : String) :
    (handleUnreadMessages s u).1.messages.map mSkel = s.messages.map mSkel :=
  unreadFold_skel u (userStatusKeys s.pending u) s ⟨true, 0, []⟩

theorem handleUnread_keys (s : ChatState) (u : String) :
    (handleUnreadMessages s u).1.pending.map (fun kv => kv.1) =
      s.pending.map (fun kv => kv.1) :=
  unreadFold_keys u (userStatusKeys s.pending u) s ⟨true, 0, []⟩

theorem handleUnread_msgRoom (s : ChatState) (u : String) (n : Nat) :
    msgRoom (handleUnreadMessages s u).1.messages n = msgRoom s.messages n :=
  unreadFold_msgRoom u (userStatusKeys s.pending u) s ⟨true, 0, []⟩ n

theorem handleUnread_alGet (s : ChatState) (u : String)
    (hnd : (s.pending.map (fun kv => kv.1)).Nodup) (k' : PKey) :
    alGet (handleUnreadMessages s u).1.pending k' =
      if k'.userId = u ∧ isPendingVal (alGet s.pending k') = true
      then some MessageStatus.DELIVERED else alGet s.pending k' := by
  unfold handleUnreadMessages
  rw [unreadFold_alGet u (userStatusKeys s.pending u) s ⟨true, 0, []⟩
    (userStatusKeys_nodup _ _ hnd) k']
  by_cases hc : k' ∈ userStatusKeys s.pending u ∧ isPendingVal (alGet s.pending k') = true
  · rw [if_pos hc, if_pos ⟨mem_userStatusKeys_userId hc.1, hc.2⟩]
  · rw [if_neg hc]
    by_cases hc2 : k'.userId = u ∧ isPendingVal (alGet s.pending k') = true
    · exfalso
      apply hc
      refine ⟨mem_userStatusKeys_of hc2.1 ?_, hc2.2⟩
      exact mem_keys_of_alGet_isSome (isPendingVal_isSome hc2.2)
    · rw [if_neg hc2]

theorem handleUnread_recStatus (s : ChatState) (u : String)
    (hnd : (s.pending.map (fun kv => kv.1)).Nodup)
    (hmid : (midsOf s.messages).Nodup)
    (hwf : ∀ k ∈ s.pending.map (fun kv => kv.1), ∃ n, k.msgRef = MsgRef.mId n ∧
      ∃ m ∈ s.messages, m.mid = n ∧ m.room_id = k.roomId ∧
        k.userId ∈ m.receivers.map (fun r => r.userId))
    (n : Nat) (u' : String) :
    recStatus (handleUnreadMessages s u).1.messages n u' =
      if u' = u ∧ ∃ k ∈ userStatusKeys s.pending u, k.msgRef = MsgRef.mId n ∧
          isPendingVal (alGet s.pending k) = true
      then (recStatus s.messages n u').map (fun _ => MessageStatus.DELIVERED)
      else recStatus s.messages n u' := by
  unfold handleUnreadMessages
  exact unreadFold_recStatus u (userStatusKeys s.pending u) s ⟨true, 0, []⟩
    (userStatusKeys_nodup _ _ hnd) (userKeys_msgRef_inj s u hmid hwf) n u'

theorem handleUnread_InvCore (s : ChatState) (u : String) (h : InvCore s) :
    InvCore (handleUnreadMessages s u).1 := by
  have hrooms := handleUnread_rooms s u
  have hsock := handleUnread_sockets s u
  have hpres := handleUnread_presence s u
  have hnext := handleUnread_nextId s u
  have hskel := handleUnread_skel s u
  have hkeys := handleUnread_keys s u
  constructor
  · intro m hm
    rcases skel_transport hskel.symm m hm with ⟨m', hm', hmid', -, -⟩
    rw [hnext, ← hmid']
    exact h.midLt m' hm'
  · rw [midsOf_eq_of_skel hskel]
    exact h.midNodup
  · intro m hm
    rcases skel_transport hskel.symm m hm with ⟨m', hm', -, -, hrecv'⟩
    rw [← hrecv']
    exact h.recvNodup m' hm'
  · rw [hkeys]
    exact h.pendNodup
  · intro k hk
    rw [hkeys] at hk
    rcases h.pendWF k hk with ⟨n, href, m, hm, hmid, hroom, hrecv⟩
    rcases skel_transport hskel m hm with ⟨m2, hm2, hmid2, hroom2, hrecv2⟩
    exact ⟨n, href, m2, hm2, by rw [hmid2, hmid], by rw [hroom2, hroom],
      by rw [hrecv2]; exact hrecv⟩
  · intro k hk
    rw [hkeys] at hk
    exact h.pendRoomNE k hk
  · rw [hpres, hsock]
    exact h.presLive
  · rw [hsock]
    exact h.sockNodup
  · rw [hrooms]
    exact h.roomsWF

theorem handleUnread_ProjAt (s : ChatState) (u : String) (hcore : InvCore s)
    (n : Nat) (u' : String) (hproj : ProjAt s n u') :
    ProjAt (handleUnreadMessages s u).1 n u' := by
  intro st r hrec hroom
  rw [handleUnread_msgRoom] at hroom
  rw [handleUnread_recStatus s u hcore.pendNodup hcore.midNodup hcore.pendWF n u'] at hrec
  rw [handleUnread_alGet s u hcore.pendNodup]
  dsimp only
  by_cases hc : u' = u ∧ ∃ k ∈ userStatusKeys s.pending u, k.msgRef = MsgRef.mId n ∧
      isPendingVal (alGet s.pending k) = true
  · rw [if_pos hc] at hrec
    rcases Option.map_eq_some'.mp hrec with ⟨st0, hst0, hstD⟩
    rcases hc.2 with ⟨k, hk, hkref, hkpend⟩
    rcases hcore.pendWF k (mem_userStatusKeys_keys hk) with ⟨n2, href2, m, hm, hmid, hroomm, -⟩
    have hn2 : n2 = n := by
      rw [href2] at hkref
      exact MsgRef.mId.inj hkref
    have hmn : m.mid = n := by rw [hmid, hn2]
    have hmr : msgRoom s.messages n = some m.room_id := by
      rw [← hmn]
      exact msgRoom_of_mem hcore.midNodup hm
    have hr : m.room_id = r := by
      rw [hmr] at hroom
      exact Option.some_inj.mp hroom
    have hkeq : k = PKey.mk u' r (MsgRef.mId n) := by
      have hku : k.userId = u := mem_userStatusKeys_userId hk
      cases k with
      | mk ku kr kref =>
        simp only at hku hkref hroomm
        rw [hku, hc.1, hkref, ← hroomm, hr]
    have hcond : (PKey.mk u' r (MsgRef.mId n)).userId = u ∧
        isPendingVal (alGet s.pending ⟨u', r, MsgRef.mId n⟩) = true := by
      refine ⟨hc.1, ?_⟩
      rw [← hkeq]
      exact hkpend
    rw [if_pos hcond]
    left
    rw [← hstD]
  · rw [if_neg hc] at hrec
    rcases hproj st r hrec hroom with hold | hold
    · by_cases hc2 : (PKey.mk u' r (MsgRef.mId n)).userId = u ∧
          isPendingVal (alGet s.pending ⟨u', r, MsgRef.mId n⟩) = true
      · exfalso
        apply hc
        refine ⟨hc2.1, ⟨u', r, MsgRef.mId n⟩, ?_, rfl, hc2.2⟩
        exact mem_userStatusKeys_of hc2.1 (mem_keys_of_alGet_isSome (isPendingVal_isSome hc2.2))
      · rw [if_neg hc2]
        exact Or.inl hold
    · by_cases hc2 : (PKey.mk u' r (MsgRef.mId n)).userId = u ∧
          isPendingVal (alGet s.pending ⟨u', r, MsgRef.mId n⟩) = true
      · exfalso
        rw [hold.2] at hc2
        simp [isPendingVal] at hc2
      · rw [if_neg hc2]
        exact Or.inr hold

theorem handleUnread_Inv (s : ChatState) (u : String) (h : Inv s) :
    Inv (handleUnreadMessages s u).1 :=
  { toInvCore := handleUnread_InvCore s u h.toInvCore
    proj := fun n u' => handleUnread_ProjAt s u h.toInvCore n u' (h.proj n u') }

theorem msgRoom_isSome_of_recStatus {msgs : List Message} {n : Nat} {u : String}
    {st : MessageStatus} (h : recStatus msgs n u = some st) :
    ∃ r, msgRoom msgs n = some r := by
  rw [recStatus] at h
  cases hf : msgs.find? (fun m => m.mid = n) with
  | none =>
    rw [hf] at h
    simp at h
  | some m =>
    exact ⟨m.room_id, by rw [msgRoom, hf]; rfl⟩

theorem counted_key_eq (s : ChatState) (u : String) (hcore : InvCore s)
    {k : PKey} (hk : k ∈ userStatusKeys s.pending u) {n : Nat}
    (hkref : k.msgRef = MsgRef.mId n) {r : String}
    (hroom : msgRoom s.messages n = some r) {u' : String} (hu' : u' = u) :
    k = PKey.mk u' r (MsgRef.mId n) := by
  rcases hcore.pendWF k (mem_userStatusKeys_keys hk) with ⟨n2, href2, m, hm, hmid, hroomm, -⟩
  have hn2 : n2 = n := by
    rw [href2] at hkref
    exact MsgRef.mId.inj hkref
  have hmn : m.mid = n := by rw [hmid, hn2]
  have hmr : msgRoom s.messages n = some m.room_id := by
    rw [← hmn]
    exact msgRoom_of_mem hcore.midNodup hm
  have hr : m.room_id = r := by
    rw [hmr] at hroom
    exact Option.some_inj.mp hroom
  have hku : k.userId = u := mem_userStatusKeys_userId hk
  cases k with
  | mk ku kr kref =>
    simp only at hku hkref hroomm
    rw [hku, hu', hkref, ← hroomm, hr]

theorem handleUnread_mono (s : ChatState) (u : String) (hcore : InvCore s)
    (n : Nat) (u' : String) (hproj : ProjAt s n u') (st : MessageStatus)
    (h : recStatus s.messages n u' = some st) :
    ∃ st', recStatus (handleUnreadMessages s u).1.messages n u' = some st' ∧
      st.rank ≤ st'.rank := by
  rw [handleUnread_recStatus s u hcore.pendNodup hcore.midNodup hcore.pendWF n u']
  by_cases hc : u' = u ∧ ∃ k ∈ userStatusKeys s.pending u, k.msgRef = MsgRef.mId n ∧
      isPendingVal (alGet s.pending k) = true
  · rw [if_pos hc, h]
    refine ⟨MessageStatus.DELIVERED, rfl, ?_⟩
    rcases hc.2 with ⟨k, hk, hkref, hkpend⟩
    rcases msgRoom_isSome_of_recStatus h with ⟨r, hroom⟩
    have hkeq := counted_key_eq s u hcore hk hkref hroom hc.1
    rcases hproj st r h hroom with hold | hold
    · have : alGet s.pending k = some st := by rw [hkeq]; exact hold
      rcases isPendingVal_some (this ▸ hkpend) with hv | hv
      · have hst := Option.some_inj.mp hv
        subst hst
        simp [MessageStatus.rank]
      · have hst := Option.some_inj.mp hv
        subst hst
        simp [MessageStatus.rank]
    · exfalso
      have : alGet s.pending k = none := by rw [hkeq]; exact hold.2
      rw [this] at hkpend
      simp [isPendingVal] at hkpend
  · rw [if_neg hc, h]
    exact ⟨st, rfl, Nat.le_refl _⟩

theorem handleUnread_total_spec (s : ChatState) (u : String)
    (hnd : (s.pending.map (fun kv => kv.1)).Nodup) :
    (handleUnreadMessages s u).2.totalUnreadCount =
      ((userStatusKeys s.pending u).filter
        (fun k => isPendingVal (alGet s.pending k))).length := by
  unfold handleUnreadMessages
  rw [unreadFold_total u (userStatusKeys s.pending u) s ⟨true, 0, []⟩
    (userStatusKeys_nodup _ _ hnd)]
  simp

theorem handleUnread_roomCount_spec (s : ChatState) (u : String)
    (hnd : (s.pending.map (fun kv => kv.1)).Nodup) (r : String) (hr : ¬ r = "") :
    (alGet (handleUnreadMessages s u).2.roomUnreadCounts r).getD 0 =
      ((userStatusKeys s.pending u).filter
        (fun k => isPendingVal (alGet s.pending k) ∧ k.roomId = r)).length := by
  unfold handleUnreadMessages
  rw [unreadFold_roomCount u (userStatusKeys s.pending u) s ⟨true, 0, []⟩
    (userStatusKeys_nodup _ _ hnd) r hr]
  simp [alGet]

theorem handleUnread_sumOK (s : ChatState) (u : String)
    (hne : ∀ k ∈ userStatusKeys s.pending u, ¬ k.roomId = "") :
    (handleUnreadMessages s u).2.totalUnreadCount =
      sumVals (handleUnreadMessages s u).2.roomUnreadCounts := by
  unfold handleUnreadMessages
  exact unreadFold_sumOK u (userStatusKeys s.pending u) s ⟨true, 0, []⟩ hne rfl
    List.nodup_nil

/-! Lemmas about the load-messages handler and its mark-seen loop. -/

theorem loadFold_rooms (u roomId : String) (ms : List Message) (s : ChatState) :
    (ms.foldl (loadSeenStep u roomId) s).rooms = s.rooms := by
  induction ms generalizing s with
  | nil => rfl
  | cons m rest ih => rw [List.foldl_cons]; exact ih _

theorem loadFold_sockets (u roomId : String) (ms : List Message) (s : ChatState) :
    (ms.foldl (loadSeenStep u roomId) s).sockets = s.sockets := by
  induction ms generalizing s with
  | nil => rfl
  | cons m rest ih => rw [List.foldl_cons]; exact ih _

theorem loadFold_presence (u roomId : String) (ms : List Message) (s : ChatState) :
    (ms.foldl (loadSeenStep u roomId) s).presence = s.presence := by
  induction ms generalizing s with
  | nil => rfl
  | cons m rest ih => rw [List.foldl_cons]; exact ih _

theorem loadFold_nextId (u roomId : String) (ms : List Message) (s : ChatState) :
    (ms.foldl (loadSeenStep u roomId) s).nextId = s.nextId := by
  induction ms generalizing s with
  | nil => rfl
  | cons m rest ih => rw [List.foldl_cons]; exact ih _

theorem loadFold_skel (u roomId : String) (ms : List Message) (s : ChatState) :
    (ms.foldl (loadSeenStep u roomId) s).messages.map mSkel =
      s.messages.map mSkel := by
  induction ms generalizing s with
  | nil => rfl
  | cons m rest ih =>
    rw [List.foldl_cons]
    rw [ih _]
    exact ums_map_mSkel s.messages m.mid u .SEEN

theorem loadFold_msgRoom (u roomId : String) (ms : List Message) (s : ChatState)
    (n : Nat) :
    msgRoom (ms.foldl (loadSeenStep u roomId) s).messages n =
      msgRoom s.messages n := by
  induction ms generalizing s with
  | nil => rfl
  | cons m rest ih =>
    rw [List.foldl_cons]
    rw [ih _]
    exact msgRoom_ums s.messages m.mid n u .SEEN

theorem loadFold_pend_mem (u roomId : String) (ms : List Message) (s : ChatState)
    {kv : PKey × MessageStatus}
    (h : kv ∈ (ms.foldl (loadSeenStep u roomId) s).pending) : kv ∈ s.pending := by
  induction ms generalizing s with
  | nil => exact h
  | cons m rest ih =>
    rw [List.foldl_cons] at h
    exact mem_alDel (ih _ h)

theorem loadFold_pendNodup (u roomId : String) (ms : List Message) (s : ChatState)
    (h : (s.pending.map (fun kv => kv.1)).Nodup) :
    ((ms.foldl (loadSeenStep u roomId) s).pending.map (fun kv => kv.1)).Nodup := by
  induction ms generalizing s with
  | nil => exact h
  | cons m rest ih =>
    rw [List.foldl_cons]
    exact ih _ (alDel_nodup_keys _ _ h)

theorem loadFold_alGet (u roomId : String) (ms : List Message) (s : ChatState)
    (k' : PKey) :
    alGet (ms.foldl (loadSeenStep u roomId) s).pending k' =
      if ∃ m ∈ ms, k' = PKey.mk u roomId (MsgRef.mId m.mid)
      then none else alGet s.pending k' := by
  induction ms generalizing s with
  | nil => simp
  | cons m rest ih =>
    rw [List.foldl_cons]
    rw [ih _]
    by_cases hk : k' = PKey.mk u roomId (MsgRef.mId m.mid)
    · by_cases hr : ∃ m2 ∈ rest, k' = PKey.mk u roomId (MsgRef.mId m2.mid)
      · rw [if_pos hr, if_pos ⟨m, List.mem_cons_self _ _, hk⟩]
      · rw [if_neg hr, if_pos ⟨m, List.mem_cons_self _ _, hk⟩]
        dsimp only [loadSeenStep]
        rw [hk]
        exact alGet_alDel_self _ _
    · by_cases hr : ∃ m2 ∈ rest, k' = PKey.mk u roomId (MsgRef.mId m2.mid)
      · rcases hr with ⟨m2, hm2, he2⟩
        rw [if_pos ⟨m2, hm2, he2⟩, if_pos ⟨m2, List.mem_cons_of_mem _ hm2, he2⟩]
      · rw [if_neg hr]
        rw [if_neg (fun hc => by
          rcases hc with ⟨m2, hm2, he2⟩
          rcases List.mem_cons.mp hm2 with h1 | h1
          · exact hk (h1 ▸ he2)
          · exact hr ⟨m2, h1, he2⟩)]
        dsimp only [loadSeenStep]
        exact alGet_alDel_ne _ _ _ hk

theorem loadFold_recStatus (u roomId : String) (ms : List Message) (s : ChatState)
    (n : Nat) (u' : String) :
    recStatus (ms.foldl (loadSeenStep u roomId) s).messages n u' =
      if u' = u ∧ n ∈ ms.map (fun m => m.mid)
      then (recStatus s.messages n u').map (fun _ => MessageStatus.SEEN)
      else recStatus s.messages n u' := by
  induction ms generalizing s with
  | nil => simp
  | cons m rest ih =>
    rw [List.foldl_cons]
    rw [ih _]
    dsimp only [loadSeenStep]
    by_cases hu : u' = u
    · subst hu
      by_cases hn : n = m.mid
      · subst hn
        have hself := recStatus_ums_self s.messages m.mid u' MessageStatus.SEEN
        by_cases hr : m.mid ∈ rest.map (fun m2 => m2.mid)
        · rw [if_pos ⟨rfl, hr⟩, if_pos ⟨rfl, by simp⟩, hself]
          cases recStatus s.messages m.mid u' <;> simp
        · rw [if_neg (fun hc => hr hc.2), if_pos ⟨rfl, by simp⟩, hself]
      · have hne := recStatus_ums_ne s.messages m.mid n u' u' MessageStatus.SEEN
          (fun hc => hn hc.1)
        rw [hne]
        by_cases hr : n ∈ rest.map (fun m2 => m2.mid)
        · rw [if_pos ⟨rfl, hr⟩, if_pos ⟨rfl, by simp [hr]⟩]
        · rw [if_neg (fun hc => hr hc.2)]
          rw [if_neg (fun hc => by
            rcases List.mem_map.mp hc.2 with ⟨m2, hm2, he2⟩
            rcases List.mem_cons.mp hm2 with h1 | h1
            · exact hn (by rw [← he2, h1])
            · exact hr (List.mem_map.mpr ⟨m2, h1, he2⟩))]
    · have hne := recStatus_ums_ne s.messages m.mid n u u' MessageStatus.SEEN
        (fun hc => hu hc.2)
      rw [hne]
      rw [if_neg (fun hc => hu hc.1), if_neg (fun hc => hu hc.1)]

theorem loadFold_InvCore (u roomId : String) (ms : List Message) (s : ChatState)
    (h : InvCore s) : InvCore (ms.foldl (loadSeenStep u roomId) s) := by
  have hrooms := loadFold_rooms u roomId ms s
  have hsock := loadFold_sockets u roomId ms s
  have hpres := loadFold_presence u roomId ms s
  have hnext := loadFold_nextId u roomId ms s
  have hskel := loadFold_skel u roomId ms s
  constructor
  · intro m hm
    rcases skel_transport hskel.symm m hm with ⟨m', hm', hmid', -, -⟩
    rw [hnext, ← hmid']
    exact h.midLt m' hm'
  · rw [midsOf_eq_of_skel hskel]
    exact h.midNodup
  · intro m hm
    rcases skel_transport hskel.symm m hm with ⟨m', hm', -, -, hrecv'⟩
    rw [← hrecv']
    exact h.recvNodup m' hm'
  · exact loadFold_pendNodup u roomId ms s h.pendNodup
  · intro k hk
    rcases List.mem_map.mp hk with ⟨kv, hkv, he⟩
    have hkv' := loadFold_pend_mem u roomId ms s hkv
    have hk' : k ∈ s.pending.map (fun kv => kv.1) := List.mem_map.mpr ⟨kv, hkv', he⟩
    rcases h.pendWF k hk' with ⟨n, href, m, hm, hmid, hroom, hrecv⟩
    rcases skel_transport hskel m hm with ⟨m2, hm2, hmid2, hroom2, hrecv2⟩
    exact ⟨n, href, m2, hm2, by rw [hmid2, hmid], by rw [hroom2, hroom],
      by rw [hrecv2]; exact hrecv⟩
  · intro k hk
    rcases List.mem_map.mp hk with ⟨kv, hkv, he⟩
    have hkv' := loadFold_pend_mem u roomId ms s hkv
    exact h.pendRoomNE k (List.mem_map.mpr ⟨kv, hkv', he⟩)
  · rw [hpres, hsock]
    exact h.presLive
  · rw [hsock]
    exact h.sockNodup
  · rw [hrooms]
    exact h.roomsWF

theorem getMessagesForRoom_perm (s : ChatState) (roomId : String) :
    (getMessagesForRoom s roomId).Perm
      (s.messages.filter (fun m => m.room_id = roomId)) :=
  List.perm_insertionSort midLE _

theorem getMessagesForRoom_sorted (s : ChatState) (roomId : String) :
    List.Sorted midLE (getMessagesForRoom s roomId) :=
  List.sorted_insertionSort midLE _

theorem mem_getMessagesForRoom {s : ChatState} {roomId : String} {m : Message} :
    m ∈ getMessagesForRoom s roomId ↔ m ∈ s.messages ∧ m.room_id = roomId := by
  unfold getMessagesForRoom
  rw [(List.perm_insertionSort midLE _).mem_iff]
  simp [List.mem_filter]

theorem handleLoad_state_noroom (s : ChatState) (c : Conn) (h : c.roomId = none) :
    (handleLoadMessages s c).1 = s := by
  unfold handleLoadMessages
  rw [h]

theorem handleLoad_state_empty (s : ChatState) (c : Conn) (h : c.roomId = some "") :
    (handleLoadMessages s c).1 = s := by
  unfold handleLoadMessages
  rw [h]
  rfl

theorem handleLoad_state (s : ChatState) (c : Conn) (roomId : String)
    (h : c.roomId = some roomId) (hne : ¬ roomId = "") :
    (handleLoadMessages s c).1 =
      ((getMessagesForRoom s roomId).filter (isUnreadFor c.userId)).foldl
        (loadSeenStep c.userId roomId) s := by
  unfold handleLoadMessages
  rw [h]
  dsimp only
  rw [if_neg hne]
  by_cases he : ((getMessagesForRoom s roomId).filter (isUnreadFor c.userId)).isEmpty
  · rw [if_pos he]
    rw [List.isEmpty_iff.mp he]
    rfl
  · rw [if_neg he]

theorem handleLoad_response (s : ChatState) (c : Conn) (roomId : String)
    (h : c.roomId = some roomId) (hne : ¬ roomId = "") :
    (handleLoadMessages s c).2 =
      LoadResponse.mk true "" (getMessagesForRoom s roomId) := by
  unfold handleLoadMessages
  rw [h]
  dsimp only
  rw [if_neg hne]
  by_cases he : ((getMessagesForRoom s roomId).filter (isUnreadFor c.userId)).isEmpty
  · rw [if_pos he]
  · rw [if_neg he]

theorem mem_loadUnread_iff (s : ChatState) (u roomId : String)
    (hmid : (midsOf s.messages).Nodup) (m : Message) (hm : m ∈ s.messages) :
    m.mid ∈ ((getMessagesForRoom s roomId).filter (isUnreadFor u)).map
        (fun m2 => m2.mid) ↔
      m.room_id = roomId ∧ isUnreadFor u m = true := by
  constructor
  · intro hmem
    rcases List.mem_map.mp hmem with ⟨m2, hm2, he⟩
    have hm2' := (mem_getMessagesForRoom).mp (List.mem_of_mem_filter hm2)
    have hm2m : m2 = m := mem_mid_inj hmid m2 hm2'.1 m hm he
    rw [← hm2m]
    exact ⟨hm2'.2, (List.mem_filter.mp hm2).2⟩
  · rintro ⟨hroom, hunread⟩
    apply List.mem_map.mpr
    exact ⟨m, List.mem_filter.mpr
      ⟨(mem_getMessagesForRoom).mpr ⟨hm, hroom⟩, hunread⟩, rfl⟩

theorem handleLoad_ProjAt (s : ChatState) (c : Conn) (roomId : String)
    (h : c.roomId = some roomId) (hne : ¬ roomId = "") (hcore : InvCore s)
    (n : Nat) (u' : String) (hproj : ProjAt s n u') :
    ProjAt (handleLoadMessages s c).1 n u' := by
  rw [handleLoad_state s c roomId h hne]
  intro st r hrec hroom
  rw [loadFold_msgRoom] at hroom
  rw [loadFold_recStatus] at hrec
  rw [loadFold_alGet]
  by_cases hc : u' = c.userId ∧
      n ∈ ((getMessagesForRoom s roomId).filter (isUnreadFor c.userId)).map
        (fun m => m.mid)
  · rw [if_pos hc] at hrec
    rcases Option.map_eq_some'.mp hrec with ⟨st0, -, hstS⟩
    right
    refine ⟨hstS.symm, ?_⟩
    rcases List.mem_map.mp hc.2 with ⟨m, hm, hmid⟩
    rw [if_pos ?_]
    refine ⟨m, hm, ?_⟩
    have hmmem := (mem_getMessagesForRoom).mp (List.mem_of_mem_filter hm)
    have hroom2 : msgRoom s.messages n = some m.room_id := by
      rw [← hmid]
      exact msgRoom_of_mem hcore.midNodup hmmem.1
    have hrm : r = m.room_id := by
      rw [hroom2] at hroom
      exact (Option.some_inj.mp hroom).symm
    rw [hc.1, hrm, hmmem.2, hmid]
  · rw [if_neg hc] at hrec
    rcases hproj st r hrec hroom with hold | hold
    · rw [if_neg ?_]
      · exact Or.inl hold
      · rintro ⟨m, hm, he⟩
        injection he with he1 he2 he3
        injection he3 with he3
        exact hc ⟨he1, he3 ▸ List.mem_map.mpr ⟨m, hm, rfl⟩⟩
    · refine Or.inr ⟨hold.1, ?_⟩
      by_cases hdel : ∃ m ∈ (getMessagesForRoom s roomId).filter (isUnreadFor c.userId),
          PKey.mk u' r (MsgRef.mId n) = PKey.mk c.userId roomId (MsgRef.mId m.mid)
      · rw [if_pos hdel]
      · rw [if_neg hdel]
        exact hold.2

theorem handleLoad_Inv (s : ChatState) (c : Conn) (hInv : Inv s) :
    Inv (handleLoadMessages s c).1 := by
  cases hc : c.roomId with
  | none =>
    rw [handleLoad_state_noroom s c hc]
    exact hInv
  | some roomId =>
    by_cases hne : roomId = ""
    · subst hne
      rw [handleLoad_state_empty s c hc]
      exact hInv
    · refine ⟨?_, ?_⟩
      · rw [handleLoad_state s c roomId hc hne]
        exact loadFold_InvCore c.userId roomId _ s hInv.toInvCore
      · intro n u'
        exact handleLoad_ProjAt s c roomId hc hne hInv.toInvCore n u' (hInv.proj n u')

theorem rank_le_seen (st : MessageStatus) : st.rank ≤ MessageStatus.SEEN.rank := by
  cases st <;> simp [MessageStatus.rank]

theorem handleLoad_mono (s : ChatState) (c : Conn)
    (n : Nat) (u' : String) (st : MessageStatus)
    (h : recStatus s.messages n u' = some st) :
    ∃ st', recStatus (handleLoadMessages s c).1.messages n u' = some st' ∧
      st.rank ≤ st'.rank := by
  cases hc : c.roomId with
  | none =>
    rw [handleLoad_state_noroom s c hc, h]
    exact ⟨st, rfl, Nat.le_refl _⟩
  | some roomId =>
    by_cases hne : roomId = ""
    · subst hne
      rw [handleLoad_state_empty s c hc, h]
      exact ⟨st, rfl, Nat.le_refl _⟩
    · rw [handleLoad_state s c roomId hc hne]
      rw [loadFold_recStatus]
      by_cases hcc : u' = c.userId ∧
          n ∈ ((getMessagesForRoom s roomId).filter (isUnreadFor c.userId)).map
            (fun m => m.mid)
      · rw [if_pos hcc, h]
        exact ⟨MessageStatus.SEEN, rfl, rank_le_seen st⟩
      · rw [if_neg hcc, h]
        exact ⟨st, rfl, Nat.le_refl _⟩

/-! Lemmas about the send handler's per-recipient delivery loop. -/

theorem find?_socket_userId (sockets : List Conn)
    (presence : List (String × String))
    (hlive : ∀ kv ∈ presence, ∃ c ∈ sockets, c.cid = kv.2 ∧ c.userId = kv.1)
    (hnd : (sockets.map (fun c => c.cid)).Nodup)
    {p clientId : String} (hpres : alGet presence p = some clientId)
    {sock : Conn} (hfind : sockets.find? (fun c => c.cid = clientId) = some sock) :
    sock.userId = p := by
  have hmem := mem_of_alGet hpres
  rcases hlive (p, clientId) hmem with ⟨c, hc, hcid, huid⟩
  have hsock_mem := List.mem_of_find?_eq_some hfind
  have hsock_cid : sock.cid = clientId := by
    have := List.find?_some hfind
    simpa using this
  have heq : sock = c := by
    apply List.inj_on_of_nodup_map hnd hsock_mem hc
    rw [hsock_cid, hcid]
  rw [heq, huid]

theorem presenceResolve_offline {s : ChatState} {p : String} (roomId : String)
    (hpres : alGet s.presence p = none) :
    presenceResolve s roomId p = some MessageStatus.SENT := by
  simp only [presenceResolve, hpres, Option.elim_none]

theorem presenceResolve_dead {s : ChatState} {p clientId : String} (roomId : String)
    (hpres : alGet s.presence p = some clientId)
    (hfind : s.sockets.find? (fun c => c.cid = clientId) = none) :
    presenceResolve s roomId p = none := by
  simp only [presenceResolve, hpres, Option.elim_some, hfind, Option.elim_none]

theorem presenceResolve_seen {s : ChatState} {p clientId : String} {sock : Conn}
    (roomId : String) (hpres : alGet s.presence p = some clientId)
    (hfind : s.sockets.find? (fun c => c.cid = clientId) = some sock)
    (hj : roomId ∈ sock.joined) :
    presenceResolve s roomId p = some MessageStatus.SEEN := by
  simp only [presenceResolve, hpres, Option.elim_some, hfind]
  rw [if_pos hj]

theorem presenceResolve_delivered {s : ChatState} {p clientId : String} {sock : Conn}
    (roomId : String) (hpres : alGet s.presence p = some clientId)
    (hfind : s.sockets.find? (fun c => c.cid = clientId) = some sock)
    (hj : ¬ roomId ∈ sock.joined) :
    presenceResolve s roomId p = some MessageStatus.DELIVERED := by
  simp only [presenceResolve, hpres, Option.elim_some, hfind]
  rw [if_neg hj]

theorem sendSet_core (σ : ChatState) (hcore : InvCore σ) (p roomId : String)
    (mid0 : Nat) (hrne : ¬ roomId = "")
    (hmsg : ∃ m ∈ σ.messages, m.mid = mid0 ∧ m.room_id = roomId ∧
      p ∈ m.receivers.map (fun r => r.userId))
    (v : MessageStatus) (newMsgs : List Message)
    (hskel : newMsgs.map mSkel = σ.messages.map mSkel) :
    InvCore { σ with
      pending := alSet σ.pending (PKey.mk p roomId (MsgRef.mId mid0)) v
      messages := newMsgs } := by
  constructor
  · intro m hm
    rcases skel_transport hskel.symm m hm with ⟨m', hm', hmid', -, -⟩
    show m.mid < σ.nextId
    rw [← hmid']
    exact hcore.midLt m' hm'
  · show (midsOf newMsgs).Nodup
    rw [midsOf_eq_of_skel hskel]
    exact hcore.midNodup
  · intro m hm
    rcases skel_transport hskel.symm m hm with ⟨m', hm', -, -, hrecv'⟩
    rw [← hrecv']
    exact hcore.recvNodup m' hm'
  · exact alSet_nodup_keys _ _ _ hcore.pendNodup
  · intro k hk
    by_cases hany : σ.pending.any
        (fun kv => kv.1 = PKey.mk p roomId (MsgRef.mId mid0))
    · rw [alSet_map_fst_of_mem _ _ _ hany] at hk
      rcases hcore.pendWF k hk with ⟨n, href, m, hm, hmid, hroom, hrecv⟩
      rcases skel_transport hskel m hm with ⟨m2, hm2, hmid2, hroom2, hrecv2⟩
      exact ⟨n, href, m2, hm2, by rw [hmid2, hmid], by rw [hroom2, hroom],
        by rw [hrecv2]; exact hrecv⟩
    · rw [alSet_map_fst_of_not_mem _ _ _ hany] at hk
      rcases List.mem_append.mp hk with hk1 | hk1
      · rcases hcore.pendWF k hk1 with ⟨n, href, m, hm, hmid, hroom, hrecv⟩
        rcases skel_transport hskel m hm with ⟨m2, hm2, hmid2, hroom2, hrecv2⟩
        exact ⟨n, href, m2, hm2, by rw [hmid2, hmid], by rw [hroom2, hroom],
          by rw [hrecv2]; exact hrecv⟩
      · simp only [List.mem_singleton] at hk1
        subst hk1
        rcases hmsg with ⟨m, hm, hmid, hroom, hrecv⟩
        rcases skel_transport hskel m hm with ⟨m2, hm2, hmid2, hroom2, hrecv2⟩
        exact ⟨mid0, rfl, m2, hm2, by rw [hmid2, hmid], by rw [hroom2, hroom],
          by rw [hrecv2]; exact hrecv⟩
  · intro k hk
    by_cases hany : σ.pending.any
        (fun kv => kv.1 = PKey.mk p roomId (MsgRef.mId mid0))
    · rw [alSet_map_fst_of_mem _ _ _ hany] at hk
      exact hcore.pendRoomNE k hk
    · rw [alSet_map_fst_of_not_mem _ _ _ hany] at hk
      rcases List.mem_append.mp hk with hk1 | hk1
      · exact hcore.pendRoomNE k hk1
      · simp only [List.mem_singleton] at hk1
        subst hk1
        exact hrne
  · exact hcore.presLive
  · exact hcore.sockNodup
  · exact hcore.roomsWF

theorem deliverOutcome_stable {s : ChatState} {roomId : String} {mid0 : Nat}
    {σ σ2 : ChatState} {q : String}
    (hrec : recStatus σ2.messages mid0 q = recStatus σ.messages mid0 q)
    (halg : alGet σ2.pending (PKey.mk q roomId (MsgRef.mId mid0)) =
      alGet σ.pending (PKey.mk q roomId (MsgRef.mId mid0)))
    (h : deliverOutcome s roomId mid0 σ q) : deliverOutcome s roomId mid0 σ2 q := by
  intro v hv
  rcases h v hv with ⟨h1, h2⟩
  exact ⟨by rw [hrec]; exact h1, by rw [halg]; exact h2⟩

theorem msgRoom_eq_of_skel {msgs msgs' : List Message}
    (h : msgs'.map mSkel = msgs.map mSkel) (n : Nat) :
    msgRoom msgs' n = msgRoom msgs n := by
  induction msgs generalizing msgs' with
  | nil =>
    cases msgs' with
    | nil => rfl
    | cons m' rest' => simp at h
  | cons m rest ih =>
    cases msgs' with
    | nil => simp at h
    | cons m' rest' =>
      simp only [List.map_cons, List.cons.injEq] at h
      have hcomp := h.1
      simp only [mSkel, Prod.mk.injEq] at hcomp
      rw [msgRoom_cons, msgRoom_cons, hcomp.1, hcomp.2.1]
      by_cases hn : m.mid = n
      · rw [if_pos hn, if_pos hn]
      · rw [if_neg hn, if_neg hn]
        exact ih h.2

theorem sendMark_inv (s : ChatState) (roomId : String) (mid0 : Nat)
    (newMsg : Message) (allPs : List String) (p : String) (rem : List String)
    (σ : ChatState)
    (hΦ : SendLoopInv s roomId mid0 newMsg allPs (p :: rem) σ)
    (hrne : ¬ roomId = "") (hmidm : newMsg.mid = mid0)
    (hroomm : newMsg.room_id = roomId)
    (hrecvm : p ∈ newMsg.receivers.map (fun r => r.userId))
    (v : MessageStatus) (M : List Message)
    (hMskel : M.map mSkel = σ.messages.map mSkel)
    (hM : ∀ n u', recStatus M n u' =
      if n = mid0 ∧ u' = p
      then (recStatus σ.messages n u').map (fun _ => v)
      else recStatus σ.messages n u')
    (hout : deliverOutcome s roomId mid0
      { σ with pending := alSet σ.pending (PKey.mk p roomId (MsgRef.mId mid0)) v
               messages := M } p) :
    SendLoopInv s roomId mid0 newMsg allPs rem
      { σ with pending := alSet σ.pending (PKey.mk p roomId (MsgRef.mId mid0)) v
               messages := M } := by
  have hp_notrem : p ∉ rem := (List.nodup_cons.mp hΦ.remNodup).1
  have hremnd : rem.Nodup := (List.nodup_cons.mp hΦ.remNodup).2
  have hnewmem : newMsg ∈ s.messages ++ [newMsg] :=
    List.mem_append.mpr (Or.inr (List.mem_singleton.mpr rfl))
  rcases skel_transport hΦ.skel_eq newMsg hnewmem with ⟨mσ, hmσ, hmσmid, hmσroom, hmσrecv⟩
  have hmσmid0 : mσ.mid = mid0 := by rw [hmσmid, hmidm]
  have hmσroom0 : mσ.room_id = roomId := by rw [hmσroom, hroomm]
  have hmσp : p ∈ mσ.receivers.map (fun r => r.userId) := by
    rw [hmσrecv]
    exact hrecvm
  have hmsgroomσ : msgRoom σ.messages mid0 = some roomId := by
    rw [← hmσmid0, ← hmσroom0]
    exact msgRoom_of_mem hΦ.core.midNodup hmσ
  constructor
  · exact hΦ.rooms_eq
  · exact hΦ.sockets_eq
  · exact hΦ.presence_eq
  · exact hΦ.nextId_eq
  · show M.map mSkel = (s.messages ++ [newMsg]).map mSkel
    rw [hMskel, hΦ.skel_eq]
  · exact sendSet_core σ hΦ.core p roomId mid0 hrne
      ⟨mσ, hmσ, hmσmid0, hmσroom0, hmσp⟩ v M hMskel
  · exact hremnd
  · exact fun q hq => hΦ.remSub q (List.mem_cons_of_mem _ hq)
  · intro n u' hnex st r hrec hroomx
    have hroomσ : msgRoom σ.messages n = some r := by
      rw [← msgRoom_eq_of_skel hMskel n]
      exact hroomx
    rw [show ({ σ with
        pending := alSet σ.pending (PKey.mk p roomId (MsgRef.mId mid0)) v
        messages := M } : ChatState).messages = M from rfl, hM n u'] at hrec
    by_cases hpair : n = mid0 ∧ u' = p
    · rw [if_pos hpair] at hrec
      rcases Option.map_eq_some'.mp hrec with ⟨st0, -, hstv⟩
      have hr : r = roomId := by
        rw [hpair.1] at hroomσ
        rw [hroomσ] at hmsgroomσ
        exact Option.some_inj.mp hmsgroomσ
      left
      have hkeyeq : PKey.mk u' r (MsgRef.mId n) = PKey.mk p roomId (MsgRef.mId mid0) := by
        rw [hpair.2, hr, hpair.1]
      show alGet (alSet σ.pending (PKey.mk p roomId (MsgRef.mId mid0)) v)
        (PKey.mk u' r (MsgRef.mId n)) = some st
      rw [hkeyeq, alGet_alSet_self, ← hstv]
    · rw [if_neg hpair] at hrec
      have hkey : ¬ PKey.mk u' r (MsgRef.mId n) = PKey.mk p roomId (MsgRef.mId mid0) := by
        intro he
        injection he with h1 h2 h3
        injection h3 with h3
        exact hpair ⟨h3, h1⟩
      show alGet (alSet σ.pending (PKey.mk p roomId (MsgRef.mId mid0)) v)
          (PKey.mk u' r (MsgRef.mId n)) = some st ∨
        (st = MessageStatus.SEEN ∧
          alGet (alSet σ.pending (PKey.mk p roomId (MsgRef.mId mid0)) v)
            (PKey.mk u' r (MsgRef.mId n)) = none)
      rw [alGet_alSet_ne _ _ _ _ hkey]
      refine hΦ.projOK n u' ?_ st r hrec hroomσ
      rintro ⟨hn, hu⟩
      rcases List.mem_cons.mp hu with h1 | h1
      · exact hpair ⟨hn, h1⟩
      · exact hnex ⟨hn, h1⟩
  · intro q hq
    have hqp : ¬ q = p := fun he => hp_notrem (he ▸ hq)
    constructor
    · show recStatus M mid0 q = some MessageStatus.SENT
      rw [hM mid0 q, if_neg (fun hc => hqp hc.2)]
      exact (hΦ.remSENT q (List.mem_cons_of_mem _ hq)).1
    · have hkq : ¬ PKey.mk q roomId (MsgRef.mId mid0) =
          PKey.mk p roomId (MsgRef.mId mid0) := by
        intro he
        injection he with h1 h2 h3
        exact hqp h1
      show alGet (alSet σ.pending (PKey.mk p roomId (MsgRef.mId mid0)) v)
        (PKey.mk q roomId (MsgRef.mId mid0)) = none
      rw [alGet_alSet_ne _ _ _ _ hkq]
      exact (hΦ.remSENT q (List.mem_cons_of_mem _ hq)).2
  · intro q hqall hqrem
    by_cases hqp : q = p
    · subst hqp
      exact hout
    · have hq' : q ∉ p :: rem := by
        intro hmem
        rcases List.mem_cons.mp hmem with h1 | h1
        · exact hqp h1
        · exact hqrem h1
      have hkq : ¬ PKey.mk q roomId (MsgRef.mId mid0) =
          PKey.mk p roomId (MsgRef.mId mid0) := by
        intro he
        injection he with h1 h2 h3
        exact hqp h1
      refine deliverOutcome_stable ?_ ?_ (hΦ.doneOut q hqall hq')
      · show recStatus M mid0 q = recStatus σ.messages mid0 q
        rw [hM mid0 q, if_neg (fun hc => hqp hc.2)]
      · show alGet (alSet σ.pending (PKey.mk p roomId (MsgRef.mId mid0)) v)
          (PKey.mk q roomId (MsgRef.mId mid0)) =
          alGet σ.pending (PKey.mk q roomId (MsgRef.mId mid0))
        exact alGet_alSet_ne _ _ _ _ hkq

theorem sendStep_offline (s : ChatState) (roomId : String) (mid0 : Nat)
    (newMsg : Message) (allPs : List String) (p : String) (rem : List String)
    (σ : ChatState)
    (hΦ : SendLoopInv s roomId mid0 newMsg allPs (p :: rem) σ)
    (hrne : ¬ roomId = "") (hmidm : newMsg.mid = mid0)
    (hroomm : newMsg.room_id = roomId)
    (hrecvm : p ∈ newMsg.receivers.map (fun r => r.userId))
    (hpres : alGet s.presence p = none) :
    SendLoopInv s roomId mid0 newMsg allPs rem
      { σ with pending :=
          alSet σ.pending (PKey.mk p roomId (MsgRef.mId mid0)) MessageStatus.SENT } := by
  have hpsent := hΦ.remSENT p (List.mem_cons_self _ _)
  apply sendMark_inv s roomId mid0 newMsg allPs p rem σ hΦ hrne hmidm hroomm hrecvm
    MessageStatus.SENT σ.messages rfl
  · intro n u'
    by_cases hpair : n = mid0 ∧ u' = p
    · rw [if_pos hpair, hpair.1, hpair.2, hpsent.1]
      rfl
    · rw [if_neg hpair]
  · intro v hv
    rw [presenceResolve_offline roomId hpres] at hv
    injection hv with hv
    subst hv
    exact ⟨hpsent.1, alGet_alSet_self _ _ _⟩

theorem sendStep_seen (s : ChatState) (roomId : String) (mid0 : Nat)
    (newMsg : Message) (allPs : List String) (p : String) (rem : List String)
    (σ : ChatState)
    (hΦ : SendLoopInv s roomId mid0 newMsg allPs (p :: rem) σ)
    (hrne : ¬ roomId = "") (hmidm : newMsg.mid = mid0)
    (hroomm : newMsg.room_id = roomId)
    (hrecvm : p ∈ newMsg.receivers.map (fun r => r.userId))
    {clientId : String} (hpres : alGet s.presence p = some clientId)
    {sock : Conn} (hfind : s.sockets.find? (fun c => c.cid = clientId) = some sock)
    (hj : roomId ∈ sock.joined) :
    SendLoopInv s roomId mid0 newMsg allPs rem
      { σ with
        pending := alSet σ.pending (PKey.mk p roomId (MsgRef.mId mid0))
          MessageStatus.SEEN
        messages := updateMessageStatus σ.messages mid0 p MessageStatus.SEEN } := by
  have hpsent := hΦ.remSENT p (List.mem_cons_self _ _)
  apply sendMark_inv s roomId mid0 newMsg allPs p rem σ hΦ hrne hmidm hroomm hrecvm
    MessageStatus.SEEN _ (ums_map_mSkel _ _ _ _)
  · intro n u'
    by_cases hpair : n = mid0 ∧ u' = p
    · rw [if_pos hpair, hpair.1, hpair.2]
      exact recStatus_ums_self σ.messages mid0 p MessageStatus.SEEN
    · rw [if_neg hpair]
      exact recStatus_ums_ne σ.messages mid0 n p u' MessageStatus.SEEN hpair
  · intro v hv
    rw [presenceResolve_seen roomId hpres hfind hj] at hv
    injection hv with hv
    subst hv
    constructor
    · show recStatus (updateMessageStatus σ.messages mid0 p MessageStatus.SEEN) mid0 p =
        some MessageStatus.SEEN
      rw [recStatus_ums_self, hpsent.1]
      rfl
    · exact alGet_alSet_self _ _ _

theorem sendSweep_inv (s : ChatState) (roomId : String) (mid0 : Nat)
    (newMsg : Message) (allPs : List String) (p : String) (rem : List String)
    (σ1 : ChatState)
    (hΦ : SendLoopInv s roomId mid0 newMsg allPs rem σ1)
    (hp : p ∉ rem)
    (hst1 : recStatus σ1.messages mid0 p = some MessageStatus.DELIVERED)
    (hal1 : alGet σ1.pending (PKey.mk p roomId (MsgRef.mId mid0)) =
      some MessageStatus.DELIVERED)
    {clientId : String} (hpres : alGet s.presence p = some clientId)
    {sock : Conn} (hfind : s.sockets.find? (fun c => c.cid = clientId) = some sock)
    (hj : ¬ roomId ∈ sock.joined) :
    SendLoopInv s roomId mid0 newMsg allPs rem (handleUnreadMessages σ1 p).1 := by
  have hcore := hΦ.core
  constructor
  · rw [handleUnread_rooms]
    exact hΦ.rooms_eq
  · rw [handleUnread_sockets]
    exact hΦ.sockets_eq
  · rw [handleUnread_presence]
    exact hΦ.presence_eq
  · rw [handleUnread_nextId]
    exact hΦ.nextId_eq
  · rw [handleUnread_skel]
    exact hΦ.skel_eq
  · exact handleUnread_InvCore σ1 p hcore
  · exact hΦ.remNodup
  · exact hΦ.remSub
  · intro n u' hnex
    exact handleUnread_ProjAt σ1 p hcore n u' (hΦ.projOK n u' hnex)
  · intro q hq
    have hqp : ¬ q = p := fun he => hp (he ▸ hq)
    constructor
    · rw [handleUnread_recStatus σ1 p hcore.pendNodup hcore.midNodup hcore.pendWF mid0 q]
      rw [if_neg (fun hc => hqp hc.1)]
      exact (hΦ.remSENT q hq).1
    · rw [handleUnread_alGet σ1 p hcore.pendNodup]
      rw [if_neg (fun hc => hqp hc.1)]
      exact (hΦ.remSENT q hq).2
  · intro q hqall hqrem
    by_cases hqp : q = p
    · subst hqp
      have hkmem : PKey.mk q roomId (MsgRef.mId mid0) ∈ userStatusKeys σ1.pending q := by
        apply mem_userStatusKeys_of rfl
        exact mem_keys_of_alGet_isSome (by rw [hal1]; rfl)
      have hpend : isPendingVal
          (alGet σ1.pending (PKey.mk q roomId (MsgRef.mId mid0))) = true := by
        rw [hal1]
        rfl
      intro v hv
      rw [presenceResolve_delivered roomId hpres hfind hj] at hv
      injection hv with hv
      subst hv
      constructor
      · rw [handleUnread_recStatus σ1 q hcore.pendNodup hcore.midNodup hcore.pendWF
          mid0 q]
        rw [if_pos ⟨rfl, PKey.mk q roomId (MsgRef.mId mid0), hkmem, rfl, hpend⟩]
        rw [hst1]
        rfl
      · rw [handleUnread_alGet σ1 q hcore.pendNodup]
        rw [if_pos ⟨rfl, hpend⟩]
    · refine deliverOutcome_stable ?_ ?_ (hΦ.doneOut q hqall hqrem)
      · rw [handleUnread_recStatus σ1 p hcore.pendNodup hcore.midNodup hcore.pendWF mid0 q]
        rw [if_neg (fun hc => hqp hc.1)]
      · rw [handleUnread_alGet σ1 p hcore.pendNodup]
        rw [if_neg (fun hc => hqp hc.1)]

theorem sendStep_delivered (s : ChatState) (roomId : String) (mid0 : Nat)
    (newMsg : Message) (allPs : List String) (p : String) (rem : List String)
    (σ : ChatState)
    (hΦ : SendLoopInv s roomId mid0 newMsg allPs (p :: rem) σ)
    (hrne : ¬ roomId = "") (hmidm : newMsg.mid = mid0)
    (hroomm : newMsg.room_id = roomId)
    (hrecvm : p ∈ newMsg.receivers.map (fun r => r.userId))
    {clientId : String} (hpres : alGet s.presence p = some clientId)
    {sock : Conn} (hfind : s.sockets.find? (fun c => c.cid = clientId) = some sock)
    (hj : ¬ roomId ∈ sock.joined) :
    SendLoopInv s roomId mid0 newMsg allPs rem
      (handleUnreadMessages
        { σ with
          pending := alSet σ.pending (PKey.mk p roomId (MsgRef.mId mid0))
            MessageStatus.DELIVERED
          messages := updateMessageStatus σ.messages mid0 p MessageStatus.DELIVERED }
        sock.userId).1 := by
  have hp_notrem : p ∉ rem := (List.nodup_cons.mp hΦ.remNodup).1
  have hpsent := hΦ.remSENT p (List.mem_cons_self _ _)
  have hlive : ∀ kv ∈ s.presence, ∃ c ∈ s.sockets, c.cid = kv.2 ∧ c.userId = kv.1 := by
    have h0 := hΦ.core.presLive
    rw [hΦ.presence_eq, hΦ.sockets_eq] at h0
    exact h0
  have hsnd : (s.sockets.map (fun c => c.cid)).Nodup := by
    have h0 := hΦ.core.sockNodup
    rw [hΦ.sockets_eq] at h0
    exact h0
  have huid : sock.userId = p := find?_socket_userId s.sockets s.presence hlive hsnd
    hpres hfind
  rw [huid]
  have hΦ1 : SendLoopInv s roomId mid0 newMsg allPs rem
      { σ with
        pending := alSet σ.pending (PKey.mk p roomId (MsgRef.mId mid0))
          MessageStatus.DELIVERED
        messages := updateMessageStatus σ.messages mid0 p MessageStatus.DELIVERED } := by
    apply sendMark_inv s roomId mid0 newMsg allPs p rem σ hΦ hrne hmidm hroomm hrecvm
      MessageStatus.DELIVERED _ (ums_map_mSkel _ _ _ _)
    · intro n u'
      by_cases hpair : n = mid0 ∧ u' = p
      · rw [if_pos hpair, hpair.1, hpair.2]
        exact recStatus_ums_self σ.messages mid0 p MessageStatus.DELIVERED
      · rw [if_neg hpair]
        exact recStatus_ums_ne σ.messages mid0 n p u' MessageStatus.DELIVERED hpair
    · intro v hv
      rw [presenceResolve_delivered roomId hpres hfind hj] at hv
      injection hv with hv
      subst hv
      constructor
      · show recStatus (updateMessageStatus σ.messages mid0 p MessageStatus.DELIVERED)
            mid0 p = some MessageStatus.DELIVERED
        rw [recStatus_ums_self, hpsent.1]
        rfl
      · exact alGet_alSet_self _ _ _
  apply sendSweep_inv s roomId mid0 newMsg allPs p rem _ hΦ1 hp_notrem ?_ ?_ hpres
    hfind hj
  · show recStatus (updateMessageStatus σ.messages mid0 p MessageStatus.DELIVERED)
      mid0 p = some MessageStatus.DELIVERED
    rw [recStatus_ums_self, hpsent.1]
    rfl
  · exact alGet_alSet_self _ _ _

theorem sendStep (s : ChatState) (roomId : String) (mid0 : Nat)
    (newMsg : Message) (allPs : List String) (p : String) (rem : List String)
    (σ : ChatState)
    (hΦ : SendLoopInv s roomId mid0 newMsg allPs (p :: rem) σ)
    (hrne : ¬ roomId = "") (hmidm : newMsg.mid = mid0)
    (hroomm : newMsg.room_id = roomId)
    (hrecvm : p ∈ newMsg.receivers.map (fun r => r.userId)) :
    SendLoopInv s roomId mid0 newMsg allPs rem (deliverTo roomId mid0 σ p) := by
  unfold deliverTo
  cases hpres : alGet σ.presence p with
  | none =>
    have hpres2 : alGet s.presence p = none := by
      rw [← hΦ.presence_eq]
      exact hpres
    exact sendStep_offline s roomId mid0 newMsg allPs p rem σ hΦ hrne hmidm hroomm
      hrecvm hpres2
  | some clientId =>
    have hpres2 : alGet s.presence p = some clientId := by
      rw [← hΦ.presence_eq]
      exact hpres
    dsimp only
    cases hfind : σ.sockets.find? (fun c => c.cid = clientId) with
    | none =>
      exfalso
      have hmem := mem_of_alGet hpres
      rcases hΦ.core.presLive (p, clientId) hmem with ⟨c, hc, hcid, -⟩
      have := List.find?_eq_none.mp hfind c hc
      simp only [decide_eq_true_eq] at this
      exact this hcid
    | some sock =>
      have hfind2 : s.sockets.find? (fun c => c.cid = clientId) = some sock := by
        rw [← hΦ.sockets_eq]
        exact hfind
      dsimp only
      by_cases hj : roomId ∈ sock.joined
      · rw [if_pos hj]
        exact sendStep_seen s roomId mid0 newMsg allPs p rem σ hΦ hrne hmidm hroomm
          hrecvm hpres2 hfind2 hj
      · rw [if_neg hj]
        exact sendStep_delivered s roomId mid0 newMsg allPs p rem σ hΦ hrne hmidm
          hroomm hrecvm hpres2 hfind2 hj

/-! Helper lemmas for the send handler's initialization and for the
socket-attribute updates of the join and leave handlers. -/

theorem mem_alDel_fst {κ ν : Type} [DecidableEq κ] {l : List (κ × ν)} {k : κ}
    {kv : κ × ν} (h : kv ∈ alDel l k) : ¬ kv.1 = k := by
  have := (List.mem_filter.mp h).2
  simpa using this

theorem nodup_append_singleton {α : Type} (l : List α) (a : α)
    (hl : l.Nodup) (ha : a ∉ l) : (l ++ [a]).Nodup := by
  rw [List.nodup_append]
  refine ⟨hl, List.nodup_singleton a, ?_⟩
  intro x hx hxa
  rw [List.mem_singleton] at hxa
  subst hxa
  exact ha hx

theorem midsOf_append (msgs : List Message) (m : Message) :
    midsOf (msgs ++ [m]) = midsOf msgs ++ [m.mid] := by
  simp [midsOf]

theorem receivers_map_userId (ps : List String) (st : MessageStatus) :
    (ps.map (fun u => Receiver.mk u st)).map (fun r => r.userId) = ps := by
  induction ps with
  | nil => rfl
  | cons a rest ih => simp [ih]

theorem find?_mk_sent (ps : List String) (p : String) (hp : p ∈ ps) :
    ((ps.map (fun u => Receiver.mk u MessageStatus.SENT)).find?
      (fun r => r.userId = p)).map (fun r => r.status) =
      some MessageStatus.SENT := by
  induction ps with
  | nil => simp at hp
  | cons a rest ih =>
    rw [List.map_cons]
    by_cases ha : a = p
    · rw [List.find?_cons_of_pos _ (by simp [ha])]
      rfl
    · rw [List.find?_cons_of_neg _ (by simp [ha])]
      rcases List.mem_cons.mp hp with h1 | h1
      · exact absurd h1.symm ha
      · exact ih h1

theorem find?_mk_none (ps : List String) (st : MessageStatus) (p : String)
    (hp : p ∉ ps) :
    (ps.map (fun u => Receiver.mk u st)).find? (fun r => r.userId = p) = none := by
  rw [List.find?_eq_none]
  intro r hr
  rcases List.mem_map.mp hr with ⟨a, ha, he⟩
  subst he
  simp only [decide_eq_true_eq]
  intro hme
  have hap : a = p := hme
  exact hp (hap ▸ ha)

theorem recStatus_some_mid {msgs : List Message} {n : Nat} {u : String}
    {st : MessageStatus} (h : recStatus msgs n u = some st) :
    ∃ m ∈ msgs, m.mid = n := by
  unfold recStatus at h
  cases hf : msgs.find? (fun m => m.mid = n) with
  | none =>
    rw [hf] at h
    simp at h
  | some m =>
    have hm := List.mem_of_find?_eq_some hf
    have hmid := List.find?_some hf
    simp only [decide_eq_true_eq] at hmid
    exact ⟨m, hm, hmid⟩

theorem getRoom_updateConn (s : ChatState) (c' : Conn) (r : String) :
    getRoom (updateConn s c') r = getRoom s r := rfl

theorem isUserInRoom_updateConn (s : ChatState) (c' : Conn) (r u : String) :
    isUserInRoom (updateConn s c') r u = isUserInRoom s r u := rfl

theorem updateConn_cids (s : ChatState) (c' : Conn) :
    (updateConn s c').sockets.map (fun c => c.cid) =
      s.sockets.map (fun c => c.cid) := by
  show ((s.sockets.map (fun c0 => if c0.cid = c'.cid then c' else c0)).map
    (fun c => c.cid)) = s.sockets.map (fun c => c.cid)
  rw [List.map_map]
  apply List.map_congr_left
  intro c0 _
  by_cases h : c0.cid = c'.cid
  · simp [Function.comp, h]
  · simp [Function.comp, h]

theorem updateConn_core (s : ChatState) (hcore : InvCore s) (c c' : Conn)
    (hmem : c ∈ s.sockets) (hcid : c'.cid = c.cid) (huid : c'.userId = c.userId) :
    InvCore (updateConn s c') := by
  constructor
  · exact hcore.midLt
  · exact hcore.midNodup
  · exact hcore.recvNodup
  · exact hcore.pendNodup
  · exact hcore.pendWF
  · exact hcore.pendRoomNE
  · intro kv hkv
    rcases hcore.presLive kv hkv with ⟨c2, hc2, h2cid, h2uid⟩
    by_cases h : c2.cid = c'.cid
    · have hc2c : c2 = c := by
        apply List.inj_on_of_nodup_map hcore.sockNodup hc2 hmem
        rw [h, hcid]
      refine ⟨c', ?_, ?_, ?_⟩
      · show c' ∈ s.sockets.map (fun c0 => if c0.cid = c'.cid then c' else c0)
        exact List.mem_map.mpr ⟨c2, hc2, by rw [if_pos h]⟩
      · rw [hcid, ← hc2c]
        exact h2cid
      · rw [huid, ← hc2c]
        exact h2uid
    · refine ⟨c2, ?_, h2cid, h2uid⟩
      show c2 ∈ s.sockets.map (fun c0 => if c0.cid = c'.cid then c' else c0)
      exact List.mem_map.mpr ⟨c2, hc2, by rw [if_neg h]⟩
  · rw [updateConn_cids s c']
    exact hcore.sockNodup
  · exact hcore.roomsWF

/-! Initialization and composition of the send loop at the handler
level. -/

theorem sendLoopInv_nil_Inv (s : ChatState) (roomId : String) (mid0 : Nat)
    (newMsg : Message) (allPs : List String) (σ : ChatState)
    (hΦ : SendLoopInv s roomId mid0 newMsg allPs [] σ) : Inv σ :=
  ⟨hΦ.core, fun n u => hΦ.projOK n u (fun hc => (List.not_mem_nil u) hc.2)⟩

theorem sendInit (s : ChatState) (hInv : Inv s) (roomId senderId body : String)
    (allPs : List String) (hnd : allPs.Nodup) (M : Message)
    (hM : M = Message.mk s.nextId roomId senderId body
      (allPs.map (fun u => Receiver.mk u MessageStatus.SENT))) :
    SendLoopInv s roomId s.nextId M allPs allPs
      { s with messages := s.messages ++ [M], nextId := s.nextId + 1 } := by
  have hMmid : M.mid = s.nextId := by rw [hM]
  have hMrecv : M.receivers.map (fun r => r.userId) = allPs := by
    rw [hM]
    exact receivers_map_userId allPs MessageStatus.SENT
  have hfresh : ∀ m0 ∈ s.messages, ¬ m0.mid = M.mid := by
    intro m0 hm0 he
    have hlt := hInv.midLt m0 hm0
    rw [he, hMmid] at hlt
    exact Nat.lt_irrefl _ hlt
  have hnotin : s.nextId ∉ midsOf s.messages := by
    intro hmem
    rcases List.mem_map.mp hmem with ⟨m0, hm0, he⟩
    have hlt := hInv.midLt m0 hm0
    rw [he] at hlt
    exact Nat.lt_irrefl _ hlt
  constructor
  · rfl
  · rfl
  · rfl
  · rfl
  · rfl
  · constructor
    · intro m hm
      show m.mid < s.nextId + 1
      rcases List.mem_append.mp hm with h1 | h1
      · exact Nat.lt_succ_of_lt (hInv.midLt m h1)
      · rw [List.mem_singleton.mp h1, hMmid]
        exact Nat.lt_succ_self _
    · show (midsOf (s.messages ++ [M])).Nodup
      rw [midsOf_append, hMmid]
      exact nodup_append_singleton _ _ hInv.midNodup hnotin
    · intro m hm
      rcases List.mem_append.mp hm with h1 | h1
      · exact hInv.recvNodup m h1
      · rw [List.mem_singleton.mp h1, hMrecv]
        exact hnd
    · exact hInv.pendNodup
    · intro k hk
      rcases hInv.pendWF k hk with ⟨n, href, m, hm, hmid, hroom, hrecv⟩
      exact ⟨n, href, m, List.mem_append_left _ hm, hmid, hroom, hrecv⟩
    · exact hInv.pendRoomNE
    · exact hInv.presLive
    · exact hInv.sockNodup
    · exact hInv.roomsWF
  · exact hnd
  · exact fun p hp => hp
  · intro n u' hnex st r hrec0 hroom0
    have hrec : recStatus (s.messages ++ [M]) n u' = some st := hrec0
    have hroom : msgRoom (s.messages ++ [M]) n = some r := hroom0
    show alGet s.pending ⟨u', r, MsgRef.mId n⟩ = some st ∨
      (st = MessageStatus.SEEN ∧ alGet s.pending ⟨u', r, MsgRef.mId n⟩ = none)
    by_cases hn : n = s.nextId
    · exfalso
      have hu' : u' ∉ allPs := fun hu => hnex ⟨hn, hu⟩
      rw [hn, ← hMmid] at hrec
      rw [recStatus_append_new s.messages M u' hfresh] at hrec
      have hfnone : M.receivers.find? (fun r0 => r0.userId = u') = none := by
        rw [hM]
        exact find?_mk_none allPs MessageStatus.SENT u' hu'
      rw [hfnone] at hrec
      exact Option.noConfusion hrec
    · rw [recStatus_append_old s.messages M n u' (fun he => hn (he ▸ hMmid))] at hrec
      rw [msgRoom_append_old s.messages M n (fun he => hn (he ▸ hMmid))] at hroom
      exact hInv.proj n u' st r hrec hroom
  · intro p hp
    constructor
    · show recStatus (s.messages ++ [M]) s.nextId p = some MessageStatus.SENT
      rw [← hMmid, recStatus_append_new s.messages M p hfresh]
      rw [hM]
      exact find?_mk_sent allPs p hp
    · show alGet s.pending ⟨p, roomId, MsgRef.mId s.nextId⟩ = none
      rw [alGet_eq_none_iff]
      intro hmem
      rcases hInv.pendWF _ hmem with ⟨n, href, m, hm, hmid, -, -⟩
      have hrefn : s.nextId = n := by injection href
      have hlt := hInv.midLt m hm
      rw [hmid, ← hrefn] at hlt
      exact Nat.lt_irrefl _ hlt
  · intro p hp hnp
    exact absurd hp hnp

theorem sendStep_mono (s : ChatState) (roomId : String) (mid0 : Nat)
    (newMsg : Message) (allPs : List String) (p : String) (rem : List String)
    (σ : ChatState)
    (hΦ : SendLoopInv s roomId mid0 newMsg allPs (p :: rem) σ)
    (hrne : ¬ roomId = "") (hmidm : newMsg.mid = mid0)
    (hroomm : newMsg.room_id = roomId)
    (hrecvm : p ∈ newMsg.receivers.map (fun r => r.userId))
    (n : Nat) (u : String) (st : MessageStatus)
    (h : recStatus σ.messages n u = some st) :
    ∃ st', recStatus (deliverTo roomId mid0 σ p).messages n u = some st' ∧
      st.rank ≤ st'.rank := by
  have hp_notrem : p ∉ rem := (List.nodup_cons.mp hΦ.remNodup).1
  have hpsent := hΦ.remSENT p (List.mem_cons_self _ _)
  unfold deliverTo
  cases hpres : alGet σ.presence p with
  | none => exact ⟨st, h, Nat.le_refl _⟩
  | some clientId =>
    dsimp only
    cases hfind : σ.sockets.find? (fun c => c.cid = clientId) with
    | none => exact ⟨st, h, Nat.le_refl _⟩
    | some sock =>
      dsimp only
      by_cases hj : roomId ∈ sock.joined
      · rw [if_pos hj]
        by_cases hpair : n = mid0 ∧ u = p
        · refine ⟨MessageStatus.SEEN, ?_, rank_le_seen st⟩
          show recStatus (updateMessageStatus σ.messages mid0 p MessageStatus.SEEN)
            n u = some MessageStatus.SEEN
          rw [hpair.1, hpair.2, recStatus_ums_self]
          rw [hpair.1, hpair.2] at h
          rw [h]
          rfl
        · refine ⟨st, ?_, Nat.le_refl _⟩
          show recStatus (updateMessageStatus σ.messages mid0 p MessageStatus.SEEN)
            n u = some st
          rw [recStatus_ums_ne _ _ _ _ _ _ hpair]
          exact h
      · rw [if_neg hj]
        have hlive : ∀ kv ∈ σ.presence, ∃ c ∈ σ.sockets, c.cid = kv.2 ∧
            c.userId = kv.1 := hΦ.core.presLive
        have huid : sock.userId = p :=
          find?_socket_userId σ.sockets σ.presence hlive hΦ.core.sockNodup
            hpres hfind
        rw [huid]
        have hpres2 : alGet s.presence p = some clientId := by
          rw [← hΦ.presence_eq]
          exact hpres
        have hfind2 : s.sockets.find? (fun c => c.cid = clientId) = some sock := by
          rw [← hΦ.sockets_eq]
          exact hfind
        have hΦ1 : SendLoopInv s roomId mid0 newMsg allPs rem
            { σ with
              pending := alSet σ.pending (PKey.mk p roomId (MsgRef.mId mid0))
                MessageStatus.DELIVERED
              messages := updateMessageStatus σ.messages mid0 p
                MessageStatus.DELIVERED } := by
          apply sendMark_inv s roomId mid0 newMsg allPs p rem σ hΦ hrne hmidm
            hroomm hrecvm MessageStatus.DELIVERED _ (ums_map_mSkel _ _ _ _)
          · intro n' u'
            by_cases hpair : n' = mid0 ∧ u' = p
            · rw [if_pos hpair, hpair.1, hpair.2]
              exact recStatus_ums_self σ.messages mid0 p MessageStatus.DELIVERED
            · rw [if_neg hpair]
              exact recStatus_ums_ne σ.messages mid0 n' p u' MessageStatus.DELIVERED
                hpair
          · intro v hv
            rw [presenceResolve_delivered roomId hpres2 hfind2 hj] at hv
            injection hv with hv
            subst hv
            constructor
            · show recStatus (updateMessageStatus σ.messages mid0 p
                  MessageStatus.DELIVERED) mid0 p = some MessageStatus.DELIVERED
              rw [recStatus_ums_self, hpsent.1]
              rfl
            · exact alGet_alSet_self _ _ _
        show ∃ st', recStatus ((handleUnreadMessages
          { σ with
            pending := alSet σ.pending (PKey.mk p roomId (MsgRef.mId mid0))
              MessageStatus.DELIVERED
            messages := updateMessageStatus σ.messages mid0 p
              MessageStatus.DELIVERED } p).1).messages n u = some st' ∧
          st.rank ≤ st'.rank
        by_cases hpair : n = mid0 ∧ u = p
        · have hst : st = MessageStatus.SENT := by
            rw [hpair.1, hpair.2] at h
            rw [hpsent.1] at h
            exact (Option.some_inj.mp h).symm
          have hmid1 : recStatus (updateMessageStatus σ.messages mid0 p
              MessageStatus.DELIVERED) n u = some MessageStatus.DELIVERED := by
            rw [hpair.1, hpair.2, recStatus_ums_self, hpsent.1]
            rfl
          rcases handleUnread_mono _ p hΦ1.core n u
            (hΦ1.projOK n u (fun hc => hp_notrem (hpair.2 ▸ hc.2)))
            MessageStatus.DELIVERED hmid1 with ⟨st', hst', hle'⟩
          refine ⟨st', hst', ?_⟩
          rw [hst]
          exact Nat.le_trans (by simp [MessageStatus.rank]) hle'
        · have hmid1 : recStatus (updateMessageStatus σ.messages mid0 p
              MessageStatus.DELIVERED) n u = some st := by
            rw [recStatus_ums_ne _ _ _ _ _ _ hpair]
            exact h
          by_cases hu : u = p
          · exact handleUnread_mono _ p hΦ1.core n u
              (hΦ1.projOK n u (fun hc => hp_notrem (hu ▸ hc.2))) st hmid1
          · refine ⟨st, ?_, Nat.le_refl _⟩
            rw [handleUnread_recStatus _ p hΦ1.core.pendNodup hΦ1.core.midNodup
              hΦ1.core.pendWF n u]
            rw [if_neg (fun hc => hu hc.1)]
            exact hmid1

theorem sendFold_inv (s : ChatState) (roomId : String) (mid0 : Nat)
    (newMsg : Message) (allPs : List String)
    (hrne : ¬ roomId = "") (hmidm : newMsg.mid = mid0)
    (hroomm : newMsg.room_id = roomId)
    (hrecv_all : newMsg.receivers.map (fun r => r.userId) = allPs) :
    ∀ rem σ, SendLoopInv s roomId mid0 newMsg allPs rem σ →
      SendLoopInv s roomId mid0 newMsg allPs []
        (rem.foldl (deliverTo roomId mid0) σ) := by
  intro rem
  induction rem with
  | nil =>
    intro σ h
    exact h
  | cons p rest ih =>
    intro σ h
    rw [List.foldl_cons]
    apply ih
    apply sendStep s roomId mid0 newMsg allPs p rest σ h hrne hmidm hroomm
    rw [hrecv_all]
    exact h.remSub p (List.mem_cons_self _ _)

theorem sendFold_mono (s : ChatState) (roomId : String) (mid0 : Nat)
    (newMsg : Message) (allPs : List String)
    (hrne : ¬ roomId = "") (hmidm : newMsg.mid = mid0)
    (hroomm : newMsg.room_id = roomId)
    (hrecv_all : newMsg.receivers.map (fun r => r.userId) = allPs) :
    ∀ rem σ, SendLoopInv s roomId mid0 newMsg allPs rem σ →
      ∀ n u st, recStatus σ.messages n u = some st →
        ∃ st', recStatus ((rem.foldl (deliverTo roomId mid0) σ)).messages n u =
          some st' ∧ st.rank ≤ st'.rank := by
  intro rem
  induction rem with
  | nil =>
    intro σ hΦ n u st h
    exact ⟨st, h, Nat.le_refl _⟩
  | cons p rest ih =>
    intro σ hΦ n u st h
    rw [List.foldl_cons]
    have hrecvm : p ∈ newMsg.receivers.map (fun r => r.userId) := by
      rw [hrecv_all]
      exact hΦ.remSub p (List.mem_cons_self _ _)
    rcases sendStep_mono s roomId mid0 newMsg allPs p rest σ hΦ hrne hmidm hroomm
      hrecvm n u st h with ⟨st1, h1, hle1⟩
    have hΦ2 := sendStep s roomId mid0 newMsg allPs p rest σ hΦ hrne hmidm hroomm
      hrecvm
    rcases ih _ hΦ2 n u st1 h1 with ⟨st2, h2, hle2⟩
    exact ⟨st2, h2, Nat.le_trans hle1 hle2⟩

/-! Handler-level lemmas for the send handler: guard-path
characterizations, invariant preservation, monotonicity, and the
per-recipient outcome. -/

theorem handleSend_nosock (s : ChatState) (cid body : String)
    (h : s.sockets.find? (fun x => x.cid = cid) = none) :
    handleSendMessage s cid body =
      (s, ⟨false, "An error occurred while sending the message"⟩) := by
  unfold handleSendMessage
  rw [h]

theorem handleSend_noroom (s : ChatState) (cid body : String) (c : Conn)
    (hc : s.sockets.find? (fun x => x.cid = cid) = some c)
    (hr : c.roomId = none) :
    handleSendMessage s cid body = (s, ⟨false, "You are not in a room"⟩) := by
  unfold handleSendMessage
  rw [hc]
  dsimp only
  rw [hr]

theorem handleSend_empty (s : ChatState) (cid body : String) (c : Conn)
    (hc : s.sockets.find? (fun x => x.cid = cid) = some c)
    (hr : c.roomId = some "") :
    handleSendMessage s cid body = (s, ⟨false, "You are not in a room"⟩) := by
  unfold handleSendMessage
  rw [hc]
  dsimp only
  rw [hr]
  dsimp only
  rw [if_pos rfl]

theorem handleSend_norm (s : ChatState) (cid body : String) (c : Conn)
    (roomId : String)
    (hc : s.sockets.find? (fun x => x.cid = cid) = some c)
    (hr : c.roomId = some roomId) (hrne : ¬ roomId = "")
    (hget : getRoom s roomId = none) :
    handleSendMessage s cid body =
      (s, ⟨false, "An error occurred while sending the message"⟩) := by
  unfold handleSendMessage
  rw [hc]
  dsimp only
  rw [hr]
  dsimp only
  rw [if_neg hrne, hget]

theorem handleSend_nomem (s : ChatState) (cid body : String) (c : Conn)
    (roomId : String) (room : Room)
    (hc : s.sockets.find? (fun x => x.cid = cid) = some c)
    (hr : c.roomId = some roomId) (hrne : ¬ roomId = "")
    (hget : getRoom s roomId = some room)
    (hmem : isUserInRoom s roomId c.userId = false) :
    handleSendMessage s cid body =
      (s, ⟨false, "You are not a participant of this room"⟩) := by
  unfold handleSendMessage
  rw [hc]
  dsimp only
  rw [hr]
  dsimp only
  rw [if_neg hrne, hget]
  dsimp only
  rw [if_pos (fun hh => Bool.false_ne_true (hmem ▸ hh))]

theorem handleSend_state (s : ChatState) (cid body : String) (c : Conn)
    (roomId : String) (room : Room)
    (hc : s.sockets.find? (fun x => x.cid = cid) = some c)
    (hr : c.roomId = some roomId) (hrne : ¬ roomId = "")
    (hget : getRoom s roomId = some room)
    (hmem : isUserInRoom s roomId c.userId = true) :
    (handleSendMessage s cid body).1 =
      ((room.participants.map (fun q => q.userId)).filter
        (fun u0 => ¬ u0 = c.userId)).foldl (deliverTo roomId s.nextId)
        { s with
          messages := s.messages ++ [Message.mk s.nextId roomId c.userId body
            (((room.participants.map (fun q => q.userId)).filter
              (fun u0 => ¬ u0 = c.userId)).map
              (fun u0 => Receiver.mk u0 MessageStatus.SENT))]
          nextId := s.nextId + 1 } := by
  unfold handleSendMessage
  rw [hc]
  dsimp only
  rw [hr]
  dsimp only
  rw [if_neg hrne, hget]
  dsimp only
  rw [if_neg (fun hh => hh hmem)]
  rfl

theorem handleSend_Inv (s : ChatState) (hInv : Inv s) (cid body : String) :
    Inv (handleSendMessage s cid body).1 := by
  cases hc : s.sockets.find? (fun x => x.cid = cid) with
  | none =>
    rw [handleSend_nosock s cid body hc]
    exact hInv
  | some c =>
    cases hr : c.roomId with
    | none =>
      rw [handleSend_noroom s cid body c hc hr]
      exact hInv
    | some roomId =>
      by_cases hrne : roomId = ""
      · subst hrne
        rw [handleSend_empty s cid body c hc hr]
        exact hInv
      · cases hget : getRoom s roomId with
        | none =>
          rw [handleSend_norm s cid body c roomId hc hr hrne hget]
          exact hInv
        | some room =>
          cases hmem : isUserInRoom s roomId c.userId with
          | false =>
            rw [handleSend_nomem s cid body c roomId room hc hr hrne hget hmem]
            exact hInv
          | true =>
            rw [handleSend_state s cid body c roomId room hc hr hrne hget hmem]
            have hroommem : room ∈ s.rooms := List.mem_of_find?_eq_some hget
            have hnd : ((room.participants.map (fun q => q.userId)).filter
                (fun u0 => ¬ u0 = c.userId)).Nodup :=
              List.Nodup.filter _ (hInv.roomsWF.2 room hroommem)
            have hΦ0 := sendInit s hInv roomId c.userId body
              ((room.participants.map (fun q => q.userId)).filter
                (fun u0 => ¬ u0 = c.userId)) hnd _ rfl
            exact sendLoopInv_nil_Inv s roomId s.nextId _ _ _
              (sendFold_inv s roomId s.nextId _ _ hrne rfl rfl
                (receivers_map_userId _ _) _ _ hΦ0)

theorem handleSend_mono (s : ChatState) (hInv : Inv s) (cid body : String)
    (n : Nat) (u : String) (st : MessageStatus)
    (h : recStatus s.messages n u = some st) :
    ∃ st', recStatus (handleSendMessage s cid body).1.messages n u = some st' ∧
      st.rank ≤ st'.rank := by
  cases hc : s.sockets.find? (fun x => x.cid = cid) with
  | none =>
    rw [handleSend_nosock s cid body hc]
    exact ⟨st, h, Nat.le_refl _⟩
  | some c =>
    cases hr : c.roomId with
    | none =>
      rw [handleSend_noroom s cid body c hc hr]
      exact ⟨st, h, Nat.le_refl _⟩
    | some roomId =>
      by_cases hrne : roomId = ""
      · subst hrne
        rw [handleSend_empty s cid body c hc hr]
        exact ⟨st, h, Nat.le_refl _⟩
      · cases hget : getRoom s roomId with
        | none =>
          rw [handleSend_norm s cid body c roomId hc hr hrne hget]
          exact ⟨st, h, Nat.le_refl _⟩
        | some room =>
          cases hmem : isUserInRoom s roomId c.userId with
          | false =>
            rw [handleSend_nomem s cid body c roomId room hc hr hrne hget hmem]
            exact ⟨st, h, Nat.le_refl _⟩
          | true =>
            rw [handleSend_state s cid body c roomId room hc hr hrne hget hmem]
            have hroommem : room ∈ s.rooms := List.mem_of_find?_eq_some hget
            have hnd : ((room.participants.map (fun q => q.userId)).filter
                (fun u0 => ¬ u0 = c.userId)).Nodup :=
              List.Nodup.filter _ (hInv.roomsWF.2 room hroommem)
            have hΦ0 := sendInit s hInv roomId c.userId body
              ((room.participants.map (fun q => q.userId)).filter
                (fun u0 => ¬ u0 = c.userId)) hnd _ rfl
            rcases recStatus_some_mid h with ⟨m, hm, hmid⟩
            have hne : ¬ s.nextId = n := by
              intro he
              have hlt := hInv.midLt m hm
              rw [hmid, ← he] at hlt
              exact Nat.lt_irrefl _ hlt
            refine sendFold_mono s roomId s.nextId _ _ hrne rfl rfl
              (receivers_map_userId _ _) _ _ hΦ0 n u st ?_
            show recStatus (s.messages ++ [Message.mk s.nextId roomId c.userId body
              (((room.participants.map (fun q => q.userId)).filter
                (fun u0 => ¬ u0 = c.userId)).map
                (fun u0 => Receiver.mk u0 MessageStatus.SENT))]) n u = some st
            rw [recStatus_append_old s.messages _ n u (fun he => hne he)]
            exact h

theorem handleSend_outcome (s : ChatState) (hInv : Inv s) (cid body : String)
    (c : Conn) (roomId : String) (room : Room)
    (hc : s.sockets.find? (fun x => x.cid = cid) = some c)
    (hr : c.roomId = some roomId) (hrne : ¬ roomId = "")
    (hget : getRoom s roomId = some room)
    (hmem : isUserInRoom s roomId c.userId = true)
    (p : String)
    (hp : p ∈ (room.participants.map (fun q => q.userId)).filter
      (fun u0 => ¬ u0 = c.userId)) :
    deliverOutcome s roomId s.nextId (handleSendMessage s cid body).1 p := by
  rw [handleSend_state s cid body c roomId room hc hr hrne hget hmem]
  have hroommem : room ∈ s.rooms := List.mem_of_find?_eq_some hget
  have hnd : ((room.participants.map (fun q => q.userId)).filter
      (fun u0 => ¬ u0 = c.userId)).Nodup :=
    List.Nodup.filter _ (hInv.roomsWF.2 room hroommem)
  have hΦ0 := sendInit s hInv roomId c.userId body
    ((room.participants.map (fun q => q.userId)).filter
      (fun u0 => ¬ u0 = c.userId)) hnd _ rfl
  have hΦ := sendFold_inv s roomId s.nextId _ _ hrne rfl rfl
    (receivers_map_userId _ _) _ _ hΦ0
  exact hΦ.doneOut p hp (List.not_mem_nil p)

/-! Handler-level lemmas for join, leave, connect and disconnect. -/

theorem wildcard_noop (s : ChatState) (hcore : InvCore s) (u r : String) :
    wildcardStatusDelete s.pending u r = s.pending := by
  unfold wildcardStatusDelete
  apply alDel_eq_self
  intro kv hkv he
  rcases hcore.pendWF kv.1 (List.mem_map_of_mem _ hkv) with ⟨n, href, -⟩
  rw [he] at href
  exact MsgRef.noConfusion (show MsgRef.star = MsgRef.mId n from href)

theorem handleJoin_nosock (s : ChatState) (cid roomId : String)
    (h : s.sockets.find? (fun x => x.cid = cid) = none) :
    handleJoinRoom s cid roomId =
      (s, ⟨false, "An error occurred while joining the room", none⟩) := by
  unfold handleJoinRoom
  rw [h]

theorem handleJoin_noroom (s : ChatState) (cid roomId : String) (c : Conn)
    (hc : s.sockets.find? (fun x => x.cid = cid) = some c)
    (hget : getRoom s roomId = none) :
    handleJoinRoom s cid roomId =
      (updateConn s (Conn.mk c.cid c.userId (some roomId) c.joined),
       ⟨false, "An error occurred while joining the room", none⟩) := by
  unfold handleJoinRoom
  rw [hc]
  dsimp only
  rw [getRoom_updateConn, hget]

theorem handleJoin_nomem (s : ChatState) (cid roomId : String) (c : Conn)
    (room : Room)
    (hc : s.sockets.find? (fun x => x.cid = cid) = some c)
    (hget : getRoom s roomId = some room)
    (hmem : isUserInRoom s roomId c.userId = false) :
    handleJoinRoom s cid roomId =
      (updateConn s (Conn.mk c.cid c.userId (some roomId) c.joined),
       ⟨false, "You are not authorized to join this room", none⟩) := by
  unfold handleJoinRoom
  rw [hc]
  dsimp only
  rw [getRoom_updateConn, hget]
  dsimp only
  rw [if_pos (show ¬ isUserInRoom (updateConn s
    (Conn.mk c.cid c.userId (some roomId) c.joined)) roomId c.userId = true
    from fun hh => Bool.false_ne_true
      (hmem ▸ (show isUserInRoom s roomId c.userId = true from hh)))]

theorem handleJoin_state (s : ChatState) (cid roomId : String) (c : Conn)
    (room : Room)
    (hc : s.sockets.find? (fun x => x.cid = cid) = some c)
    (hget : getRoom s roomId = some room)
    (hmem : isUserInRoom s roomId c.userId = true) :
    (handleJoinRoom s cid roomId).1 =
      (handleLoadMessages
        { updateConn (updateConn s (Conn.mk c.cid c.userId (some roomId) c.joined))
            (Conn.mk c.cid c.userId (some roomId)
              (if roomId ∈ c.joined then c.joined else roomId :: c.joined)) with
          pending := wildcardStatusDelete s.pending c.userId roomId }
        (Conn.mk c.cid c.userId (some roomId)
          (if roomId ∈ c.joined then c.joined else roomId :: c.joined))).1 := by
  unfold handleJoinRoom
  rw [hc]
  dsimp only
  rw [getRoom_updateConn, hget]
  dsimp only
  rw [if_neg (fun hh => hh (show isUserInRoom (updateConn s
    (Conn.mk c.cid c.userId (some roomId) c.joined)) roomId c.userId = true
    from hmem))]
  rfl

theorem handleJoin_Inv (s : ChatState) (hInv : Inv s) (cid roomId : String) :
    Inv (handleJoinRoom s cid roomId).1 := by
  cases hc : s.sockets.find? (fun x => x.cid = cid) with
  | none =>
    rw [handleJoin_nosock s cid roomId hc]
    exact hInv
  | some c =>
    have hcmem : c ∈ s.sockets := List.mem_of_find?_eq_some hc
    have hcore0 : InvCore (updateConn s
        (Conn.mk c.cid c.userId (some roomId) c.joined)) :=
      updateConn_core s hInv.toInvCore c _ hcmem rfl rfl
    cases hget : getRoom s roomId with
    | none =>
      rw [handleJoin_noroom s cid roomId c hc hget]
      exact ⟨hcore0, fun n u => hInv.proj n u⟩
    | some room =>
      cases hmem : isUserInRoom s roomId c.userId with
      | false =>
        rw [handleJoin_nomem s cid roomId c room hc hget hmem]
        exact ⟨hcore0, fun n u => hInv.proj n u⟩
      | true =>
        rw [handleJoin_state s cid roomId c room hc hget hmem]
        rw [wildcard_noop s hInv.toInvCore c.userId roomId]
        apply handleLoad_Inv
        have hc0mem : Conn.mk c.cid c.userId (some roomId) c.joined ∈
            (updateConn s (Conn.mk c.cid c.userId (some roomId) c.joined)).sockets := by
          show Conn.mk c.cid c.userId (some roomId) c.joined ∈
            s.sockets.map (fun x => if x.cid =
              (Conn.mk c.cid c.userId (some roomId) c.joined).cid
              then Conn.mk c.cid c.userId (some roomId) c.joined else x)
          exact List.mem_map.mpr ⟨c, hcmem, by rw [if_pos rfl]⟩
        exact ⟨updateConn_core _ hcore0 _ _ hc0mem rfl rfl,
          fun n u => hInv.proj n u⟩

theorem handleJoin_mono (s : ChatState) (hInv : Inv s) (cid roomId : String)
    (n : Nat) (u : String) (st : MessageStatus)
    (h : recStatus s.messages n u = some st) :
    ∃ st', recStatus (handleJoinRoom s cid roomId).1.messages n u = some st' ∧
      st.rank ≤ st'.rank := by
  cases hc : s.sockets.find? (fun x => x.cid = cid) with
  | none =>
    rw [handleJoin_nosock s cid roomId hc]
    exact ⟨st, h, Nat.le_refl _⟩
  | some c =>
    cases hget : getRoom s roomId with
    | none =>
      rw [handleJoin_noroom s cid roomId c hc hget]
      exact ⟨st, h, Nat.le_refl _⟩
    | some room =>
      cases hmem : isUserInRoom s roomId c.userId with
      | false =>
        rw [handleJoin_nomem s cid roomId c room hc hget hmem]
        exact ⟨st, h, Nat.le_refl _⟩
      | true =>
        rw [handleJoin_state s cid roomId c room hc hget hmem]
        rw [wildcard_noop s hInv.toInvCore c.userId roomId]
        exact handleLoad_mono _ _ n u st h

theorem handleLeave_nosock (s : ChatState) (cid : String)
    (h : s.sockets.find? (fun x => x.cid = cid) = none) :
    handleLeaveRoom s cid =
      (s, ⟨false, "An error occurred while leaving the room"⟩) := by
  unfold handleLeaveRoom
  rw [h]

theorem handleLeave_noattr (s : ChatState) (cid : String) (c : Conn)
    (hc : s.sockets.find? (fun x => x.cid = cid) = some c)
    (hr : c.roomId = none) :
    handleLeaveRoom s cid =
      (s, ⟨false, "An error occurred while leaving the room"⟩) := by
  unfold handleLeaveRoom
  rw [hc]
  dsimp only
  rw [hr]

theorem handleLeave_norm (s : ChatState) (cid : String) (c : Conn)
    (roomId : String)
    (hc : s.sockets.find? (fun x => x.cid = cid) = some c)
    (hr : c.roomId = some roomId)
    (hget : getRoom s roomId = none) :
    handleLeaveRoom s cid =
      (s, ⟨false, "An error occurred while leaving the room"⟩) := by
  unfold handleLeaveRoom
  rw [hc]
  dsimp only
  rw [hr]
  dsimp only
  rw [hget]

theorem handleLeave_nomem (s : ChatState) (cid : String) (c : Conn)
    (roomId : String) (room : Room)
    (hc : s.sockets.find? (fun x => x.cid = cid) = some c)
    (hr : c.roomId = some roomId)
    (hget : getRoom s roomId = some room)
    (hmem : isUserInRoom s roomId c.userId = false) :
    handleLeaveRoom s cid =
      (s, ⟨false, "You are not authorized to leave this room"⟩) := by
  unfold handleLeaveRoom
  rw [hc]
  dsimp only
  rw [hr]
  dsimp only
  rw [hget]
  dsimp only
  rw [if_pos (show ¬ isUserInRoom s roomId c.userId = true
    from fun hh => Bool.false_ne_true (hmem ▸ hh))]

theorem handleLeave_state (s : ChatState) (cid : String) (c : Conn)
    (roomId : String) (room : Room)
    (hc : s.sockets.find? (fun x => x.cid = cid) = some c)
    (hr : c.roomId = some roomId)
    (hget : getRoom s roomId = some room)
    (hmem : isUserInRoom s roomId c.userId = true) :
    (handleLeaveRoom s cid).1 =
      (handleUnreadMessages
        { updateConn s (Conn.mk c.cid c.userId c.roomId
            (c.joined.filter (fun r0 => ¬ r0 = roomId))) with
          pending := wildcardStatusDelete s.pending c.userId roomId }
        c.userId).1 := by
  unfold handleLeaveRoom
  rw [hc]
  dsimp only
  rw [hr]
  dsimp only
  rw [hget]
  dsimp only
  rw [if_neg (fun hh => hh hmem)]
  rfl

theorem handleLeave_Inv (s : ChatState) (hInv : Inv s) (cid : String) :
    Inv (handleLeaveRoom s cid).1 := by
  cases hc : s.sockets.find? (fun x => x.cid = cid) with
  | none =>
    rw [handleLeave_nosock s cid hc]
    exact hInv
  | some c =>
    have hcmem : c ∈ s.sockets := List.mem_of_find?_eq_some hc
    cases hr : c.roomId with
    | none =>
      rw [handleLeave_noattr s cid c hc hr]
      exact hInv
    | some roomId =>
      cases hget : getRoom s roomId with
      | none =>
        rw [handleLeave_norm s cid c roomId hc hr hget]
        exact hInv
      | some room =>
        cases hmem : isUserInRoom s roomId c.userId with
        | false =>
          rw [handleLeave_nomem s cid c roomId room hc hr hget hmem]
          exact hInv
        | true =>
          rw [handleLeave_state s cid c roomId room hc hr hget hmem]
          rw [wildcard_noop s hInv.toInvCore c.userId roomId]
          apply handleUnread_Inv
          exact ⟨updateConn_core s hInv.toInvCore c _ hcmem rfl rfl,
            fun n u => hInv.proj n u⟩

theorem handleLeave_mono (s : ChatState) (hInv : Inv s) (cid : String)
    (n : Nat) (u : String) (st : MessageStatus)
    (h : recStatus s.messages n u = some st) :
    ∃ st', recStatus (handleLeaveRoom s cid).1.messages n u = some st' ∧
      st.rank ≤ st'.rank := by
  cases hc : s.sockets.find? (fun x => x.cid = cid) with
  | none =>
    rw [handleLeave_nosock s cid hc]
    exact ⟨st, h, Nat.le_refl _⟩
  | some c =>
    have hcmem : c ∈ s.sockets := List.mem_of_find?_eq_some hc
    cases hr : c.roomId with
    | none =>
      rw [handleLeave_noattr s cid c hc hr]
      exact ⟨st, h, Nat.le_refl _⟩
    | some roomId =>
      cases hget : getRoom s roomId with
      | none =>
        rw [handleLeave_norm s cid c roomId hc hr hget]
        exact ⟨st, h, Nat.le_refl _⟩
      | some room =>
        cases hmem : isUserInRoom s roomId c.userId with
        | false =>
          rw [handleLeave_nomem s cid c roomId room hc hr hget hmem]
          exact ⟨st, h, Nat.le_refl _⟩
        | true =>
          rw [handleLeave_state s cid c roomId room hc hr hget hmem]
          rw [wildcard_noop s hInv.toInvCore c.userId roomId]
          exact handleUnread_mono
            (updateConn s (Conn.mk c.cid c.userId c.roomId
              (c.joined.filter (fun r0 => ¬ r0 = roomId)))) c.userId
            (updateConn_core s hInv.toInvCore c
              (Conn.mk c.cid c.userId c.roomId
                (c.joined.filter (fun r0 => ¬ r0 = roomId))) hcmem rfl rfl) n u
            (hInv.proj n u) st h

theorem connect_core (s : ChatState) (hcore : InvCore s) (u cid : String)
    (hfresh : ∀ c0 ∈ s.sockets, ¬ c0.cid = cid) :
    InvCore { s with sockets := s.sockets ++ [Conn.mk cid u none []],
                     presence := alSet s.presence u cid } := by
  refine ⟨hcore.midLt, hcore.midNodup, hcore.recvNodup, hcore.pendNodup,
    hcore.pendWF, hcore.pendRoomNE, ?_, ?_, hcore.roomsWF⟩
  · intro kv hkv
    rcases mem_alSet hkv with h1 | h1
    · rw [h1]
      exact ⟨Conn.mk cid u none [],
        List.mem_append_right _ (List.mem_singleton.mpr rfl), rfl, rfl⟩
    · rcases hcore.presLive kv h1 with ⟨c2, hc2, h2cid, h2uid⟩
      exact ⟨c2, List.mem_append_left _ hc2, h2cid, h2uid⟩
  · show (((s.sockets ++ [Conn.mk cid u none []]).map (fun c => c.cid))).Nodup
    rw [List.map_append]
    apply nodup_append_singleton _ _ hcore.sockNodup
    intro hmem
    rcases List.mem_map.mp hmem with ⟨c0, hc0, he⟩
    exact hfresh c0 hc0 he

theorem connect_Inv (s : ChatState) (hInv : Inv s) (u cid : String)
    (hfresh : ∀ c0 ∈ s.sockets, ¬ c0.cid = cid) :
    Inv (handleConnection s u cid) := by
  unfold handleConnection
  apply handleUnread_Inv
  exact ⟨connect_core s hInv.toInvCore u cid hfresh, fun n u' => hInv.proj n u'⟩

theorem connect_mono (s : ChatState) (hInv : Inv s) (u cid : String)
    (hfresh : ∀ c0 ∈ s.sockets, ¬ c0.cid = cid)
    (n : Nat) (u' : String) (st : MessageStatus)
    (h : recStatus s.messages n u' = some st) :
    ∃ st', recStatus (handleConnection s u cid).messages n u' = some st' ∧
      st.rank ≤ st'.rank := by
  unfold handleConnection
  exact handleUnread_mono _ u (connect_core s hInv.toInvCore u cid hfresh) n u'
    (hInv.proj n u') st h

theorem handleDisconnect_messages (s : ChatState) (cid : String) :
    (handleDisconnect s cid).messages = s.messages := by
  unfold handleDisconnect
  cases s.sockets.find? (fun c => c.cid = cid) with
  | none => rfl
  | some c => rfl

theorem disconnect_Inv (s : ChatState) (hInv : Inv s) (cid : String) :
    Inv (handleDisconnect s cid) := by
  unfold handleDisconnect
  cases hc : s.sockets.find? (fun x => x.cid = cid) with
  | none => exact hInv
  | some c =>
    have hcmem : c ∈ s.sockets := List.mem_of_find?_eq_some hc
    have hccid : c.cid = cid := by simpa using List.find?_some hc
    refine ⟨⟨hInv.midLt, hInv.midNodup, hInv.recvNodup, hInv.pendNodup,
      hInv.pendWF, hInv.pendRoomNE, ?_, ?_, hInv.roomsWF⟩,
      fun n u => hInv.proj n u⟩
    · intro kv hkv
      have hkv1 : kv ∈ s.presence := mem_alDel hkv
      have hkvne : ¬ kv.1 = c.userId := mem_alDel_fst hkv
      rcases hInv.presLive kv hkv1 with ⟨c2, hc2, h2cid, h2uid⟩
      refine ⟨c2, ?_, h2cid, h2uid⟩
      apply List.mem_filter.mpr
      refine ⟨hc2, decide_eq_true ?_⟩
      intro he
      have hc2c : c2 = c :=
        List.inj_on_of_nodup_map hInv.sockNodup hc2 hcmem (by rw [he, hccid])
      exact hkvne (by rw [← h2uid, hc2c])
    · exact List.Nodup.sublist
        (List.Sublist.map _ (List.filter_sublist _)) hInv.sockNodup

theorem disconnect_mono (s : ChatState) (cid : String)
    (n : Nat) (u : String) (st : MessageStatus)
    (h : recStatus s.messages n u = some st) :
    ∃ st', recStatus (handleDisconnect s cid).messages n u = some st' ∧
      st.rank ≤ st'.rank :=
  ⟨st, by rw [handleDisconnect_messages]; exact h, Nat.le_refl _⟩

/-! The invariant and receipt monotonicity at the level of the transition
system. -/

theorem applyOp_Inv (s : ChatState) (hInv : Inv s) (op : Op)
    (hok : opOK s op = true) : Inv (applyOp s op) := by
  cases op with
  | connect u cid =>
    have hfresh : ∀ c0 ∈ s.sockets, ¬ c0.cid = cid := by
      have h2 := hok
      simp only [opOK, decide_eq_true_eq] at h2
      intro c0 hc0
      simpa using List.all_eq_true.mp h2.2 c0 hc0
    exact connect_Inv s hInv u cid hfresh
  | disconnect cid => exact disconnect_Inv s hInv cid
  | joinRoom cid r => exact handleJoin_Inv s hInv cid r
  | leaveRoom cid => exact handleLeave_Inv s hInv cid
  | sendMessage cid b => exact handleSend_Inv s hInv cid b
  | loadMessages cid =>
    dsimp only [applyOp]
    cases hfind : s.sockets.find? (fun c => c.cid = cid) with
    | none => exact hInv
    | some c => exact handleLoad_Inv s c hInv
  | unreadMessages cid =>
    dsimp only [applyOp]
    cases hfind : s.sockets.find? (fun c => c.cid = cid) with
    | none => exact hInv
    | some c => exact handleUnread_Inv s c.userId hInv

theorem applyOp_mono (s : ChatState) (hInv : Inv s) (op : Op)
    (hok : opOK s op = true) (n : Nat) (u : String) (st : MessageStatus)
    (h : recStatus s.messages n u = some st) :
    ∃ st', recStatus (applyOp s op).messages n u = some st' ∧
      st.rank ≤ st'.rank := by
  cases op with
  | connect u0 cid =>
    have hfresh : ∀ c0 ∈ s.sockets, ¬ c0.cid = cid := by
      have h2 := hok
      simp only [opOK, decide_eq_true_eq] at h2
      intro c0 hc0
      simpa using List.all_eq_true.mp h2.2 c0 hc0
    exact connect_mono s hInv u0 cid hfresh n u st h
  | disconnect cid => exact disconnect_mono s cid n u st h
  | joinRoom cid r => exact handleJoin_mono s hInv cid r n u st h
  | leaveRoom cid => exact handleLeave_mono s hInv cid n u st h
  | sendMessage cid b => exact handleSend_mono s hInv cid b n u st h
  | loadMessages cid =>
    dsimp only [applyOp]
    cases hfind : s.sockets.find? (fun c => c.cid = cid) with
    | none => exact ⟨st, h, Nat.le_refl _⟩
    | some c => exact handleLoad_mono s c n u st h
  | unreadMessages cid =>
    dsimp only [applyOp]
    cases hfind : s.sockets.find? (fun c => c.cid = cid) with
    | none => exact ⟨st, h, Nat.le_refl _⟩
    | some c =>
      exact handleUnread_mono s c.userId hInv.toInvCore n u (hInv.proj n u) st h

theorem inv_init (rooms : List Room) (hWF : WFRooms rooms) :
    Inv (initState rooms) := by
  refine ⟨⟨?_, ?_, ?_, ?_, ?_, ?_, ?_, ?_, hWF⟩, ?_⟩
  · intro m hm
    exact absurd hm (List.not_mem_nil m)
  · exact List.nodup_nil
  · intro m hm
    exact absurd hm (List.not_mem_nil m)
  · exact List.nodup_nil
  · intro k hk
    exact absurd hk (List.not_mem_nil k)
  · intro k hk
    exact absurd hk (List.not_mem_nil k)
  · intro kv hkv
    exact absurd hkv (List.not_mem_nil kv)
  · exact List.nodup_nil
  · intro n u st r hrec hroom
    exact Option.noConfusion hrec

theorem inv_steps {s s' : ChatState} (hInv : Inv s)
    (h : Relation.ReflTransGen Step s s') : Inv s' := by
  induction h with
  | refl => exact hInv
  | tail h1 h2 ih =>
    rcases h2 with ⟨op, hok, he⟩
    rw [he]
    exact applyOp_Inv _ ih op hok

theorem inv_reach {s : ChatState} (h : Reachable s) : Inv s := by
  rcases h with ⟨rooms, hWF, hsteps⟩
  exact inv_steps (inv_init rooms hWF) hsteps

theorem mono_rtc {s s' : ChatState} (hInv : Inv s)
    (h : Relation.ReflTransGen Step s s') :
    ∀ n u st, recStatus s.messages n u = some st →
      ∃ st', recStatus s'.messages n u = some st' ∧ st.rank ≤ st'.rank := by
  induction h with
  | refl =>
    intro n u st hst
    exact ⟨st, hst, Nat.le_refl _⟩
  | tail h1 h2 ih =>
    intro n u st hst
    rcases ih n u st hst with ⟨st1, h1', hle1⟩
    rcases h2 with ⟨op, hok, he⟩
    rcases applyOp_mono _ (inv_steps hInv h1) op hok n u st1 h1' with ⟨st2, h2', hle2⟩
    rw [he]
    exact ⟨st2, h2', Nat.le_trans hle1 hle2⟩

/-! Reachability of the demonstration states. -/

theorem demoRooms_WF : WFRooms demoRooms := by
  constructor
  · decide
  · decide

theorem dA1_steps : Relation.ReflTransGen Step (initState demoRooms) dA1 :=
  Relation.ReflTransGen.tail Relation.ReflTransGen.refl
    ⟨Op.connect "a" "ca", by decide, rfl⟩

theorem dA2_steps : Relation.ReflTransGen Step (initState demoRooms) dA2 :=
  Relation.ReflTransGen.tail dA1_steps ⟨Op.joinRoom "ca" "r", by decide, rfl⟩

theorem dA3_steps : Relation.ReflTransGen Step (initState demoRooms) dA3 :=
  Relation.ReflTransGen.tail dA2_steps ⟨Op.sendMessage "ca" "hi", by decide, rfl⟩

theorem dB1_steps : Relation.ReflTransGen Step (initState demoRooms) dB1 :=
  Relation.ReflTransGen.tail dA2_steps ⟨Op.connect "b" "cb", by decide, rfl⟩

theorem dB2_steps : Relation.ReflTransGen Step (initState demoRooms) dB2 :=
  Relation.ReflTransGen.tail dB1_steps ⟨Op.joinRoom "cb" "r", by decide, rfl⟩

theorem dB3_steps : Relation.ReflTransGen Step (initState demoRooms) dB3 :=
  Relation.ReflTransGen.tail dB2_steps ⟨Op.sendMessage "ca" "hi", by decide, rfl⟩

theorem dC2_steps : Relation.ReflTransGen Step (initState demoRooms) dC2 :=
  Relation.ReflTransGen.tail
    (Relation.ReflTransGen.tail Relation.ReflTransGen.refl
      ⟨Op.connect "a" "c1", by decide, rfl⟩)
    ⟨Op.connect "a" "c2", by decide, rfl⟩

theorem dE1_steps : Relation.ReflTransGen Step (initState demoRooms) dE1 :=
  Relation.ReflTransGen.tail dB3_steps ⟨Op.connect "e" "ce", by decide, rfl⟩

theorem dE2_steps : Relation.ReflTransGen Step (initState demoRooms) dE2 :=
  Relation.ReflTransGen.tail dE1_steps ⟨Op.joinRoom "ce" "r", by decide, rfl⟩

theorem dA1_reach : Reachable dA1 := ⟨demoRooms, demoRooms_WF, dA1_steps⟩

theorem dA3_reach : Reachable dA3 := ⟨demoRooms, demoRooms_WF, dA3_steps⟩

theorem dB2_reach : Reachable dB2 := ⟨demoRooms, demoRooms_WF, dB2_steps⟩

theorem dB3_reach : Reachable dB3 := ⟨demoRooms, demoRooms_WF, dB3_steps⟩

theorem dC2_reach : Reachable dC2 := ⟨demoRooms, demoRooms_WF, dC2_steps⟩

theorem dE2_reach : Reachable dE2 := ⟨demoRooms, demoRooms_WF, dE2_steps⟩

/-! The ten claims. -/

/-- C1 (counterexample): the presence unregister on disconnect is not
conditional on the stored handle.  At the reachable state where identity
`a` has reconnected as `c2` while the stale socket `c1` is still
registered, disconnecting `c1` deletes `a`'s presence entry outright, so
the lookup no longer resolves to the newer connection `c2`. -/
theorem C1_unregister_not_conditional :
    Reachable dC2 ∧
    (dC2.sockets.find? (fun c => c.cid = "c1")).isSome = true ∧
    alGet dC2.presence "a" = some "c2" ∧
    dC3 = handleDisconnect dC2 "c1" ∧
    alGet dC3.presence "a" = none :=
  ⟨dC2_reach, by decide, by decide, rfl, by decide⟩

/-- C1 (amended): the disconnect handler's presence cleanup is
unconditional: whenever the disconnecting socket resolves, the identity's
presence entry is deleted outright, even when it stores a different
(newer) connection handle. -/
theorem C1_amended_disconnect_unconditional (s : ChatState) (cid : String)
    (c : Conn) (hc : s.sockets.find? (fun x => x.cid = cid) = some c) :
    (handleDisconnect s cid).presence = alDel s.presence c.userId ∧
    alGet (handleDisconnect s cid).presence c.userId = none := by
  unfold handleDisconnect
  rw [hc]
  exact ⟨rfl, alGet_alDel_self _ _⟩

/-- C1 (amended, witness): the amended statement applied at the concrete
reconnect trace. -/
theorem C1_amended_witness :
    dC2.sockets.find? (fun x => x.cid = "c1") = some (Conn.mk "c1" "a" none []) ∧
    alGet (handleDisconnect dC2 "c1").presence "a" = none :=
  ⟨by decide,
   (C1_amended_disconnect_unconditional dC2 "c1" (Conn.mk "c1" "a" none [])
     (by decide)).2⟩

/-- C2 (counterexample): the pending index is not "an entry exactly when
the receipt is SENT or DELIVERED", and a send to a recipient subscribed
to the target room DOES create an index entry: at the reachable state
after a send to the co-present `b`, the durable receipt is SEEN and the
index holds an entry for it, valued SEEN (which the handler's own
SENT/DELIVERED guard rejects). -/
theorem C2_pending_entry_for_subscribed :
    Reachable dB3 ∧
    recStatus dB3.messages 0 "b" = some MessageStatus.SEEN ∧
    alGet dB3.pending ⟨"b", "r", MsgRef.mId 0⟩ = some MessageStatus.SEEN ∧
    isPendingVal (alGet dB3.pending ⟨"b", "r", MsgRef.mId 0⟩) = false :=
  ⟨dB3_reach, by decide, by decide, by decide⟩

/-- C2 (amended): the projection that actually holds at every reachable
state: whenever a durable receipt is readable, the pending entry under
the receipt's room and message carries exactly the receipt's status,
except that a SEEN receipt may instead have no entry.  (A send to a
subscribed recipient thus stores a SEEN-valued entry.) -/
theorem C2_amended_projection (s : ChatState) (hreach : Reachable s)
    (n : Nat) (u : String) : ProjAt s n u :=
  (inv_reach hreach).proj n u

/-- C2 (amended, witness): the projection at the co-present-send state. -/
theorem C2_amended_witness : Reachable dB3 ∧ ProjAt dB3 0 "b" :=
  ⟨dB3_reach, C2_amended_projection dB3 dB3_reach 0 "b"⟩

/-- C3 (counterexample): a join that fails because the room does not
exist is not free of side effects: the connection's current-room
attribute is overwritten with the requested room id before the checks
run. -/
theorem C3_failed_join_side_effect :
    Reachable dA1 ∧
    getRoom dA1 "nope" = none ∧
    (handleJoinRoom dA1 "ca" "nope").2.success = false ∧
    dA1.sockets.find? (fun c => c.cid = "ca") = some (Conn.mk "ca" "a" none []) ∧
    (handleJoinRoom dA1 "ca" "nope").1 = dD2 ∧
    dD2.sockets.find? (fun c => c.cid = "ca") =
      some (Conn.mk "ca" "a" (some "nope") []) :=
  ⟨dA1_reach, by decide, by decide, by decide, rfl, by decide⟩

/-- C3 (amended): a join that fails the room-existence or the membership
check produces a failure response and leaves the state unchanged except
for the connection's current-room attribute, which has already been set
to the requested room id. -/
theorem C3_amended_failed_join (s : ChatState) (cid roomId : String) (c : Conn)
    (hc : s.sockets.find? (fun x => x.cid = cid) = some c)
    (hfail : getRoom s roomId = none ∨ isUserInRoom s roomId c.userId = false) :
    (handleJoinRoom s cid roomId).2.success = false ∧
    (handleJoinRoom s cid roomId).1 =
      updateConn s (Conn.mk c.cid c.userId (some roomId) c.joined) := by
  rcases hfail with h | h
  · rw [handleJoin_noroom s cid roomId c hc h]
    exact ⟨rfl, rfl⟩
  · cases hget : getRoom s roomId with
    | none =>
      rw [handleJoin_noroom s cid roomId c hc hget]
      exact ⟨rfl, rfl⟩
    | some room =>
      rw [handleJoin_nomem s cid roomId c room hc hget h]
      exact ⟨rfl, rfl⟩

/-- C3 (amended, witness): the amended statement at the concrete failed
join. -/
theorem C3_amended_witness :
    dA1.sockets.find? (fun x => x.cid = "ca") = some (Conn.mk "ca" "a" none []) ∧
    getRoom dA1 "nope" = none ∧
    ((handleJoinRoom dA1 "ca" "nope").2.success = false ∧
     (handleJoinRoom dA1 "ca" "nope").1 =
       updateConn dA1 (Conn.mk "ca" "a" (some "nope") [])) :=
  ⟨by decide, by decide,
   C3_amended_failed_join dA1 "ca" "nope" (Conn.mk "ca" "a" none [])
     (by decide) (Or.inl (by decide))⟩

/-- C4: for every (message, user) pair, the durable receipt status only
moves forward in the order SENT < DELIVERED < SEEN along every sequence
of gateway operations out of a reachable state. -/
theorem C4_receipt_monotonic (s s' : ChatState) (hreach : Reachable s)
    (hsteps : Relation.ReflTransGen Step s s')
    (n : Nat) (u : String) (st st' : MessageStatus)
    (h : recStatus s.messages n u = some st)
    (h' : recStatus s'.messages n u = some st') :
    st.rank ≤ st'.rank := by
  rcases mono_rtc (inv_reach hreach) hsteps n u st h with ⟨st2, h2, hle⟩
  rw [h'] at h2
  rw [Option.some_inj.mp h2]
  exact hle

/-- C4 (witness): the monotonicity theorem applied across the concrete
offline-send-then-reconnect step, where the receipt moves SENT to
DELIVERED. -/
theorem C4_witness :
    Reachable dA3 ∧
    recStatus dA3.messages 0 "b" = some MessageStatus.SENT ∧
    recStatus dA4.messages 0 "b" = some MessageStatus.DELIVERED ∧
    MessageStatus.SENT.rank ≤ MessageStatus.DELIVERED.rank :=
  ⟨dA3_reach, by decide, by decide,
   C4_receipt_monotonic dA3 dA4 dA3_reach
     (Relation.ReflTransGen.tail Relation.ReflTransGen.refl
       ⟨Op.connect "b" "cb", by decide, rfl⟩)
     0 "b" MessageStatus.SENT MessageStatus.DELIVERED (by decide) (by decide)⟩

/-- C5: a send to a recipient whose presence entry resolves to a live
socket subscribed to the target room sets that recipient's durable
receipt for the new message to SEEN within the same operation, and no
later sequence of operations ever makes it DELIVERED. -/
theorem C5_copresent_seen (s : ChatState) (hreach : Reachable s)
    (cid body : String) (c : Conn) (roomId : String) (room : Room)
    (hc : s.sockets.find? (fun x => x.cid = cid) = some c)
    (hr : c.roomId = some roomId) (hrne : ¬ roomId = "")
    (hget : getRoom s roomId = some room)
    (hmem : isUserInRoom s roomId c.userId = true)
    (p : String)
    (hp : p ∈ (room.participants.map (fun q => q.userId)).filter
      (fun u0 => ¬ u0 = c.userId))
    (hsee : presenceResolve s roomId p = some MessageStatus.SEEN) :
    recStatus (handleSendMessage s cid body).1.messages s.nextId p =
      some MessageStatus.SEEN ∧
    ∀ s', Relation.ReflTransGen Step (handleSendMessage s cid body).1 s' →
      ¬ recStatus s'.messages s.nextId p = some MessageStatus.DELIVERED := by
  have hInv := inv_reach hreach
  have hout := handleSend_outcome s hInv cid body c roomId room hc hr hrne hget
    hmem p hp
  have hseen := (hout MessageStatus.SEEN hsee).1
  refine ⟨hseen, ?_⟩
  intro s' hsteps hdel
  have hInv2 := handleSend_Inv s hInv cid body
  rcases mono_rtc hInv2 hsteps s.nextId p MessageStatus.SEEN hseen with
    ⟨st2, h2, hle⟩
  rw [hdel] at h2
  rw [← Option.some_inj.mp h2] at hle
  simp [MessageStatus.rank] at hle

/-- C5 (witness): the co-present send in the demonstration trace. -/
theorem C5_witness :
    Reachable dB2 ∧
    presenceResolve dB2 "r" "b" = some MessageStatus.SEEN ∧
    recStatus (handleSendMessage dB2 "ca" "hi").1.messages dB2.nextId "b" =
      some MessageStatus.SEEN ∧
    ¬ recStatus dB3.messages dB2.nextId "b" = some MessageStatus.DELIVERED := by
  have h := C5_copresent_seen dB2 dB2_reach "ca" "hi"
    (Conn.mk "ca" "a" (some "r") ["r"]) "r" (Room.mk "r" [⟨"a"⟩, ⟨"b"⟩])
    (by decide) (by decide) (by decide) (by decide) (by decide) "b"
    (by decide) (by decide)
  exact ⟨dB2_reach, by decide, h.1, h.2 dB3 Relation.ReflTransGen.refl⟩

/-- C6: the pending-receipt cleanup of join-room and leave-room deletes
only the literal star key, which is never a stored key at a reachable
state, so it removes nothing. -/
theorem C6_wildcard_cleanup_noop (s : ChatState) (hreach : Reachable s)
    (u r : String) :
    wildcardStatusDelete s.pending u r = s.pending :=
  wildcard_noop s (inv_reach hreach).toInvCore u r

/-- C6 (witness): the cleanup at the reachable state with a non-empty
pending index. -/
theorem C6_witness :
    Reachable dA3 ∧ ¬ dA3.pending = [] ∧
    wildcardStatusDelete dA3.pending "b" "r" = dA3.pending :=
  ⟨dA3_reach, by decide, C6_wildcard_cleanup_noop dA3 dA3_reach "b" "r"⟩

/-- C7: the unread sweep counts every SENT-or-DELIVERED pending entry of
the user once toward the global total and once toward its room's count,
promotes each such entry to DELIVERED in both the ephemeral index and the
durable store, and the promotion is permanent: no later operation
sequence ever brings the receipt back to SENT. -/
theorem C7_unread_sweep (s : ChatState) (hreach : Reachable s) (u : String) :
    (handleUnreadMessages s u).2.totalUnreadCount =
      ((userStatusKeys s.pending u).filter
        (fun k => isPendingVal (alGet s.pending k))).length ∧
    (∀ r, ¬ r = "" →
      (alGet (handleUnreadMessages s u).2.roomUnreadCounts r).getD 0 =
        ((userStatusKeys s.pending u).filter
          (fun k => isPendingVal (alGet s.pending k) ∧ k.roomId = r)).length) ∧
    (∀ k ∈ userStatusKeys s.pending u,
      isPendingVal (alGet s.pending k) = true →
      alGet (handleUnreadMessages s u).1.pending k =
        some MessageStatus.DELIVERED ∧
      ∀ n, k.msgRef = MsgRef.mId n →
        recStatus (handleUnreadMessages s u).1.messages n u =
          some MessageStatus.DELIVERED ∧
        ∀ s', Relation.ReflTransGen Step (handleUnreadMessages s u).1 s' →
          ∀ st', recStatus s'.messages n u = some st' →
            ¬ st' = MessageStatus.SENT) := by
  have hInv := inv_reach hreach
  have hcore := hInv.toInvCore
  refine ⟨handleUnread_total_spec s u hcore.pendNodup,
    fun r hr => handleUnread_roomCount_spec s u hcore.pendNodup r hr, ?_⟩
  intro k hk hpend
  have hku : k.userId = u := mem_userStatusKeys_userId hk
  refine ⟨?_, ?_⟩
  · rw [handleUnread_alGet s u hcore.pendNodup k]
    rw [if_pos ⟨hku, hpend⟩]
  · intro n hkref
    have hkkeys : k ∈ s.pending.map (fun kv => kv.1) := mem_userStatusKeys_keys hk
    rcases hcore.pendWF k hkkeys with ⟨n2, href2, m, hm, hmid, hroomeq, hurecv⟩
    have hn2 : n2 = n := by
      rw [hkref] at href2
      injection href2 with h0
      exact h0.symm
    have hmidn : m.mid = n := by
      rw [hmid, hn2]
    have hDel : recStatus (handleUnreadMessages s u).1.messages n u =
        some MessageStatus.DELIVERED := by
      rw [handleUnread_recStatus s u hcore.pendNodup hcore.midNodup hcore.pendWF n u]
      rw [if_pos ⟨rfl, k, hk, hkref, hpend⟩]
      rw [← hmidn, recStatus_of_mem u hcore.midNodup hm]
      have hsome : (m.receivers.find? (fun r0 => r0.userId = u)).isSome :=
        find?_userId_isSome (hku ▸ hurecv)
      cases hf : m.receivers.find? (fun r0 => r0.userId = u) with
      | none =>
        rw [hf] at hsome
        exact absurd hsome (by simp)
      | some r0 => rfl
    refine ⟨hDel, ?_⟩
    intro s' hsteps st' hst' hstSENT
    have hInv1 := handleUnread_Inv s u hInv
    rcases mono_rtc hInv1 hsteps n u MessageStatus.DELIVERED hDel with
      ⟨st2, h2, hle⟩
    rw [hst'] at h2
    rw [← Option.some_inj.mp h2, hstSENT] at hle
    simp [MessageStatus.rank] at hle

/-- C7 (witness): the sweep for `b` at the offline-send state: one SENT
entry counted in the total and in room `r`'s count, promoted to DELIVERED
in index and store, and not SENT afterwards. -/
theorem C7_witness :
    Reachable dA3 ∧
    (handleUnreadMessages dA3 "b").2.totalUnreadCount = 1 ∧
    (alGet (handleUnreadMessages dA3 "b").2.roomUnreadCounts "r").getD 0 = 1 ∧
    alGet (handleUnreadMessages dA3 "b").1.pending ⟨"b", "r", MsgRef.mId 0⟩ =
      some MessageStatus.DELIVERED ∧
    recStatus (handleUnreadMessages dA3 "b").1.messages 0 "b" =
      some MessageStatus.DELIVERED ∧
    ¬ MessageStatus.DELIVERED = MessageStatus.SENT := by
  have h := C7_unread_sweep dA3 dA3_reach "b"
  have h3 := h.2.2 ⟨"b", "r", MsgRef.mId 0⟩ (by decide) (by decide)
  have h4 := h3.2 0 rfl
  exact ⟨dA3_reach, h.1.trans (by decide), (h.2.1 "r" (by decide)).trans (by decide),
    h3.1, h4.1, h4.2 (handleUnreadMessages dA3 "b").1 Relation.ReflTransGen.refl
      MessageStatus.DELIVERED h4.1⟩

/-- C8 (counterexample): a create-room request whose participant list
contains the creator's own id fails with ConflictException, whose HTTP
status is 409, not an InvalidArgument-class (400) error. -/
theorem C8_self_add_conflict :
    createRoom [] (CreateRoomDto.mk none RoomType.GROUP ["u1"]) "u1" =
      (Except.error CtrlError.Conflict, []) ∧
    CtrlError.Conflict.httpStatus = 409 ∧
    ¬ CtrlError.Conflict.httpStatus = 400 :=
  ⟨rfl, rfl, by decide⟩

/-- C8 (amended): when the creator's id appears in participantIds, the
controller rejects the request with ConflictException before any service
call, and the room collection is unchanged. -/
theorem C8_amended_self_add (rooms : List SRoom) (dto : CreateRoomDto)
    (userId : String) (hself : userId ∈ dto.participantIds) :
    createRoom rooms dto userId = (Except.error CtrlError.Conflict, rooms) := by
  unfold createRoom
  rw [if_pos hself]

/-- C8 (amended, witness): the amended statement at the concrete self-add
request. -/
theorem C8_amended_witness :
    "u1" ∈ (CreateRoomDto.mk none RoomType.GROUP ["u1"]).participantIds ∧
    createRoom [] (CreateRoomDto.mk none RoomType.GROUP ["u1"]) "u1" =
      (Except.error CtrlError.Conflict, []) :=
  ⟨by decide, C8_amended_self_add [] (CreateRoomDto.mk none RoomType.GROUP ["u1"])
    "u1" (by decide)⟩

/-- C9: load-messages performs no membership authorization: whenever the
connection's current-room attribute names a non-empty room, the handler
returns all of that room's messages in ascending creation order and sets
every non-SEEN receipt of the connection's user in that room to SEEN,
whether or not that user is one of the room's participants. -/
theorem C9_load_no_authz (s : ChatState) (hcore : InvCore s) (c : Conn)
    (roomId : String) (hr : c.roomId = some roomId) (hrne : ¬ roomId = "") :
    (handleLoadMessages s c).2 =
      LoadResponse.mk true "" (getMessagesForRoom s roomId) ∧
    (getMessagesForRoom s roomId).Perm
      (s.messages.filter (fun m => m.room_id = roomId)) ∧
    List.Sorted midLE (getMessagesForRoom s roomId) ∧
    ∀ m ∈ getMessagesForRoom s roomId, isUnreadFor c.userId m = true →
      recStatus (handleLoadMessages s c).1.messages m.mid c.userId =
        some MessageStatus.SEEN := by
  refine ⟨handleLoad_response s c roomId hr hrne, getMessagesForRoom_perm s roomId,
    getMessagesForRoom_sorted s roomId, ?_⟩
  intro m hm hunread
  rw [handleLoad_state s c roomId hr hrne]
  rw [loadFold_recStatus]
  rw [if_pos ⟨rfl, List.mem_map.mpr ⟨m, List.mem_filter.mpr ⟨hm, hunread⟩, rfl⟩⟩]
  have hmem : m ∈ s.messages := (mem_getMessagesForRoom.mp hm).1
  rw [recStatus_of_mem c.userId hcore.midNodup hmem]
  unfold isUnreadFor at hunread
  cases hf : m.receivers.find? (fun r0 => r0.userId = c.userId) with
  | none =>
    rw [hf] at hunread
    exact Bool.noConfusion hunread
  | some r0 => rfl

/-- C9 (witness): the outsider `e`, never a participant of `r` but with
the current-room attribute left behind by its failed join, loads all of
`r`'s messages. -/
theorem C9_witness :
    Reachable dE2 ∧
    isUserInRoom dE2 "r" "e" = false ∧
    Conn.mk "ce" "e" (some "r") [] ∈ dE2.sockets ∧
    ¬ getMessagesForRoom dE2 "r" = [] ∧
    (handleLoadMessages dE2 (Conn.mk "ce" "e" (some "r") [])).2 =
      LoadResponse.mk true "" (getMessagesForRoom dE2 "r") :=
  ⟨dE2_reach, by decide, by decide, by decide,
   (C9_load_no_authz dE2 (inv_reach dE2_reach).toInvCore
     (Conn.mk "ce" "e" (some "r") []) "r" rfl (by decide)).1⟩

/-- C10: when every status key of the user carries a non-empty room
segment, the unread summary's global total equals the sum of the per-room
counts. -/
theorem C10_total_eq_sum (s : ChatState) (u : String)
    (hne : ∀ k ∈ userStatusKeys s.pending u, ¬ k.roomId = "") :
    (handleUnreadMessages s u).2.totalUnreadCount =
      sumVals (handleUnreadMessages s u).2.roomUnreadCounts :=
  handleUnread_sumOK s u hne

/-- C10 (witness): the sum identity at the offline-send state. -/
theorem C10_witness :
    (∀ k ∈ userStatusKeys dA3.pending "b", ¬ k.roomId = "") ∧
    (handleUnreadMessages dA3 "b").2.totalUnreadCount =
      sumVals (handleUnreadMessages dA3 "b").2.roomUnreadCounts :=
  ⟨by decide, C10_total_eq_sum dA3 "b" (by decide)⟩

end NestChat
